import Mathlib

/-! # robot_scheduler: permission catalog, credential codec, token service, auth pipeline

A shallow embedding of the Go sources under `internal/utils`, `internal/api/middleware`
and `internal/api/router`, together with the properties of the specification that
concern them.

Conventions of the embedding:

* a Go `string` / `[]byte` is a list of bytes (`GoString`); a Go string literal `"abc"`
  is written `ascii "abc"`;
* a Go function returning `(T, error)` returns `Except Failure T`, where a `Failure`
  is either a returned `error` value or a run-time panic;
* loops are written as structural recursions that follow the loop body statement by
  statement.
-/

set_option maxRecDepth 100000

namespace RobotScheduler

/-! ## Go strings -/

/-- One byte of a Go string or byte slice. -/
abbrev Byte := Fin 256

/-- Go strings are immutable byte sequences; nothing forces them to be valid UTF-8. -/
abbrev GoString := List Byte

/-- The bytes of an ASCII string literal of the source. -/
def ascii (s : String) : GoString := s.toList.map (fun c => Fin.ofNat c.toNat)

/-! ## `internal/model/entity/user.go` : roles -/

/-- Go: `type RoleType string`. -/
abbrev RoleType := GoString

def RoleAdministrator : RoleType := ascii "administrator"
def RoleManager : RoleType := ascii "manager"
def RoleOperator : RoleType := ascii "operator"
def RoleUser : RoleType := ascii "user"

/-! ## `internal/utils/permissions.go` -/

def PermissionUserManage : GoString := ascii "user:manage"
def PermissionUserView : GoString := ascii "user:view"
def PermissionMapManage : GoString := ascii "map:manage"
def PermissionMapView : GoString := ascii "map:view"
def PermissionTaskManage : GoString := ascii "task:manage"
def PermissionTaskView : GoString := ascii "task:view"
def PermissionDeviceManage : GoString := ascii "device:manage"
def PermissionDeviceView : GoString := ascii "device:view"
def PermissionOperationView : GoString := ascii "operation:view"

/-- Go: `func GetRolePermissions(role entity.RoleType) []string`, a `switch` on the role. -/
def GetRolePermissions (role : RoleType) : List GoString :=
  if role = RoleAdministrator then
    [PermissionUserManage, PermissionUserView, PermissionMapManage, PermissionMapView,
     PermissionTaskManage, PermissionTaskView, PermissionDeviceManage, PermissionDeviceView,
     PermissionOperationView]
  else if role = RoleManager then
    [PermissionUserView, PermissionMapManage, PermissionMapView, PermissionTaskManage,
     PermissionTaskView, PermissionDeviceManage, PermissionDeviceView, PermissionOperationView]
  else if role = RoleOperator then
    [PermissionUserView, PermissionMapView, PermissionTaskManage, PermissionTaskView,
     PermissionDeviceManage, PermissionDeviceView, PermissionOperationView]
  else if role = RoleUser then
    [PermissionUserView, PermissionDeviceView, PermissionTaskView, PermissionOperationView,
     PermissionMapView]
  else
    []

/-- The loop of `HasPermission`: return true at the first equal element. -/
def HasPermission.loop (permission : GoString) : List GoString → Bool
  | [] => false
  | p :: rest => if p = permission then true else HasPermission.loop permission rest

/-- Go: `func HasPermission(role entity.RoleType, permission string) bool`. -/
def HasPermission (role : RoleType) (permission : GoString) : Bool :=
  HasPermission.loop permission (GetRolePermissions role)

/-- A Go `map[string]bool`, as an association list with at most one entry per key. -/
abbrev BoolMap := List (GoString × Bool)

/-- Go: `m[k] = v`. -/
def BoolMap.set (m : BoolMap) (k : GoString) (v : Bool) : BoolMap :=
  (k, v) :: m.filter (fun e => e.1 ≠ k)

/-- Go: `m[k]`, the zero value `false` when the key is absent. -/
def BoolMap.index (m : BoolMap) (k : GoString) : Bool :=
  match m.lookup k with
  | some v => v
  | none => false

/-- The loop `for _, p := range rolePermissions { permissionMap[p] = true }`. -/
def buildPermissionMap : List GoString → BoolMap → BoolMap
  | [], m => m
  | p :: rest, m => buildPermissionMap rest (m.set p true)

/-- The second loop of `HasAnyPermission`: return true at the first permission held. -/
def HasAnyPermission.loop (permissionMap : BoolMap) : List GoString → Bool
  | [] => false
  | required :: rest =>
    if permissionMap.index required then true else HasAnyPermission.loop permissionMap rest

/-- Go: `func HasAnyPermission(role entity.RoleType, requiredPermissions ...string) bool`. -/
def HasAnyPermission (role : RoleType) (requiredPermissions : List GoString) : Bool :=
  if requiredPermissions.length = 0 then true
  else
    let rolePermissions := GetRolePermissions role
    let permissionMap := buildPermissionMap rolePermissions []
    HasAnyPermission.loop permissionMap requiredPermissions

/-- The second loop of `HasAllPermissions`: return false at the first permission missing. -/
def HasAllPermissions.loop (permissionMap : BoolMap) : List GoString → Bool
  | [] => true
  | required :: rest =>
    if !permissionMap.index required then false else HasAllPermissions.loop permissionMap rest

/-- Go: `func HasAllPermissions(role entity.RoleType, requiredPermissions ...string) bool`. -/
def HasAllPermissions (role : RoleType) (requiredPermissions : List GoString) : Bool :=
  if requiredPermissions.length = 0 then true
  else
    let rolePermissions := GetRolePermissions role
    let permissionMap := buildPermissionMap rolePermissions []
    HasAllPermissions.loop permissionMap requiredPermissions

/-! ## Errors, failures and results of a Go call -/

/-- A Go `error` value: its message, and the sentinel errors it wraps (what `errors.Is`
finds in it besides itself). -/
structure GoError where
  msg : String
  wraps : List String := []
  deriving DecidableEq, Repr

/-- Go: `errors.New(msg)`. -/
def errors.New (msg : String) : GoError := { msg := msg }

/-- Go: `errors.Is(err, target)` for a sentinel `target`. -/
def errors.Is (err target : GoError) : Bool :=
  decide (err = target) || decide (target.msg ∈ err.wraps)

/-- How a library call can fail: by returning a non-nil `error`, or by a run-time panic. -/
inductive Failure where
  | error (err : GoError)
  | panic (msg : String)
  deriving DecidableEq, Repr

/-- The outcome of a Go function with results `(T, error)`: both results as returned
(`err = none` is the nil error), or a panic that unwinds the call. -/
inductive GoResult (α : Type) where
  | ret (value : α) (err : Option GoError)
  | panic (msg : String)
  deriving DecidableEq, Repr

/-! ## Go standard library: `crypto/des` (FIPS 46-3)

The block cipher is written on bit strings, most significant bit first, with the tables
of the standard (positions counted from 1). -/

namespace des

def initialPermutation : List Nat :=
  [58, 50, 42, 34, 26, 18, 10, 2, 60, 52, 44, 36, 28, 20, 12, 4,
   62, 54, 46, 38, 30, 22, 14, 6, 64, 56, 48, 40, 32, 24, 16, 8,
   57, 49, 41, 33, 25, 17, 9, 1, 59, 51, 43, 35, 27, 19, 11, 3,
   61, 53, 45, 37, 29, 21, 13, 5, 63, 55, 47, 39, 31, 23, 15, 7]

def finalPermutation : List Nat :=
  [40, 8, 48, 16, 56, 24, 64, 32, 39, 7, 47, 15, 55, 23, 63, 31,
   38, 6, 46, 14, 54, 22, 62, 30, 37, 5, 45, 13, 53, 21, 61, 29,
   36, 4, 44, 12, 52, 20, 60, 28, 35, 3, 43, 11, 51, 19, 59, 27,
   34, 2, 42, 10, 50, 18, 58, 26, 33, 1, 41, 9, 49, 17, 57, 25]

def expansionFunction : List Nat :=
  [32, 1, 2, 3, 4, 5, 4, 5, 6, 7, 8, 9, 8, 9, 10, 11, 12, 13, 12, 13, 14, 15, 16, 17,
   16, 17, 18, 19, 20, 21, 20, 21, 22, 23, 24, 25, 24, 25, 26, 27, 28, 29, 28, 29, 30, 31, 32, 1]

def permutationFunction : List Nat :=
  [16, 7, 20, 21, 29, 12, 28, 17, 1, 15, 23, 26, 5, 18, 31, 10,
   2, 8, 24, 14, 32, 27, 3, 9, 19, 13, 30, 6, 22, 11, 4, 25]

def permutedChoice1 : List Nat :=
  [57, 49, 41, 33, 25, 17, 9, 1, 58, 50, 42, 34, 26, 18,
   10, 2, 59, 51, 43, 35, 27, 19, 11, 3, 60, 52, 44, 36,
   63, 55, 47, 39, 31, 23, 15, 7, 62, 54, 46, 38, 30, 22,
   14, 6, 61, 53, 45, 37, 29, 21, 13, 5, 28, 20, 12, 4]

def permutedChoice2 : List Nat :=
  [14, 17, 11, 24, 1, 5, 3, 28, 15, 6, 21, 10, 23, 19, 12, 4, 26, 8, 16, 7, 27, 20, 13, 2,
   41, 52, 31, 37, 47, 55, 30, 40, 51, 45, 33, 48, 44, 49, 39, 56, 34, 53, 46, 42, 50, 36, 29, 32]

def ksRotations : List Nat := [1, 1, 2, 2, 2, 2, 2, 2, 1, 2, 2, 2, 2, 2, 2, 1]

/-- The eight substitution boxes, each as four rows of sixteen entries. -/
def sBoxes : List (List Nat) :=
  [[14, 4, 13, 1, 2, 15, 11, 8, 3, 10, 6, 12, 5, 9, 0, 7,
    0, 15, 7, 4, 14, 2, 13, 1, 10, 6, 12, 11, 9, 5, 3, 8,
    4, 1, 14, 8, 13, 6, 2, 11, 15, 12, 9, 7, 3, 10, 5, 0,
    15, 12, 8, 2, 4, 9, 1, 7, 5, 11, 3, 14, 10, 0, 6, 13],
   [15, 1, 8, 14, 6, 11, 3, 4, 9, 7, 2, 13, 12, 0, 5, 10,
    3, 13, 4, 7, 15, 2, 8, 14, 12, 0, 1, 10, 6, 9, 11, 5,
    0, 14, 7, 11, 10, 4, 13, 1, 5, 8, 12, 6, 9, 3, 2, 15,
    13, 8, 10, 1, 3, 15, 4, 2, 11, 6, 7, 12, 0, 5, 14, 9],
   [10, 0, 9, 14, 6, 3, 15, 5, 1, 13, 12, 7, 11, 4, 2, 8,
    13, 7, 0, 9, 3, 4, 6, 10, 2, 8, 5, 14, 12, 11, 15, 1,
    13, 6, 4, 9, 8, 15, 3, 0, 11, 1, 2, 12, 5, 10, 14, 7,
    1, 10, 13, 0, 6, 9, 8, 7, 4, 15, 14, 3, 11, 5, 2, 12],
   [7, 13, 14, 3, 0, 6, 9, 10, 1, 2, 8, 5, 11, 12, 4, 15,
    13, 8, 11, 5, 6, 15, 0, 3, 4, 7, 2, 12, 1, 10, 14, 9,
    10, 6, 9, 0, 12, 11, 7, 13, 15, 1, 3, 14, 5, 2, 8, 4,
    3, 15, 0, 6, 10, 1, 13, 8, 9, 4, 5, 11, 12, 7, 2, 14],
   [2, 12, 4, 1, 7, 10, 11, 6, 8, 5, 3, 15, 13, 0, 14, 9,
    14, 11, 2, 12, 4, 7, 13, 1, 5, 0, 15, 10, 3, 9, 8, 6,
    4, 2, 1, 11, 10, 13, 7, 8, 15, 9, 12, 5, 6, 3, 0, 14,
    11, 8, 12, 7, 1, 14, 2, 13, 6, 15, 0, 9, 10, 4, 5, 3],
   [12, 1, 10, 15, 9, 2, 6, 8, 0, 13, 3, 4, 14, 7, 5, 11,
    10, 15, 4, 2, 7, 12, 9, 5, 6, 1, 13, 14, 0, 11, 3, 8,
    9, 14, 15, 5, 2, 8, 12, 3, 7, 0, 4, 10, 1, 13, 11, 6,
    4, 3, 2, 12, 9, 5, 15, 10, 11, 14, 1, 7, 6, 0, 8, 13],
   [4, 11, 2, 14, 15, 0, 8, 13, 3, 12, 9, 7, 5, 10, 6, 1,
    13, 0, 11, 7, 4, 9, 1, 10, 14, 3, 5, 12, 2, 15, 8, 6,
    1, 4, 11, 13, 12, 3, 7, 14, 10, 15, 6, 8, 0, 5, 9, 2,
    6, 11, 13, 8, 1, 4, 10, 7, 9, 5, 0, 15, 14, 2, 3, 12],
   [13, 2, 8, 4, 6, 15, 11, 1, 10, 9, 3, 14, 5, 0, 12, 7,
    1, 15, 13, 8, 10, 3, 7, 4, 12, 5, 6, 11, 0, 14, 9, 2,
    7, 11, 4, 1, 9, 12, 14, 2, 0, 6, 10, 13, 15, 3, 5, 8,
    2, 1, 14, 7, 4, 10, 8, 13, 15, 12, 9, 0, 3, 5, 6, 11]]

/-- Output bit `k` is input bit `table[k]` (positions of the table start at 1). -/
def permute (table : List Nat) (bits : List Bool) : List Bool :=
  table.map (fun i => bits.getD (i - 1) false)

/-- Bitwise exclusive or of two bit strings. -/
def xorBits (a b : List Bool) : List Bool := List.zipWith Bool.xor a b

/-- The `w` low bits of `n`, most significant first. -/
def natBits : Nat → Nat → List Bool
  | 0, _ => []
  | w + 1, n => n.testBit w :: natBits w n

/-- The number written by a bit string, most significant bit first. -/
def bitsNat (bits : List Bool) : Nat :=
  bits.foldl (fun acc b => 2 * acc + (if b then 1 else 0)) 0

/-- One substitution box on a six-bit group: the outer bits select the row, the inner
four the column. -/
def sBox (box : List Nat) (six : List Bool) : List Bool :=
  match six with
  | [b1, b2, b3, b4, b5, b6] =>
    natBits 4 (box.getD (16 * bitsNat [b1, b6] + bitsNat [b2, b3, b4, b5]) 0)
  | _ => []

/-- The eight boxes applied to the eight six-bit groups of a 48-bit string. -/
def substitute : List (List Nat) → List Bool → List Bool
  | box :: boxes, bits => sBox box (bits.take 6) ++ substitute boxes (bits.drop 6)
  | [], _ => []

/-- The cipher function `f(R, K)`. -/
def feistel (r k : List Bool) : List Bool :=
  permute permutationFunction (substitute sBoxes (xorBits (permute expansionFunction r) k))

/-- Left rotation of a key half. -/
def rotateLeft (n : Nat) (bits : List Bool) : List Bool := bits.drop n ++ bits.take n

/-- The key schedule from the rotated halves `(C, D)`. -/
def ksGenerate : List Nat → List Bool → List Bool → List (List Bool)
  | [], _, _ => []
  | s :: rest, c, d =>
    let c1 := rotateLeft s c
    let d1 := rotateLeft s d
    permute permutedChoice2 (c1 ++ d1) :: ksGenerate rest c1 d1

/-- The sixteen 48-bit subkeys of a 64-bit key. -/
def generateSubkeys (key : List Bool) : List (List Bool) :=
  let cd := permute permutedChoice1 key
  ksGenerate ksRotations (cd.take 28) (cd.drop 28)

/-- One round: `(L, R) ↦ (R, L ⊕ f(R, K))`. -/
def round (k : List Bool) (lr : List Bool × List Bool) : List Bool × List Bool :=
  (lr.2, xorBits lr.1 (feistel lr.2 k))

/-- The sixteen rounds between the initial and the final permutation. The halves are
exchanged once more before the final permutation. -/
def cryptBlock (subkeys : List (List Bool)) (block : List Bool) : List Bool :=
  let b := permute initialPermutation block
  let lr := subkeys.foldl (fun lr k => round k lr) (b.take 32, b.drop 32)
  permute finalPermutation (lr.2 ++ lr.1)

/-- Both halves of a block in the rounds have 32 bits. -/
def Halves (lr : List Bool × List Bool) : Prop := lr.1.length = 32 ∧ lr.2.length = 32

/-- The eight bits of a byte, most significant first. -/
def byteBits (b : Byte) : List Bool := natBits 8 b.val

/-- All bits of a byte string. -/
def bytesBits : List Byte → List Bool
  | [] => []
  | b :: rest => byteBits b ++ bytesBits rest

/-- The byte written by (up to) eight bits. -/
def bitsByte (bits : List Bool) : Byte := Fin.ofNat (bitsNat bits)

/-- A bit string cut into bytes. -/
def bitsBytes : Nat → List Bool → List Byte
  | 0, _ => []
  | n + 1, bits => bitsByte (bits.take 8) :: bitsBytes n (bits.drop 8)

/-- Go: `type desCipher struct { subkeys [16]uint64 }`. -/
structure Cipher where
  subkeys : List (List Bool)
  deriving DecidableEq

/-- Go: `func NewCipher(key []byte) (cipher.Block, error)`; fails with `KeySizeError`
unless the key has eight bytes. -/
def NewCipher (key : List Byte) : Except Failure Cipher :=
  if key.length ≠ 8 then .error (.error (errors.New "crypto/des: invalid key size"))
  else .ok { subkeys := generateSubkeys (bytesBits key) }

/-- Go: `func (c *desCipher) BlockSize() int`. -/
def Cipher.BlockSize (_c : Cipher) : Nat := 8

/-- Go: `func (c *desCipher) Encrypt(dst, src []byte)`, on one block of eight bytes. -/
def Cipher.Encrypt (c : Cipher) (src : List Byte) : List Byte :=
  bitsBytes 8 (cryptBlock c.subkeys (bytesBits src))

/-- Go: `func (c *desCipher) Decrypt(dst, src []byte)`: the same rounds with the subkeys
in reverse order. -/
def Cipher.Decrypt (c : Cipher) (src : List Byte) : List Byte :=
  bitsBytes 8 (cryptBlock c.subkeys.reverse (bytesBits src))

end des

/-! ## Go standard library: `encoding/base64` -/

namespace base64

/-- Go: `type Encoding struct`: the 64-character alphabet and the padding character
(`NoPadding` is `none`). Neither encoding used by the sources is strict. -/
structure Encoding where
  encode : List Byte
  padChar : Option Byte

def encodeStd : List Byte :=
  ascii "ABCDEFGHIJKLMNOPQRSTUVWXYZabcdefghijklmnopqrstuvwxyz0123456789+/"

def encodeURL : List Byte :=
  ascii "ABCDEFGHIJKLMNOPQRSTUVWXYZabcdefghijklmnopqrstuvwxyz0123456789-_"

/-- Go: `base64.StdEncoding`, padded with `=`. -/
def StdEncoding : Encoding := { encode := encodeStd, padChar := some 61 }

/-- Go: `base64.RawURLEncoding`, unpadded. -/
def RawURLEncoding : Encoding := { encode := encodeURL, padChar := none }

/-- Go: `enc.encode[i]`. -/
def Encoding.char (enc : Encoding) (i : Nat) : Byte := enc.encode.getD i 0

/-- Go: `enc.decodeMap[c]`, with `none` for the entry `0xff` of a byte outside the
alphabet. -/
def Encoding.decodeMap (enc : Encoding) (c : Byte) : Option Nat :=
  if enc.encode.indexOf c < 64 then some (enc.encode.indexOf c) else none

/-- The padding written for one missing character. -/
def Encoding.pad (enc : Encoding) : List Byte :=
  match enc.padChar with
  | some p => [p]
  | none => []

/-- Go: `func (enc *Encoding) EncodeToString(src []byte) string`. -/
def Encoding.EncodeToString (enc : Encoding) : List Byte → List Byte
  | a :: b :: c :: rest =>
    let val := a.val * 65536 + b.val * 256 + c.val
    enc.char (val / 262144 % 64) :: enc.char (val / 4096 % 64) ::
      enc.char (val / 64 % 64) :: enc.char (val % 64) :: Encoding.EncodeToString enc rest
  | [a, b] =>
    let val := a.val * 65536 + b.val * 256
    [enc.char (val / 262144 % 64), enc.char (val / 4096 % 64), enc.char (val / 64 % 64)] ++
      enc.pad
  | [a] =>
    let val := a.val * 65536
    [enc.char (val / 262144 % 64), enc.char (val / 4096 % 64)] ++ enc.pad ++ enc.pad
  | [] => []

/-- Go: `CorruptInputError`. -/
def corruptInputError : GoError := errors.New "illegal base64 data"

/-- The end of `decodeQuantum`: `dlen` six-bit values become `dlen - 1` bytes. The
values are below 64, so the sum is the bitwise or of the shifted values. -/
def quantumBytes (dlen : Nat) (dbuf : List Nat) : List Byte :=
  let val := dbuf.getD 0 0 * 262144 + dbuf.getD 1 0 * 4096 + dbuf.getD 2 0 * 64 + dbuf.getD 3 0
  ([Fin.ofNat (val / 65536), Fin.ofNat (val / 256), Fin.ofNat val] : List Byte).take (dlen - 1)

def isNewline (c : Byte) : Bool := decide (c = 10) || decide (c = 13)

/-- The loop `for si < len(src) && (src[si] == '\n' || src[si] == '\r') { si++ }`. -/
def skipNewlines : List Byte → List Byte
  | [] => []
  | c :: rest => if isNewline c then skipNewlines rest else c :: rest

/-- The padding branch of `decodeQuantum`, entered after a first padding character with
`j` values read: a second padding character is required when `j = 2`, and nothing but
line breaks may follow. -/
def Encoding.decodePadding (enc : Encoding) (j : Nat) (rest : List Byte) : Bool :=
  if j < 2 then false
  else if j = 2 then
    match skipNewlines rest with
    | [] => false
    | p :: rest2 => decide (enc.padChar = some p) && decide (skipNewlines rest2 = [])
  else decide (skipNewlines rest = [])

/-- Go: `func (enc *Encoding) Decode(dst, src []byte)`, as one loop over the input: the
calls of `decodeQuantum` are joined, `dbuf` holds the values of the quantum being read
and `out` the bytes already written. (The eight- and four-character fast paths of the
library compute the same function.) -/
def Encoding.decodeLoop (enc : Encoding) : List Byte → List Nat → List Byte →
    Except Failure (List Byte)
  | [], dbuf, out =>
    if dbuf.length = 0 then .ok out
    else if dbuf.length = 1 ∨ enc.padChar ≠ none then .error (.error corruptInputError)
    else .ok (out ++ quantumBytes dbuf.length dbuf)
  | c :: rest, dbuf, out =>
    match enc.decodeMap c with
    | some v =>
      if dbuf.length = 3 then
        Encoding.decodeLoop enc rest [] (out ++ quantumBytes 4 (dbuf ++ [v]))
      else Encoding.decodeLoop enc rest (dbuf ++ [v]) out
    | none =>
      if isNewline c then Encoding.decodeLoop enc rest dbuf out
      else if enc.padChar ≠ some c then .error (.error corruptInputError)
      else if enc.decodePadding dbuf.length rest then
        .ok (out ++ quantumBytes dbuf.length dbuf)
      else .error (.error corruptInputError)

/-- Go: `func (enc *Encoding) DecodeString(s string) ([]byte, error)`. -/
def Encoding.DecodeString (enc : Encoding) (s : List Byte) : Except Failure (List Byte) :=
  enc.decodeLoop s [] []

/-- What the round trip needs of an encoding: the alphabet is decoded position by
position, and the padding character is neither in the alphabet nor a line break. -/
structure Encoding.WellFormed (enc : Encoding) : Prop where
  decode_char : ∀ i, i < 64 → enc.decodeMap (enc.char i) = some i
  pad_outside : ∀ p, enc.padChar = some p → enc.decodeMap p = none ∧ isNewline p = false

end base64

/-! ## Go standard library: `crypto/cipher`, CBC mode -/

namespace cipher

/-- Go: `subtle.XORBytes(dst, x, y)`. -/
def xorBytes (x y : List Byte) : List Byte := List.zipWith (fun a b => a ^^^ b) x y

/-- Go: `type cbc struct { b Block; blockSize int; iv []byte }`. -/
structure cbc where
  b : des.Cipher
  blockSize : Nat
  iv : List Byte

/-- Go: `func NewCBCEncrypter(b Block, iv []byte) BlockMode`. -/
def NewCBCEncrypter (b : des.Cipher) (iv : List Byte) : Except Failure cbc :=
  if iv.length ≠ b.BlockSize then
    .error (.panic "cipher.NewCBCEncrypter: IV length must equal block size")
  else .ok { b := b, blockSize := b.BlockSize, iv := iv }

/-- Go: `func NewCBCDecrypter(b Block, iv []byte) BlockMode`. -/
def NewCBCDecrypter (b : des.Cipher) (iv : List Byte) : Except Failure cbc :=
  if iv.length ≠ b.BlockSize then
    .error (.panic "cipher.NewCBCDecrypter: IV length must equal block size")
  else .ok { b := b, blockSize := b.BlockSize, iv := iv }

/-- The loop of the encrypter over `n` blocks: xor with the previous ciphertext block,
then encrypt. -/
def encryptBlocks (x : cbc) : Nat → List Byte → List Byte → List Byte
  | 0, _, _ => []
  | n + 1, iv, src =>
    let dst := x.b.Encrypt (xorBytes (src.take x.blockSize) iv)
    dst ++ encryptBlocks x n dst (src.drop x.blockSize)

/-- The loop of the decrypter over `n` blocks: decrypt, then xor with the previous
ciphertext block. -/
def decryptBlocks (x : cbc) : Nat → List Byte → List Byte → List Byte
  | 0, _, _ => []
  | n + 1, iv, src =>
    xorBytes (x.b.Decrypt (src.take x.blockSize)) iv ++
      decryptBlocks x n (src.take x.blockSize) (src.drop x.blockSize)

/-- Go: `func (x *cbcEncrypter) CryptBlocks(dst, src []byte)` with `dst` a fresh slice
of the length of `src`; the result is `dst`. -/
def cbc.EncryptBlocks (x : cbc) (src : List Byte) : Except Failure (List Byte) :=
  if x.blockSize = 0 then .error (.panic "integer divide by zero")
  else if src.length % x.blockSize ≠ 0 then
    .error (.panic "crypto/cipher: input not full blocks")
  else .ok (encryptBlocks x (src.length / x.blockSize) x.iv src)

/-- Go: `func (x *cbcDecrypter) CryptBlocks(dst, src []byte)` with `dst` a fresh slice
of the length of `src`; the result is `dst`. -/
def cbc.DecryptBlocks (x : cbc) (src : List Byte) : Except Failure (List Byte) :=
  if x.blockSize = 0 then .error (.panic "integer divide by zero")
  else if src.length % x.blockSize ≠ 0 then
    .error (.panic "crypto/cipher: input not full blocks")
  else .ok (decryptBlocks x (src.length / x.blockSize) x.iv src)

end cipher

/-! ## `internal/utils/crypto.go` -/

/-- Go: `func pkcs5Padding(data []byte, blockSize int) []byte`; `blockSize` is the block
size of a cipher, a positive `int`. -/
def pkcs5Padding (data : List Byte) (blockSize : Nat) : Except Failure (List Byte) :=
  if blockSize = 0 then .error (.panic "integer divide by zero")
  else
    let padding := blockSize - data.length % blockSize
    let padtext := List.replicate padding (Fin.ofNat padding : Byte)
    .ok (data ++ padtext)

/-- Go: `func pkcs5UnPadding(data []byte) []byte`. -/
def pkcs5UnPadding (data : List Byte) : List Byte :=
  let length := data.length
  if length = 0 then data
  else
    let unpadding := (data.getD (length - 1) 0).val
    if unpadding > length then data
    else data.take (length - unpadding)

/-- The result `("", err)` or the panic of a failed library call. -/
def failWith {α : Type} (zero : α) : Failure → GoResult α
  | .error err => .ret zero (some err)
  | .panic msg => .panic msg

/-- Go: `func DESEncrypt(plaintext, key string) (string, error)`. -/
def DESEncrypt (plaintext key : GoString) : GoResult GoString :=
  let keyBytes := key
  if keyBytes.length ≠ 8 then .ret [] (some (errors.New "DES key must be 8 bytes"))
  else
    match des.NewCipher keyBytes with
    | .error f => failWith [] f
    | .ok block =>
      match pkcs5Padding plaintext block.BlockSize with
      | .error f => failWith [] f
      | .ok plaintextBytes =>
        let iv := keyBytes
        match cipher.NewCBCEncrypter block iv with
        | .error f => failWith [] f
        | .ok mode =>
          match mode.EncryptBlocks plaintextBytes with
          | .error f => failWith [] f
          | .ok ciphertext => .ret (base64.StdEncoding.EncodeToString ciphertext) none

/-- Go: `func DESDecrypt(ciphertext, key string) (string, error)`. -/
def DESDecrypt (ciphertext key : GoString) : GoResult GoString :=
  let keyBytes := key
  if keyBytes.length ≠ 8 then .ret [] (some (errors.New "DES key must be 8 bytes"))
  else
    match base64.StdEncoding.DecodeString ciphertext with
    | .error f => failWith [] f
    | .ok ciphertextBytes =>
      match des.NewCipher keyBytes with
      | .error f => failWith [] f
      | .ok block =>
        let iv := keyBytes
        match cipher.NewCBCDecrypter block iv with
        | .error f => failWith [] f
        | .ok mode =>
          match mode.DecryptBlocks ciphertextBytes with
          | .error f => failWith [] f
          | .ok plaintext =>
            let plaintext := pkcs5UnPadding plaintext
            .ret plaintext none

/-! ## Go standard library: `crypto/sha256`, `crypto/sha512`, `crypto/hmac` (FIPS 180-4, FIPS 198-1) -/

namespace sha2

def k256 : List Nat :=
  [0x428a2f98, 0x71374491, 0xb5c0fbcf, 0xe9b5dba5, 0x3956c25b, 0x59f111f1,
   0x923f82a4, 0xab1c5ed5, 0xd807aa98, 0x12835b01, 0x243185be, 0x550c7dc3,
   0x72be5d74, 0x80deb1fe, 0x9bdc06a7, 0xc19bf174, 0xe49b69c1, 0xefbe4786,
   0x0fc19dc6, 0x240ca1cc, 0x2de92c6f, 0x4a7484aa, 0x5cb0a9dc, 0x76f988da,
   0x983e5152, 0xa831c66d, 0xb00327c8, 0xbf597fc7, 0xc6e00bf3, 0xd5a79147,
   0x06ca6351, 0x14292967, 0x27b70a85, 0x2e1b2138, 0x4d2c6dfc, 0x53380d13,
   0x650a7354, 0x766a0abb, 0x81c2c92e, 0x92722c85, 0xa2bfe8a1, 0xa81a664b,
   0xc24b8b70, 0xc76c51a3, 0xd192e819, 0xd6990624, 0xf40e3585, 0x106aa070,
   0x19a4c116, 0x1e376c08, 0x2748774c, 0x34b0bcb5, 0x391c0cb3, 0x4ed8aa4a,
   0x5b9cca4f, 0x682e6ff3, 0x748f82ee, 0x78a5636f, 0x84c87814, 0x8cc70208,
   0x90befffa, 0xa4506ceb, 0xbef9a3f7, 0xc67178f2]

def init256 : List Nat :=
  [0x6a09e667, 0xbb67ae85, 0x3c6ef372, 0xa54ff53a,
   0x510e527f, 0x9b05688c, 0x1f83d9ab, 0x5be0cd19]

def k512 : List Nat :=
  [0x428a2f98d728ae22, 0x7137449123ef65cd, 0xb5c0fbcfec4d3b2f, 0xe9b5dba58189dbbc,
   0x3956c25bf348b538, 0x59f111f1b605d019, 0x923f82a4af194f9b, 0xab1c5ed5da6d8118,
   0xd807aa98a3030242, 0x12835b0145706fbe, 0x243185be4ee4b28c, 0x550c7dc3d5ffb4e2,
   0x72be5d74f27b896f, 0x80deb1fe3b1696b1, 0x9bdc06a725c71235, 0xc19bf174cf692694,
   0xe49b69c19ef14ad2, 0xefbe4786384f25e3, 0x0fc19dc68b8cd5b5, 0x240ca1cc77ac9c65,
   0x2de92c6f592b0275, 0x4a7484aa6ea6e483, 0x5cb0a9dcbd41fbd4, 0x76f988da831153b5,
   0x983e5152ee66dfab, 0xa831c66d2db43210, 0xb00327c898fb213f, 0xbf597fc7beef0ee4,
   0xc6e00bf33da88fc2, 0xd5a79147930aa725, 0x06ca6351e003826f, 0x142929670a0e6e70,
   0x27b70a8546d22ffc, 0x2e1b21385c26c926, 0x4d2c6dfc5ac42aed, 0x53380d139d95b3df,
   0x650a73548baf63de, 0x766a0abb3c77b2a8, 0x81c2c92e47edaee6, 0x92722c851482353b,
   0xa2bfe8a14cf10364, 0xa81a664bbc423001, 0xc24b8b70d0f89791, 0xc76c51a30654be30,
   0xd192e819d6ef5218, 0xd69906245565a910, 0xf40e35855771202a, 0x106aa07032bbd1b8,
   0x19a4c116b8d2d0c8, 0x1e376c085141ab53, 0x2748774cdf8eeb99, 0x34b0bcb5e19b48a8,
   0x391c0cb3c5c95a63, 0x4ed8aa4ae3418acb, 0x5b9cca4f7763e373, 0x682e6ff3d6b2b8a3,
   0x748f82ee5defb2fc, 0x78a5636f43172f60, 0x84c87814a1f0ab72, 0x8cc702081a6439ec,
   0x90befffa23631e28, 0xa4506cebde82bde9, 0xbef9a3f7b2c67915, 0xc67178f2e372532b,
   0xca273eceea26619c, 0xd186b8c721c0c207, 0xeada7dd6cde0eb1e, 0xf57d4f7fee6ed178,
   0x06f067aa72176fba, 0x0a637dc5a2c898a6, 0x113f9804bef90dae, 0x1b710b35131c471b,
   0x28db77f523047d84, 0x32caab7b40c72493, 0x3c9ebe0a15c9bebc, 0x431d67c49c100d4c,
   0x4cc5d4becb3e42b6, 0x597f299cfc657e2a, 0x5fcb6fab3ad6faec, 0x6c44198c4a475817]

def init512 : List Nat :=
  [0x6a09e667f3bcc908, 0xbb67ae8584caa73b, 0x3c6ef372fe94f82b, 0xa54ff53a5f1d36f1,
   0x510e527fade682d1, 0x9b05688c2b3e6c1f, 0x1f83d9abfb41bd6b, 0x5be0cd19137e2179]

def init384 : List Nat :=
  [0xcbbb9d5dc1059ed8, 0x629a292a367cd507, 0x9159015a3070dd17, 0x152fecd8f70e5939,
   0x67332667ffc00b31, 0x8eb44a8768581511, 0xdb0c2e0d64f98fa7, 0x47b5481dbefa4fa4]

/-- The parameters that tell SHA-256 from SHA-512: word size in bits, number of rounds,
round constants, and the rotation and shift amounts of the four sigma functions. -/
structure Params where
  w : Nat
  rounds : Nat
  k : List Nat
  bigSigma0 : Nat × Nat × Nat
  bigSigma1 : Nat × Nat × Nat
  smallSigma0 : Nat × Nat × Nat
  smallSigma1 : Nat × Nat × Nat

def params256 : Params :=
  { w := 32, rounds := 64, k := k256, bigSigma0 := (2, 13, 22), bigSigma1 := (6, 11, 25),
    smallSigma0 := (7, 18, 3), smallSigma1 := (17, 19, 10) }

def params512 : Params :=
  { w := 64, rounds := 80, k := k512, bigSigma0 := (28, 34, 39), bigSigma1 := (14, 18, 41),
    smallSigma0 := (1, 8, 7), smallSigma1 := (19, 61, 6) }

/-- Right rotation of a `w`-bit word. -/
def rotr (w n x : Nat) : Nat := ((x >>> n) ||| (x <<< (w - n))) % 2 ^ w

def bigSigma (w : Nat) (r : Nat × Nat × Nat) (x : Nat) : Nat :=
  rotr w r.1 x ^^^ rotr w r.2.1 x ^^^ rotr w r.2.2 x

def smallSigma (w : Nat) (r : Nat × Nat × Nat) (x : Nat) : Nat :=
  rotr w r.1 x ^^^ rotr w r.2.1 x ^^^ (x >>> r.2.2)

/-- The number written by bytes in big-endian order. -/
def beWord (bytes : List Byte) : Nat := bytes.foldl (fun acc b => acc * 256 + b.val) 0

/-- The `n` low bytes of `x` in big-endian order. -/
def wordBytes : Nat → Nat → List Byte
  | 0, _ => []
  | n + 1, x => Fin.ofNat (x / 256 ^ n) :: wordBytes n x

/-- The first `n` words of `wb` bytes each. -/
def blockWords (wb : Nat) : Nat → List Byte → List Nat
  | 0, _ => []
  | n + 1, bs => beWord (bs.take wb) :: blockWords wb n (bs.drop wb)

/-- The message schedule, extended by `n` words. -/
def extend (p : Params) : Nat → List Nat → List Nat
  | 0, ws => ws
  | n + 1, ws =>
    let t := ws.length
    extend p n (ws ++ [(smallSigma p.w p.smallSigma1 (ws.getD (t - 2) 0) + ws.getD (t - 7) 0 +
      smallSigma p.w p.smallSigma0 (ws.getD (t - 15) 0) + ws.getD (t - 16) 0) % 2 ^ p.w])

/-- One round on the eight working variables, with round constant and schedule word. -/
def step (p : Params) (st : List Nat) (kw : Nat × Nat) : List Nat :=
  match st with
  | [a, b, c, d, e, f, g, h] =>
    let ch := (e &&& f) ^^^ (((2 ^ p.w - 1) ^^^ e) &&& g)
    let maj := (a &&& b) ^^^ (a &&& c) ^^^ (b &&& c)
    let t1 := h + bigSigma p.w p.bigSigma1 e + ch + kw.1 + kw.2
    let t2 := bigSigma p.w p.bigSigma0 a + maj
    [(t1 + t2) % 2 ^ p.w, a, b, c, (d + t1) % 2 ^ p.w, e, f, g]
  | _ => st

/-- The compression function on one block. -/
def compress (p : Params) (hs : List Nat) (block : List Byte) : List Nat :=
  let ws := extend p (p.rounds - 16) (blockWords (p.w / 8) 16 block)
  let st := (p.k.zip ws).foldl (step p) hs
  List.zipWith (fun x y => (x + y) % 2 ^ p.w) hs st

/-- The compression function over `n` consecutive blocks. -/
def compressBlocks (p : Params) : Nat → List Nat → List Byte → List Nat
  | 0, hs, _ => hs
  | n + 1, hs, bs => compressBlocks p n (compress p hs (bs.take (2 * p.w))) (bs.drop (2 * p.w))

/-- The padded message: a one bit, zero bits, and the bit length of the message. -/
def padMessage (p : Params) (msg : List Byte) : List Byte :=
  msg ++ [128] ++
    List.replicate ((2 * p.w - (msg.length + 1 + p.w / 4) % (2 * p.w)) % (2 * p.w)) 0 ++
    wordBytes (p.w / 4) (8 * msg.length)

/-- The digest: the first `outWords` words of the final state. -/
def digest (p : Params) (init : List Nat) (outWords : Nat) (msg : List Byte) : List Byte :=
  let m := padMessage p msg
  let hs := compressBlocks p (m.length / (2 * p.w)) init m
  (hs.take outWords).flatMap (wordBytes (p.w / 8))

end sha2

/-- Go: a `crypto.Hash` with its `New().Sum` and `BlockSize()`. -/
structure HashFunc where
  sum : List Byte → List Byte
  blockSize : Nat

/-- Go: `crypto.SHA256`. -/
def SHA256 : HashFunc := { sum := sha2.digest sha2.params256 sha2.init256 8, blockSize := 64 }

/-- Go: `crypto.SHA384`. -/
def SHA384 : HashFunc := { sum := sha2.digest sha2.params512 sha2.init384 6, blockSize := 128 }

/-- Go: `crypto.SHA512`. -/
def SHA512 : HashFunc := { sum := sha2.digest sha2.params512 sha2.init512 8, blockSize := 128 }

namespace hmac

/-- The key of `hmac.New`: hashed when longer than a block, then filled with zero bytes
to the block size. -/
def blockKey (h : HashFunc) (key : List Byte) : List Byte :=
  let key := if key.length > h.blockSize then h.sum key else key
  key ++ List.replicate (h.blockSize - key.length) 0

/-- Go: `mac := hmac.New(h, key); mac.Write(msg); mac.Sum(nil)`. -/
def Sum (h : HashFunc) (key msg : List Byte) : List Byte :=
  let ipad := (blockKey h key).map (fun b => b ^^^ 54)
  let opad := (blockKey h key).map (fun b => b ^^^ 92)
  h.sum (opad ++ h.sum (ipad ++ msg))

/-- Go: `hmac.Equal(mac1, mac2)`. -/
def Equal (mac1 mac2 : List Byte) : Bool := decide (mac1 = mac2)

end hmac

/-! ## Go standard library: `unicode/utf8` -/

namespace utf8

/-- Go: `utf8.RuneError`, the replacement character U+FFFD. -/
def RuneError : Nat := 65533

/-- A continuation byte, `0x80 .. 0xBF`. -/
def isCont (b : Byte) : Bool := decide (128 ≤ b.val) && decide (b.val ≤ 191)

/-- The range accepted for the second byte after the first byte `b0` of a three- or
four-byte sequence (Go: `acceptRanges`). -/
def second (b0 b1 : Byte) : Bool :=
  if b0.val = 224 then decide (160 ≤ b1.val) && decide (b1.val ≤ 191)
  else if b0.val = 237 then decide (128 ≤ b1.val) && decide (b1.val ≤ 159)
  else if b0.val = 240 then decide (144 ≤ b1.val) && decide (b1.val ≤ 191)
  else if b0.val = 244 then decide (128 ≤ b1.val) && decide (b1.val ≤ 143)
  else isCont b1

/-- Go: `func DecodeRune(p []byte) (r rune, size int)`: the first rune of `p` and its
width in bytes, `(RuneError, 1)` for an invalid or truncated encoding and
`(RuneError, 0)` for empty input. -/
def DecodeRune : List Byte → Nat × Nat
  | [] => (RuneError, 0)
  | b0 :: rest =>
    if b0.val < 128 then (b0.val, 1)
    else if 194 ≤ b0.val ∧ b0.val ≤ 223 then
      match rest with
      | b1 :: _ => if isCont b1 then (b0.val % 32 * 64 + b1.val % 64, 2) else (RuneError, 1)
      | [] => (RuneError, 1)
    else if 224 ≤ b0.val ∧ b0.val ≤ 239 then
      match rest with
      | b1 :: b2 :: _ =>
        if second b0 b1 && isCont b2 then
          (b0.val % 16 * 4096 + b1.val % 64 * 64 + b2.val % 64, 3)
        else (RuneError, 1)
      | _ => (RuneError, 1)
    else if 240 ≤ b0.val ∧ b0.val ≤ 244 then
      match rest with
      | b1 :: b2 :: b3 :: _ =>
        if second b0 b1 && isCont b2 && isCont b3 then
          (b0.val % 8 * 262144 + b1.val % 64 * 4096 + b2.val % 64 * 64 + b3.val % 64, 4)
        else (RuneError, 1)
      | _ => (RuneError, 1)
    else (RuneError, 1)

/-- Go: `func AppendRune(p []byte, r rune) []byte` on an empty `p`: the UTF-8 encoding of
`r`, that of `RuneError` for a surrogate or a value above U+10FFFF. -/
def EncodeRune (r : Nat) : List Byte :=
  if r ≤ 127 then [Fin.ofNat r]
  else if r ≤ 2047 then [Fin.ofNat (192 + r / 64), Fin.ofNat (128 + r % 64)]
  else if r > 1114111 ∨ (55296 ≤ r ∧ r ≤ 57343) then [239, 191, 189]
  else if r ≤ 65535 then
    [Fin.ofNat (224 + r / 4096), Fin.ofNat (128 + r / 64 % 64), Fin.ofNat (128 + r % 64)]
  else
    [Fin.ofNat (240 + r / 262144), Fin.ofNat (128 + r / 4096 % 64),
     Fin.ofNat (128 + r / 64 % 64), Fin.ofNat (128 + r % 64)]

/-- The loop of `ValidString` with `fuel` bounding the number of runes. -/
def validLoop : Nat → List Byte → Bool
  | _, [] => true
  | 0, _ :: _ => false
  | fuel + 1, b :: rest =>
    if b.val < 128 then validLoop fuel rest
    else if (DecodeRune (b :: rest)).2 = 1 then false
    else validLoop fuel ((b :: rest).drop (DecodeRune (b :: rest)).2)

/-- Go: `func ValidString(s string) bool`. -/
def ValidString (s : List Byte) : Bool := validLoop s.length s

end utf8

/-! ## Go standard library: `strconv` on integers -/

namespace strconv

/-- The ASCII digit of `d < 10`. -/
def digit (d : Nat) : Byte := Fin.ofNat (48 + d)

/-- The decimal digits of `n` in front of `acc`, with `fuel` bounding their number. -/
def formatLoop : Nat → Nat → List Byte → List Byte
  | 0, _, acc => acc
  | fuel + 1, n, acc =>
    if n < 10 then digit n :: acc else formatLoop fuel (n / 10) (digit (n % 10) :: acc)

/-- Go: `func FormatUint(i uint64, base int) string` in base 10. -/
def FormatUint (n : Nat) : List Byte := formatLoop (n + 1) n []

/-- Go: `func FormatInt(i int64, base int) string` in base 10. -/
def FormatInt (i : Int) : List Byte :=
  if i < 0 then 45 :: FormatUint i.natAbs else FormatUint i.natAbs

def isDigit (b : Byte) : Bool := decide (48 ≤ b.val) && decide (b.val ≤ 57)

/-- The number written by decimal digits. -/
def digitsValue (s : List Byte) : Nat := s.foldl (fun acc b => acc * 10 + (b.val - 48)) 0

/-- Go: `func ParseUint(s string, base int, bitSize int) (uint64, error)` with base 10 and
size 64, on input without underscores: all characters are digits and the value fits. -/
def ParseUint (s : List Byte) : Option Nat :=
  if s ≠ [] ∧ s.all isDigit ∧ digitsValue s < 2 ^ 64 then some (digitsValue s) else none

end strconv

/-! ## Go standard library: `encoding/json`

Encoding of strings as `json.Marshal` writes them (HTML-safe escaping, invalid UTF-8
replaced by U+FFFD), and the decoder as a parser into a syntax tree followed by the
binding of the tree to the Go value (`Unmarshal` checks the whole input for validity
before it stores anything). -/

namespace json

/-- Go: `const hex = "0123456789abcdef"`. -/
def hex : List Byte := ascii "0123456789abcdef"

/-- Go: `htmlSafeSet[b]` for `b < utf8.RuneSelf`: the ASCII characters written without
escaping, all from the space on except the quote, the backslash and `<`, `>`, `&`. -/
def htmlSafe (b : Byte) : Bool :=
  decide (32 ≤ b.val) && !(decide (b.val = 34) || decide (b.val = 92) || decide (b.val = 60) ||
    decide (b.val = 62) || decide (b.val = 38))

/-- The escape sequence of an ASCII byte outside `htmlSafeSet`. -/
def escapeByte (b : Byte) : List Byte :=
  if b.val = 92 ∨ b.val = 34 then [92, b]
  else if b.val = 8 then [92, 98]
  else if b.val = 12 then [92, 102]
  else if b.val = 10 then [92, 110]
  else if b.val = 13 then [92, 114]
  else if b.val = 9 then [92, 116]
  else [92, 117, 48, 48, hex.getD (b.val / 16) 0, hex.getD (b.val % 16) 0]

/-- The loop of `appendString` between the quotes, with `fuel` bounding the number of
runes. -/
def appendStringLoop : Nat → List Byte → List Byte
  | _, [] => []
  | 0, _ :: _ => []
  | fuel + 1, b :: rest =>
    if b.val < 128 then
      (if htmlSafe b then [b] else escapeByte b) ++ appendStringLoop fuel rest
    else if (utf8.DecodeRune (b :: rest)).1 = utf8.RuneError ∧
        (utf8.DecodeRune (b :: rest)).2 = 1 then
      [92, 117, 102, 102, 102, 100] ++ appendStringLoop fuel rest
    else if (utf8.DecodeRune (b :: rest)).1 = 8232 ∨ (utf8.DecodeRune (b :: rest)).1 = 8233 then
      [92, 117, 50, 48, 50, hex.getD ((utf8.DecodeRune (b :: rest)).1 % 16) 0] ++
        appendStringLoop fuel ((b :: rest).drop (utf8.DecodeRune (b :: rest)).2)
    else
      (b :: rest).take (utf8.DecodeRune (b :: rest)).2 ++
        appendStringLoop fuel ((b :: rest).drop (utf8.DecodeRune (b :: rest)).2)

/-- Go: `func appendString(dst []byte, src string, escapeHTML bool) []byte` with
`escapeHTML` set, as `Marshal` calls it. -/
def appendString (src : List Byte) : List Byte :=
  [34] ++ appendStringLoop src.length src ++ [34]

/-- A JSON text as a tree. Numbers keep their literal. -/
inductive Value where
  | null
  | bool (b : Bool)
  | number (lit : List Byte)
  | string (s : List Byte)
  | array (items : List Value)
  | object (members : List (List Byte × Value))

/-- Go: `func isSpace(c byte) bool`. -/
def isSpace (c : Byte) : Bool :=
  decide (c.val = 32) || decide (c.val = 9) || decide (c.val = 13) || decide (c.val = 10)

def skipSpace : List Byte → List Byte
  | [] => []
  | c :: rest => if isSpace c then skipSpace rest else c :: rest

/-- The value of a hexadecimal digit. -/
def hexValue (c : Byte) : Option Nat :=
  if 48 ≤ c.val ∧ c.val ≤ 57 then some (c.val - 48)
  else if 97 ≤ c.val ∧ c.val ≤ 102 then some (c.val - 97 + 10)
  else if 65 ≤ c.val ∧ c.val ≤ 70 then some (c.val - 65 + 10)
  else none

/-- Four hexadecimal digits at the head of the input. -/
def hex4 : List Byte → Option (Nat × List Byte)
  | a :: b :: c :: d :: rest =>
    match hexValue a, hexValue b, hexValue c, hexValue d with
    | some x, some y, some z, some w => some (x * 4096 + y * 256 + z * 16 + w, rest)
    | _, _, _, _ => none
  | _ => none

/-- Go: `func getu4(s []byte) rune`: the rune of an escape `\uXXXX` at the head of the
input. -/
def getu4 : List Byte → Option (Nat × List Byte)
  | 92 :: 117 :: rest => hex4 rest
  | _ => none

/-- Go: `utf16.IsSurrogate`. -/
def isSurrogate (r : Nat) : Bool := decide (55296 ≤ r) && decide (r < 57344)

/-- Go: `utf16.DecodeRune(r1, r2)`. -/
def decodeSurrogates (r1 r2 : Nat) : Nat :=
  if 55296 ≤ r1 ∧ r1 < 56320 ∧ 56320 ≤ r2 ∧ r2 < 57344 then
    (r1 - 55296) * 1024 + (r2 - 56320) + 65536
  else utf8.RuneError

/-- The character of a one-letter escape. -/
def simpleEscape (e : Byte) : Option Byte :=
  if e.val = 34 ∨ e.val = 92 ∨ e.val = 47 then some e
  else if e.val = 98 then some 8
  else if e.val = 102 then some 12
  else if e.val = 110 then some 10
  else if e.val = 114 then some 13
  else if e.val = 116 then some 9
  else none

/-- A string literal after its opening quote: the scanner's search for the closing
quote joined with `unquote`. The result is the decoded string, coerced to valid UTF-8,
and the input after the closing quote. -/
def scanString : Nat → List Byte → List Byte → Option (List Byte × List Byte)
  | _, [], _ => none
  | 0, _ :: _, _ => none
  | fuel + 1, c :: rest, acc =>
    if c.val = 34 then some (acc, rest)
    else if c.val = 92 then
      match rest with
      | [] => none
      | e :: rest2 =>
        if e.val = 117 then
          match hex4 rest2 with
          | none => none
          | some (rr, rest3) =>
            if isSurrogate rr then
              match getu4 rest3 with
              | some (rr1, rest5) =>
                if decodeSurrogates rr rr1 ≠ utf8.RuneError then
                  scanString fuel rest5 (acc ++ utf8.EncodeRune (decodeSurrogates rr rr1))
                else scanString fuel rest3 (acc ++ utf8.EncodeRune utf8.RuneError)
              | none => scanString fuel rest3 (acc ++ utf8.EncodeRune utf8.RuneError)
            else scanString fuel rest3 (acc ++ utf8.EncodeRune rr)
        else
          match simpleEscape e with
          | some b => scanString fuel rest2 (acc ++ [b])
          | none => none
    else if c.val < 32 then none
    else if c.val < 128 then scanString fuel rest (acc ++ [c])
    else
      scanString fuel ((c :: rest).drop (utf8.DecodeRune (c :: rest)).2)
        (acc ++ utf8.EncodeRune (utf8.DecodeRune (c :: rest)).1)

/-- The longest run of digits at the head of the input, and what follows. -/
def spanDigits : List Byte → List Byte × List Byte
  | [] => ([], [])
  | c :: rest =>
    if strconv.isDigit c then ((c :: (spanDigits rest).1), (spanDigits rest).2)
    else ([], c :: rest)

/-- The integer part of a number literal: `0`, or a non-zero digit and more digits. -/
def scanInt : List Byte → Option (List Byte × List Byte)
  | [] => none
  | c :: rest =>
    if c.val = 48 then some ([c], rest)
    else if strconv.isDigit c then some (c :: (spanDigits rest).1, (spanDigits rest).2)
    else none

/-- The optional fraction of a number literal: a point and at least one digit. -/
def scanFrac : List Byte → Option (List Byte × List Byte)
  | 46 :: rest =>
    if (spanDigits rest).1 = [] then none
    else some (46 :: (spanDigits rest).1, (spanDigits rest).2)
  | s => some ([], s)

/-- The digits of an exponent, at least one. -/
def scanExpDigits (mark : List Byte) (s : List Byte) : Option (List Byte × List Byte) :=
  if (spanDigits s).1 = [] then none else some (mark ++ (spanDigits s).1, (spanDigits s).2)

/-- The optional exponent of a number literal: `e` or `E`, an optional sign, digits. -/
def scanExp : List Byte → Option (List Byte × List Byte)
  | c :: rest =>
    if c.val = 101 ∨ c.val = 69 then
      match rest with
      | sgn :: rest2 =>
        if sgn.val = 43 ∨ sgn.val = 45 then scanExpDigits [c, sgn] rest2
        else scanExpDigits [c] rest
      | [] => none
    else some ([], c :: rest)
  | [] => some ([], [])

/-- The optional minus sign of a number literal. -/
def scanSign : List Byte → List Byte × List Byte
  | 45 :: rest => ([45], rest)
  | s => ([], s)

/-- A number literal at the head of the input, by the grammar of the scanner. -/
def scanNumber (s : List Byte) : Option (List Byte × List Byte) :=
  match scanInt (scanSign s).2 with
  | none => none
  | some (int, s1) =>
    match scanFrac s1 with
    | none => none
    | some (frac, s2) =>
      match scanExp s2 with
      | none => none
      | some (exp, s3) => some ((scanSign s).1 ++ int ++ frac ++ exp, s3)

/-- Go: `const maxNestingDepth = 10000`. -/
def maxNestingDepth : Nat := 10000

/-- Whether the input starts with the given characters; then what follows them. -/
def literal (word : List Byte) (s : List Byte) : Option (List Byte) :=
  if word.isPrefixOf s then some (s.drop word.length) else none

mutual

/-- One value at the head of the input (which starts at the first character of the
value); `depth` is the number of arrays and objects open around it. -/
def parseValue : Nat → Nat → List Byte → Option (Value × List Byte)
  | 0, _, _ => none
  | _ + 1, _, [] => none
  | fuel + 1, depth, c :: rest =>
    if c.val = 123 then
      if depth + 1 > maxNestingDepth then none
      else
        match skipSpace rest with
        | [] => none
        | d :: rest2 =>
          if d.val = 125 then some (.object [], rest2)
          else
            match parseMembers fuel (depth + 1) (d :: rest2) with
            | some (ms, rest3) => some (.object ms, rest3)
            | none => none
    else if c.val = 91 then
      if depth + 1 > maxNestingDepth then none
      else
        match skipSpace rest with
        | [] => none
        | d :: rest2 =>
          if d.val = 93 then some (.array [], rest2)
          else
            match parseElements fuel (depth + 1) (d :: rest2) with
            | some (vs, rest3) => some (.array vs, rest3)
            | none => none
    else if c.val = 34 then
      match scanString fuel rest [] with
      | some (str, rest2) => some (.string str, rest2)
      | none => none
    else if c.val = 45 ∨ strconv.isDigit c then
      match scanNumber (c :: rest) with
      | some (lit, rest2) => some (.number lit, rest2)
      | none => none
    else
      match literal [116, 114, 117, 101] (c :: rest) with
      | some rest2 => some (.bool true, rest2)
      | none =>
        match literal [102, 97, 108, 115, 101] (c :: rest) with
        | some rest2 => some (.bool false, rest2)
        | none =>
          match literal [110, 117, 108, 108] (c :: rest) with
          | some rest2 => some (.null, rest2)
          | none => none

/-- The members of an object from the first key to the closing brace. -/
def parseMembers : Nat → Nat → List Byte → Option (List (List Byte × Value) × List Byte)
  | 0, _, _ => none
  | _ + 1, _, [] => none
  | fuel + 1, depth, c :: rest =>
    if c.val = 34 then
      match scanString fuel rest [] with
      | none => none
      | some (key, rest2) =>
        match skipSpace rest2 with
        | [] => none
        | colon :: rest3 =>
          if colon.val = 58 then
            match parseValue fuel depth (skipSpace rest3) with
            | none => none
            | some (v, rest4) =>
              match skipSpace rest4 with
              | [] => none
              | sep :: rest5 =>
                if sep.val = 125 then some ([(key, v)], rest5)
                else if sep.val = 44 then
                  match parseMembers fuel depth (skipSpace rest5) with
                  | some (ms, rest6) => some ((key, v) :: ms, rest6)
                  | none => none
                else none
          else none
    else none

/-- The elements of an array from the first element to the closing bracket. -/
def parseElements : Nat → Nat → List Byte → Option (List Value × List Byte)
  | 0, _, _ => none
  | fuel + 1, depth, s =>
    match parseValue fuel depth s with
    | none => none
    | some (v, rest) =>
      match skipSpace rest with
      | [] => none
      | sep :: rest2 =>
        if sep.val = 93 then some ([v], rest2)
        else if sep.val = 44 then
          match parseElements fuel depth (skipSpace rest2) with
          | some (vs, rest3) => some (v :: vs, rest3)
          | none => none
        else none

end

/-- The syntax tree of a JSON text: one value between optional white space, nothing
after it. -/
def parse (data : List Byte) : Option Value :=
  match parseValue (data.length + 1) 0 (skipSpace data) with
  | some (v, rest) => if skipSpace rest = [] then some v else none
  | none => none

end json

/-! ## Go standard library: `time`, `strings` -/

/-- Go: `time.Time`, as nanoseconds since the Unix epoch (wall clock). -/
abbrev Time := Int

namespace time

/-- Go: `time.Duration`, an `int64` count of nanoseconds. -/
abbrev Duration := Int

def Second : Duration := 1000000000

def Hour : Duration := 3600000000000

/-- The value of an `int64` expression after two's-complement wrap-around. -/
def wrapInt64 (x : Int) : Int := (x + 2 ^ 63) % 2 ^ 64 - 2 ^ 63

/-- Go: `t.Add(d)`. -/
def Add (t : Time) (d : Duration) : Time := t + d

/-- Go: `t.Truncate(time.Second)`. -/
def truncateSecond (t : Time) : Time := t / 1000000000 * 1000000000

/-- Go: `t.Unix()`. -/
def Unix (t : Time) : Int := t / 1000000000

/-- Go: `t.Before(u)`. -/
def Before (t u : Time) : Bool := decide (t < u)

end time

namespace strings

/-- Go: `strings.Split(s, sep)` for a one-byte separator. -/
def Split (sep : Byte) : List Byte → List (List Byte)
  | [] => [[]]
  | c :: rest =>
    if c = sep then [] :: Split sep rest
    else
      match Split sep rest with
      | hd :: tl => (c :: hd) :: tl
      | [] => [[c]]

/-- The index loop of `strings.SplitN(s, sep, 2)`: the text before the first separator
and the text after it, if there is one. -/
def cut (sep : Byte) : List Byte → Option (List Byte × List Byte)
  | [] => none
  | c :: rest =>
    if c = sep then some ([], rest)
    else
      match cut sep rest with
      | some (before, after) => some (c :: before, after)
      | none => none

/-- Go: `strings.SplitN(s, sep, 2)` for a one-byte separator. -/
def SplitN2 (sep : Byte) (s : List Byte) : List (List Byte) :=
  match cut sep s with
  | some (before, after) => [before, after]
  | none => [s]

end strings

/-! ## `encoding/json` and `strconv`: what is stored into Go values -/

namespace strconv

/-- The float64 arithmetic of the Go runtime is not part of this development. The two
places where the decoding of a token depends on it are parameters: whether
`strconv.ParseFloat(lit, 64)` accepts a number literal, and the Unix seconds of
`jwt.newNumericDateFromSeconds(f)` for the parsed value `f` (`none` when `ParseFloat`
fails). Literals that are plain integers below `2 ^ 53` in absolute value never reach
the second parameter: their conversion is exact and is computed in `jwt.numericDate`. -/
structure Float64 where
  parseFloatOK : List Byte → Bool
  numericDateSeconds : List Byte → Option Int

/-- A literal `-?digits`, with its value. -/
def plainInt (lit : List Byte) : Option Int :=
  match lit with
  | 45 :: rest => if rest ≠ [] ∧ rest.all isDigit then some (-(digitsValue rest : Int)) else none
  | _ => if lit ≠ [] ∧ lit.all isDigit then some (digitsValue lit : Int) else none

end strconv

namespace json

mutual

/-- Storing a value into an `interface{}` converts every number in it to `float64`
(`convertNumber`); the conversion of one literal that fails makes `Unmarshal` fail. -/
def Value.floatsOK (fp : strconv.Float64) : Value → Bool
  | .number lit => fp.parseFloatOK lit
  | .array items => itemsOK fp items
  | .object members => membersOK fp members
  | _ => true

def itemsOK (fp : strconv.Float64) : List Value → Bool
  | [] => true
  | v :: rest => Value.floatsOK fp v && itemsOK fp rest

def membersOK (fp : strconv.Float64) : List (List Byte × Value) → Bool
  | [] => true
  | (_, v) :: rest => Value.floatsOK fp v && membersOK fp rest

end

/-- Go: `m[key]` after the members were stored in order: the last one with the key. -/
def lookupLast (key : List Byte) : List (List Byte × Value) → Option Value
  | [] => none
  | (k, v) :: rest =>
    match lookupLast key rest with
    | some w => some w
    | none => if k = key then some v else none

/-- Go: `json.Unmarshal(data, &m)` for a nil `m map[string]interface{}`: the members of
the object (a JSON `null` leaves the map nil), or `none` for an error. -/
def unmarshalMap (fp : strconv.Float64) (data : List Byte) :
    Option (List (List Byte × Value)) :=
  match parse data with
  | some (.object members) => if membersOK fp members then some members else none
  | some .null => some []
  | _ => none

/-- The ASCII name a key is folded to by `foldName`, for keys made of ASCII characters
and of the two other runes that fold to ASCII letters, U+017F (to `S`) and U+212A (to
`K`); `none` for a key with any other rune, which folds to no ASCII name. -/
def foldASCII : List Byte → Option (List Byte)
  | [] => some []
  | 197 :: 191 :: rest => (foldASCII rest).map (fun r => 83 :: r)
  | 226 :: 132 :: 170 :: rest => (foldASCII rest).map (fun r => 75 :: r)
  | c :: rest =>
    if c.val < 128 then
      (foldASCII rest).map (fun r =>
        (if 97 ≤ c.val ∧ c.val ≤ 122 then Fin.ofNat (c.val - 32) else c) :: r)
    else none

/-- Go: the field of a struct that a key selects: the field of that exact name, else
the field whose folded name is the folded key. -/
def findField {α : Type} (fields : List (List Byte × α)) (key : List Byte) : Option α :=
  match fields.lookup key with
  | some f => some f
  | none =>
    match foldASCII key with
    | some folded => (fields.map (fun e => (foldASCII e.1, e.2))).lookup (some folded)
    | none => none

/-- Storing into a field of kind `string`: a JSON string is stored, `null` has no
effect, anything else is an `UnmarshalTypeError`. -/
def storeString (cur : GoString) : Value → Option GoString
  | .string s => some s
  | .null => some cur
  | _ => none

/-- Storing into a field of kind `uint`: the literal must pass `strconv.ParseUint`. -/
def storeUint (cur : Nat) : Value → Option Nat
  | .number lit => strconv.ParseUint lit
  | .null => some cur
  | _ => none

end json

/-! ## `github.com/golang-jwt/jwt/v5` -/

namespace jwt

def ErrTokenMalformed : GoError := errors.New "token is malformed"
def ErrTokenUnverifiable : GoError := errors.New "token is unverifiable"
def ErrTokenSignatureInvalid : GoError := errors.New "token signature is invalid"
def ErrTokenExpired : GoError := errors.New "token is expired"
def ErrTokenNotValidYet : GoError := errors.New "token is not valid yet"
def ErrTokenInvalidClaims : GoError := errors.New "token has invalid claims"

/-- Go: `newError(message, err, more...)`: an error that wraps the given errors. -/
def newError (message : String) (errs : List GoError) : GoError :=
  { msg := message, wraps := errs.map (fun e => e.msg) ++ errs.flatMap (fun e => e.wraps) }

/-- Go: `type RegisteredClaims struct`; a `*NumericDate` is `none` when nil, else its
time, which `NewNumericDate` has truncated to the second. -/
structure RegisteredClaims where
  Issuer : GoString := []
  Subject : GoString := []
  Audience : List GoString := []
  ExpiresAt : Option Time := none
  NotBefore : Option Time := none
  IssuedAt : Option Time := none
  ID : GoString := []
  deriving DecidableEq, Repr

/-- Go: `func NewNumericDate(t time.Time) *NumericDate`. -/
def NewNumericDate (t : Time) : Option Time := some (time.truncateSecond t)

/-- Go: `func (date NumericDate) MarshalJSON()`, with the default `TimePrecision` of one
second: the Unix seconds in decimal. -/
def marshalNumericDate (t : Time) : List Byte := strconv.FormatInt (time.Unix t)

/-- The time of a number literal, as `NumericDate.UnmarshalJSON` computes it through
`float64`: exact for a plain integer below `2 ^ 53` in absolute value. -/
def numericDate (fp : strconv.Float64) (lit : List Byte) : Option Time :=
  match strconv.plainInt lit with
  | some n =>
    if n.natAbs < 2 ^ 53 then some (n * 1000000000)
    else (fp.numericDateSeconds lit).map (fun s => s * 1000000000)
  | none => (fp.numericDateSeconds lit).map (fun s => s * 1000000000)

/-- Storing into a `*NumericDate` field: `null` sets it to nil; a number, or a string
that holds a number literal, goes through `UnmarshalJSON`; `none` is an error. -/
def storeNumericDate (fp : strconv.Float64) : json.Value → Option (Option Time)
  | .null => some none
  | .number lit => (numericDate fp lit).map some
  | .string s =>
    match json.scanNumber s with
    | some (_, []) => (numericDate fp s).map some
    | _ => none
  | _ => none

/-- The strings of an array whose elements are all strings. -/
def allStrings : List json.Value → Option (List GoString)
  | [] => some []
  | .string s :: rest => (allStrings rest).map (fun l => s :: l)
  | _ :: _ => none

/-- Go: `func (s *ClaimStrings) UnmarshalJSON(data []byte)`: a string, an array of
strings, or `null` (no effect). -/
def storeAudience (cur : List GoString) : json.Value → Option (List GoString)
  | .string s => some [s]
  | .array items => allStrings items
  | .null => some cur
  | _ => none

/-- Go: `GetSigningMethod(alg)` over the methods the package registers. -/
inductive SigningMethod where
  | HMAC (hash : HashFunc)
  | RSA
  | RSAPSS
  | ECDSA
  | Ed25519
  | None

/-- Go: `func GetSigningMethod(alg string) SigningMethod`; `none` is the nil method of
an unregistered name. -/
def GetSigningMethod (alg : GoString) : Option SigningMethod :=
  if alg = ascii "HS256" then some (.HMAC SHA256)
  else if alg = ascii "HS384" then some (.HMAC SHA384)
  else if alg = ascii "HS512" then some (.HMAC SHA512)
  else if alg = ascii "RS256" ∨ alg = ascii "RS384" ∨ alg = ascii "RS512" then some .RSA
  else if alg = ascii "PS256" ∨ alg = ascii "PS384" ∨ alg = ascii "PS512" then some .RSAPSS
  else if alg = ascii "ES256" ∨ alg = ascii "ES384" ∨ alg = ascii "ES512" then some .ECDSA
  else if alg = ascii "EdDSA" then some .Ed25519
  else if alg = ascii "none" then some .None
  else none

/-- Go: `func (m *SigningMethodHMAC) Sign(signingString string, key interface{})` for a
key of type `[]byte`. -/
def signHMAC (hash : HashFunc) (signingString key : List Byte) : List Byte :=
  hmac.Sum hash key signingString

/-- Go: `func (m *SigningMethodHMAC) Verify(signingString string, sig []byte, key
interface{}) error` for a key of type `[]byte`; true when the error is nil. -/
def verifyHMAC (hash : HashFunc) (signingString sig key : List Byte) : Bool :=
  hmac.Equal sig (hmac.Sum hash key signingString)

/-- Go: `func (p *Parser) DecodeSegment(seg string) ([]byte, error)` of a default
parser. -/
def DecodeSegment (seg : List Byte) : Except Failure (List Byte) :=
  base64.RawURLEncoding.DecodeString seg

/-- Go: `func (t *Token) EncodeSegment(seg []byte) string`. -/
def EncodeSegment (seg : List Byte) : List Byte :=
  base64.RawURLEncoding.EncodeToString seg

/-- The checks of a default `Validator` on the registered claims at time `now`:
expiry (`now` must be before `exp`), then not-before; the errors found. -/
def validateClaims (now : Time) (rc : RegisteredClaims) : List GoError :=
  (match rc.ExpiresAt with
    | some exp => if time.Before now exp then [] else [ErrTokenExpired]
    | none => []) ++
  (match rc.NotBefore with
    | some nbf => if !time.Before now nbf then [] else [ErrTokenNotValidYet]
    | none => [])

end jwt

/-! ## `internal/utils/jwt.go` -/

/-- Go: `type Claims struct { UserID uint; UserName string; Role entity.RoleType;
jwt.RegisteredClaims }`. -/
structure Claims where
  UserID : Nat := 0
  UserName : GoString := []
  Role : RoleType := []
  RegisteredClaims : jwt.RegisteredClaims := {}
  deriving DecidableEq, Repr

/-- The fields of `Claims` by their JSON names. -/
inductive ClaimsField where
  | user_id | user_name | role | iss | sub | aud | exp | nbf | iat | jti
  deriving DecidableEq

def claimsFields : List (List Byte × ClaimsField) :=
  [(ascii "user_id", .user_id), (ascii "user_name", .user_name), (ascii "role", .role),
   (ascii "iss", .iss), (ascii "sub", .sub), (ascii "aud", .aud), (ascii "exp", .exp),
   (ascii "nbf", .nbf), (ascii "iat", .iat), (ascii "jti", .jti)]

/-- Storing one member of the claims object into the struct; a key that selects no field
is skipped; `none` is an error of `Unmarshal`. -/
def storeClaim (fp : strconv.Float64) (c : Claims) (key : List Byte) (v : json.Value) :
    Option Claims :=
  match json.findField claimsFields key with
  | none => some c
  | some .user_id => (json.storeUint c.UserID v).map (fun x => { c with UserID := x })
  | some .user_name => (json.storeString c.UserName v).map (fun x => { c with UserName := x })
  | some .role => (json.storeString c.Role v).map (fun x => { c with Role := x })
  | some .iss =>
    (json.storeString c.RegisteredClaims.Issuer v).map
      (fun x => { c with RegisteredClaims := { c.RegisteredClaims with Issuer := x } })
  | some .sub =>
    (json.storeString c.RegisteredClaims.Subject v).map
      (fun x => { c with RegisteredClaims := { c.RegisteredClaims with Subject := x } })
  | some .aud =>
    (jwt.storeAudience c.RegisteredClaims.Audience v).map
      (fun x => { c with RegisteredClaims := { c.RegisteredClaims with Audience := x } })
  | some .exp =>
    (jwt.storeNumericDate fp v).map
      (fun x => { c with RegisteredClaims := { c.RegisteredClaims with ExpiresAt := x } })
  | some .nbf =>
    (jwt.storeNumericDate fp v).map
      (fun x => { c with RegisteredClaims := { c.RegisteredClaims with NotBefore := x } })
  | some .iat =>
    (jwt.storeNumericDate fp v).map
      (fun x => { c with RegisteredClaims := { c.RegisteredClaims with IssuedAt := x } })
  | some .jti =>
    (json.storeString c.RegisteredClaims.ID v).map
      (fun x => { c with RegisteredClaims := { c.RegisteredClaims with ID := x } })

/-- The members of the claims object stored in order. -/
def storeClaims (fp : strconv.Float64) : List (List Byte × json.Value) → Claims → Option Claims
  | [], c => some c
  | (key, v) :: rest, c =>
    match storeClaim fp c key v with
    | some c1 => storeClaims fp rest c1
    | none => none

/-- Go: `json.Unmarshal(claimBytes, &claims)` for `claims` holding a fresh `&Claims{}`:
an object is stored member by member, `null` leaves the zero struct, everything else
is an error. -/
def unmarshalClaims (fp : strconv.Float64) (data : List Byte) : Option Claims :=
  match json.parse data with
  | some (.object members) => storeClaims fp members {}
  | some .null => some {}
  | _ => none

/-- Go: `json.Marshal(claims)` for a `*Claims` whose issuer, subject, audience and ID
are empty (`omitempty`) and whose three dates are set. -/
def marshalClaims (c : Claims) : List Byte :=
  [123] ++ json.appendString (ascii "user_id") ++ [58] ++ strconv.FormatUint c.UserID ++
  [44] ++ json.appendString (ascii "user_name") ++ [58] ++ json.appendString c.UserName ++
  [44] ++ json.appendString (ascii "role") ++ [58] ++ json.appendString c.Role ++
  (match c.RegisteredClaims.ExpiresAt with
    | some t => [44] ++ json.appendString (ascii "exp") ++ [58] ++ jwt.marshalNumericDate t
    | none => []) ++
  (match c.RegisteredClaims.NotBefore with
    | some t => [44] ++ json.appendString (ascii "nbf") ++ [58] ++ jwt.marshalNumericDate t
    | none => []) ++
  (match c.RegisteredClaims.IssuedAt with
    | some t => [44] ++ json.appendString (ascii "iat") ++ [58] ++ jwt.marshalNumericDate t
    | none => []) ++
  [125]

namespace jwt

/-- Go: `type Token struct`, for claims of type `γ`. -/
structure Token (γ : Type) where
  Raw : GoString
  Method : SigningMethod
  Header : List (List Byte × json.Value)
  Claims : γ
  Signature : List Byte
  Valid : Bool

/-- Go: `json.Marshal(t.Header)` for the header `{"typ": "JWT", "alg": alg}` that
`NewWithClaims` builds; the keys of a map are written in sorted order. -/
def marshalHeader (alg : GoString) : List Byte :=
  [123] ++ json.appendString (ascii "alg") ++ [58] ++ json.appendString alg ++
  [44] ++ json.appendString (ascii "typ") ++ [58] ++ json.appendString (ascii "JWT") ++ [125]

/-- Go: `func (t *Token) SigningString() (string, error)` on the marshalled header and
claims. -/
def SigningString (headerJSON claimsJSON : List Byte) : List Byte :=
  EncodeSegment headerJSON ++ [46] ++ EncodeSegment claimsJSON

/-- Go: `func (t *Token) SignedString(key interface{}) (string, error)` for an HMAC
method and a key of type `[]byte`. -/
def SignedString (hash : HashFunc) (headerJSON claimsJSON key : List Byte) : List Byte :=
  SigningString headerJSON claimsJSON ++ [46] ++
    EncodeSegment (signHMAC hash (SigningString headerJSON claimsJSON) key)

/-- Go: `method.Verify(signingString, sig, key)` for a key of type `[]byte`: the methods
other than HMAC reject such a key. -/
def SigningMethod.Verify (m : SigningMethod) (signingString sig key : List Byte) : Bool :=
  match m with
  | .HMAC hash => verifyHMAC hash signingString sig key
  | _ => false

/-- Go: `func (p *Parser) ParseUnverified(tokenString string, claims Claims)` of a
default parser; `unmarshal` is `json.Unmarshal` into the claims value. -/
def ParseUnverified {γ : Type} (fp : strconv.Float64) (unmarshal : List Byte → Option γ)
    (tokenString : GoString) : Except GoError (Token γ × List (List Byte)) :=
  let parts := strings.Split 46 tokenString
  if parts.length ≠ 3 then
    .error (newError "token contains an invalid number of segments" [ErrTokenMalformed])
  else
    match DecodeSegment (parts.getD 0 []) with
    | .error _ => .error (newError "could not base64 decode header" [ErrTokenMalformed])
    | .ok headerBytes =>
      match json.unmarshalMap fp headerBytes with
      | none => .error (newError "could not JSON decode header" [ErrTokenMalformed])
      | some header =>
        match DecodeSegment (parts.getD 1 []) with
        | .error _ => .error (newError "could not base64 decode claim" [ErrTokenMalformed])
        | .ok claimBytes =>
          match unmarshal claimBytes with
          | none => .error (newError "could not JSON decode claim" [ErrTokenMalformed])
          | some claims =>
            match json.lookupLast (ascii "alg") header with
            | some (.string method) =>
              match GetSigningMethod method with
              | none =>
                .error (newError "signing method (alg) is unavailable" [ErrTokenUnverifiable])
              | some m =>
                .ok ({ Raw := tokenString, Method := m, Header := header, Claims := claims,
                       Signature := [], Valid := false }, parts)
            | _ => .error (newError "signing method (alg) is unspecified" [ErrTokenUnverifiable])

/-- Go: `func (p *Parser) ParseWithClaims(tokenString string, claims Claims, keyFunc
Keyfunc) (*Token, error)` of a default parser, with the validator reading the clock at
`now`; `registered` gives the registered claims the validator checks. (Releases of the
package differ in whether the key function runs before or after the signature segment is
decoded; either way a failure of one of the two is an error.) -/
def ParseWithClaims {γ : Type} (fp : strconv.Float64) (now : Time)
    (unmarshal : List Byte → Option γ) (registered : γ → RegisteredClaims)
    (tokenString : GoString) (keyFunc : Token γ → Except GoError (List Byte)) :
    Except GoError (Token γ) :=
  match ParseUnverified fp unmarshal tokenString with
  | .error err => .error err
  | .ok (token, parts) =>
    match DecodeSegment (parts.getD 2 []) with
    | .error _ => .error (newError "could not base64 decode signature" [ErrTokenMalformed])
    | .ok sig =>
      match keyFunc token with
      | .error err => .error (newError "error while executing keyfunc" [ErrTokenUnverifiable, err])
      | .ok key =>
        if !token.Method.Verify (parts.getD 0 [] ++ [46] ++ parts.getD 1 []) sig key then
          .error (newError "" [ErrTokenSignatureInvalid])
        else
          match validateClaims now (registered token.Claims) with
          | [] => .ok { token with Signature := sig, Valid := true }
          | errs => .error (newError "" (ErrTokenInvalidClaims :: errs))

end jwt

/-- Go: `func GenerateToken(userID uint, username string, role entity.RoleType, secret
string, expireHours int) (string, error)`. The three arguments in front are the readings
of `time.Now()` in the order of the three calls. -/
def GenerateToken (nowExp nowIat nowNbf : Time) (userID : Nat) (username : GoString)
    (role : RoleType) (secret : GoString) (expireHours : Int) : GoResult GoString :=
  let expirationTime := time.Add nowExp (time.wrapInt64 (expireHours * time.Hour))
  let claims : Claims :=
    { UserID := userID, UserName := username, Role := role,
      RegisteredClaims :=
        { ExpiresAt := jwt.NewNumericDate expirationTime,
          IssuedAt := jwt.NewNumericDate nowIat,
          NotBefore := jwt.NewNumericDate nowNbf } }
  let tokenString :=
    jwt.SignedString SHA256 (jwt.marshalHeader (ascii "HS256")) (marshalClaims claims) secret
  .ret tokenString none

/-- The key function that `ValidateToken` gives to the parser. -/
def ValidateToken.keyFunc (secret : GoString) (token : jwt.Token Claims) :
    Except GoError (List Byte) :=
  match token.Method with
  | .HMAC _ => .ok secret
  | _ => .error (errors.New "invalid signing method")

/-- Go: `func ValidateToken(tokenString, secret string) (*Claims, error)`; `now` is the
reading of the clock by the validator of the parser. -/
def ValidateToken (fp : strconv.Float64) (now : Time) (tokenString secret : GoString) :
    GoResult (Option Claims) :=
  match jwt.ParseWithClaims fp now (unmarshalClaims fp) (fun c => c.RegisteredClaims) tokenString
      (ValidateToken.keyFunc secret) with
  | .error err => .ret none (some err)
  | .ok token =>
    if token.Valid then .ret (some token.Claims) none
    else .ret none (some (errors.New "invalid token"))

/-! ## `github.com/gin-gonic/gin`: request context and handler chains -/

namespace gin

/-- A value stored in the context under a key (Go: `any`), with the dynamic types that
occur in the sources. -/
inductive Any where
  | uint (n : Nat)
  | string (s : GoString)
  | roleType (r : RoleType)
  | other (typeName : String)
  deriving DecidableEq, Repr

/-- Go: `type Context struct`: the method and the header fields of the request, and the
key-value pairs `Keys` bound during the request. -/
structure Context where
  Method : GoString
  Header : GoString → GoString
  Keys : List (GoString × Any)

/-- Go: `func (c *Context) GetHeader(key string) string`; empty when the header is
absent. -/
def Context.GetHeader (c : Context) (key : GoString) : GoString := c.Header key

/-- Go: `func (c *Context) Set(key string, value any)`. -/
def Context.Set (c : Context) (key : GoString) (value : Any) : Context :=
  { c with Keys := (key, value) :: c.Keys.filter (fun e => e.1 ≠ key) }

/-- Go: `func (c *Context) Get(key string) (value any, exists bool)`. -/
def Context.Get (c : Context) (key : GoString) : Option Any := c.Keys.lookup key

/-- What a middleware did with the request: it reached `c.Next()` with the context in
the given state, or it called `c.AbortWithStatusJSON(status, ...)` and returned, after
which no later handler of the chain runs, or it panicked. -/
inductive Outcome where
  | next (c : Context)
  | abort (status : Nat) (c : Context)
  | panic (msg : String)

end gin

/-! ## `internal/api/middleware/middleware.go` -/

namespace middleware

def UserIDKey : GoString := ascii "user_id"
def UserNameKey : GoString := ascii "user_name"
def UserRoleKey : GoString := ascii "user_role"

/-- Go: `func JWTAuth(jwtSecret string) gin.HandlerFunc`; `now` is the reading of the
clock inside `ValidateToken`. The handler reads the fields of `claims` when the error is
nil, which panics for a nil pointer. -/
def JWTAuth (fp : strconv.Float64) (now : Time) (jwtSecret : GoString) (c : gin.Context) :
    gin.Outcome :=
  let authHeader := c.GetHeader (ascii "Authorization")
  if authHeader = [] then .abort 401 c
  else
    let parts := strings.SplitN2 32 authHeader
    if parts.length ≠ 2 ∨ parts.getD 0 [] ≠ ascii "Bearer" then .abort 401 c
    else
      let tokenString := parts.getD 1 []
      match ValidateToken fp now tokenString jwtSecret with
      | .panic msg => .panic msg
      | .ret _ (some _) => .abort 401 c
      | .ret none none => .panic "invalid memory address or nil pointer dereference"
      | .ret (some claims) none =>
        let c1 := c.Set UserIDKey (.uint claims.UserID)
        let c2 := c1.Set UserNameKey (.string claims.UserName)
        let c3 := c2.Set UserRoleKey (.roleType claims.Role)
        .next c3

/-- Go: `func RequirePermission(permissions ...string) gin.HandlerFunc`. -/
def RequirePermission (permissions : List GoString) (c : gin.Context) : gin.Outcome :=
  match c.Get UserRoleKey with
  | none => .abort 403 c
  | some roleValue =>
    match roleValue with
    | .roleType role =>
      if !HasAnyPermission role permissions then .abort 403 c
      else .next c
    | _ => .abort 403 c

/-- Go: `func CORS() gin.HandlerFunc` (the response headers it sets are not part of the
context of this development). -/
def CORS (c : gin.Context) : gin.Outcome :=
  if c.Method = ascii "OPTIONS" then .abort 204 c else .next c

end middleware

/-! ## `internal/api/router/router.go` -/

namespace router

/-- The handlers that the sources put into chains: the middlewares, and the final
handlers of the routes, which are named and not interpreted. -/
inductive Handler where
  | Recovery
  | Logger
  | CORS
  | JWTAuth (jwtSecret : GoString)
  | RequirePermission (permissions : List GoString)
  | endpoint (name : String)
  deriving DecidableEq, Repr

/-- A registered route: method, absolute path and handler chain. -/
structure Route where
  method : GoString
  path : GoString
  handlers : List Handler
  deriving DecidableEq, Repr

/-- Go: `type RouterGroup struct { Handlers HandlersChain; basePath string; ... }`. -/
structure RouterGroup where
  Handlers : List Handler
  basePath : GoString

/-- Go: `path.Clean` on paths without `.` and `..` elements (the sources have none):
repeated slashes are merged and a trailing slash is removed, except from the root. -/
def cleanPath : List Byte → List Byte
  | [] => []
  | [c] => [c]
  | c :: d :: rest =>
    if c.val = 47 ∧ d.val = 47 then cleanPath (d :: rest)
    else if d.val = 47 ∧ rest = [] then [c]
    else c :: cleanPath (d :: rest)

/-- Go (gin): `func joinPaths(absolutePath, relativePath string) string`. -/
def joinPaths (absolutePath relativePath : GoString) : GoString :=
  if relativePath = [] then absolutePath
  else
    let finalPath := cleanPath (absolutePath ++ [47] ++ relativePath)
    if relativePath.getLast? = some 47 ∧ finalPath.getLast? ≠ some 47 then finalPath ++ [47]
    else finalPath

/-- Go: `func (group *RouterGroup) Group(relativePath string) *RouterGroup`: the new
group starts with a copy of the handlers of its parent. -/
def RouterGroup.Group (group : RouterGroup) (relativePath : GoString) : RouterGroup :=
  { Handlers := group.Handlers, basePath := joinPaths group.basePath relativePath }

/-- Go: `func (group *RouterGroup) Use(middleware ...HandlerFunc)`. -/
def RouterGroup.Use (group : RouterGroup) (mw : List Handler) : RouterGroup :=
  { group with Handlers := group.Handlers ++ mw }

/-- Go: `group.handle(httpMethod, relativePath, handlers)`: the route that is added to
the engine. -/
def RouterGroup.handle (group : RouterGroup) (httpMethod relativePath : GoString)
    (handlers : List Handler) : Route :=
  { method := httpMethod, path := joinPaths group.basePath relativePath,
    handlers := group.Handlers ++ handlers }

def RouterGroup.GET (group : RouterGroup) (relativePath : GoString) (handlers : List Handler) :
    Route := group.handle (ascii "GET") relativePath handlers

def RouterGroup.POST (group : RouterGroup) (relativePath : GoString) (handlers : List Handler) :
    Route := group.handle (ascii "POST") relativePath handlers

def RouterGroup.PUT (group : RouterGroup) (relativePath : GoString) (handlers : List Handler) :
    Route := group.handle (ascii "PUT") relativePath handlers

def RouterGroup.DELETE (group : RouterGroup) (relativePath : GoString)
    (handlers : List Handler) : Route := group.handle (ascii "DELETE") relativePath handlers

/-- Go: `type AuthConfig struct`. -/
structure AuthConfig where
  DESKey : GoString
  JWTSecret : GoString
  JWTExpireHours : Int

/-- Go: `type Config struct`, the part that the router reads; `Auth` is a pointer. -/
structure Config where
  Auth : Option AuthConfig

/-- The routes registered once the JWT secret is known to be configured. -/
def apiRoutes (api : RouterGroup) (jwtSecret : GoString) : List Route :=
  let auth := api.Group (ascii "/auth")
  let authenticated := (api.Group (ascii "")).Use [.JWTAuth jwtSecret]
  let authAuthenticated := authenticated.Group (ascii "/auth")
  let users := authenticated.Group (ascii "/users")
  let maps := authenticated.Group (ascii "/maps")
  let pcds := maps.Group (ascii "/pcd-files")
  let semantics := maps.Group (ascii "/semantic-maps")
  let tasks := authenticated.Group (ascii "/tasks")
  let devices := authenticated.Group (ascii "/devices")
  let operations :=
    (authenticated.Group (ascii "/operations")).Use [.RequirePermission [PermissionOperationView]]
  [ auth.POST (ascii "/login") [.endpoint "userHandler.Login"],
    authAuthenticated.POST (ascii "/logout") [.endpoint "userHandler.Logout"],
    users.POST (ascii "")
      [.RequirePermission [PermissionUserManage], .endpoint "userHandler.CreateUser"],
    users.PUT (ascii "/:id")
      [.RequirePermission [PermissionUserManage], .endpoint "userHandler.UpdateUser"],
    users.DELETE (ascii "/:id")
      [.RequirePermission [PermissionUserManage], .endpoint "userHandler.DeleteUser"],
    users.GET (ascii "/:id")
      [.RequirePermission [PermissionUserView], .endpoint "userHandler.GetUser"],
    users.GET (ascii "")
      [.RequirePermission [PermissionUserView], .endpoint "userHandler.ListUsers"],
    pcds.POST (ascii "/upload-token")
      [.RequirePermission [PermissionMapManage], .endpoint "pcdHandler.GetPCDUploadToken"],
    pcds.POST (ascii "")
      [.RequirePermission [PermissionMapManage], .endpoint "pcdHandler.CreatePCDFile"],
    pcds.PUT (ascii "/:id")
      [.RequirePermission [PermissionMapManage], .endpoint "pcdHandler.UpdatePCDFile"],
    pcds.DELETE (ascii "/:id")
      [.RequirePermission [PermissionMapManage], .endpoint "pcdHandler.DeletePCDFile"],
    pcds.GET (ascii "/:id")
      [.RequirePermission [PermissionMapView], .endpoint "pcdHandler.GetPCDFile"],
    pcds.GET (ascii "")
      [.RequirePermission [PermissionMapView], .endpoint "pcdHandler.ListPCDFiles"],
    semantics.POST (ascii "")
      [.RequirePermission [PermissionMapManage], .endpoint "semanticHandler.CreateSemanticMap"],
    semantics.PUT (ascii "/:id")
      [.RequirePermission [PermissionMapManage], .endpoint "semanticHandler.UpdateSemanticMap"],
    semantics.DELETE (ascii "/:id")
      [.RequirePermission [PermissionMapManage], .endpoint "semanticHandler.DeleteSemanticMap"],
    semantics.GET (ascii "/:id")
      [.RequirePermission [PermissionMapView], .endpoint "semanticHandler.GetSemanticMap"],
    semantics.GET (ascii "")
      [.RequirePermission [PermissionMapView], .endpoint "semanticHandler.ListSemanticMaps"],
    tasks.POST (ascii "")
      [.RequirePermission [PermissionTaskManage], .endpoint "taskHandler.CreateTask"],
    tasks.PUT (ascii "/:id")
      [.RequirePermission [PermissionTaskManage], .endpoint "taskHandler.UpdateTask"],
    tasks.DELETE (ascii "/:id")
      [.RequirePermission [PermissionTaskManage], .endpoint "taskHandler.DeleteTask"],
    tasks.GET (ascii "/:id")
      [.RequirePermission [PermissionTaskView], .endpoint "taskHandler.GetTask"],
    tasks.GET (ascii "")
      [.RequirePermission [PermissionTaskView], .endpoint "taskHandler.ListTasks"],
    devices.POST (ascii "")
      [.RequirePermission [PermissionDeviceManage], .endpoint "deviceHandler.CreateDevice"],
    devices.PUT (ascii "/:id")
      [.RequirePermission [PermissionDeviceManage], .endpoint "deviceHandler.UpdateDevice"],
    devices.DELETE (ascii "/:id")
      [.RequirePermission [PermissionDeviceManage], .endpoint "deviceHandler.DeleteDevice"],
    devices.GET (ascii "/:id")
      [.RequirePermission [PermissionDeviceView], .endpoint "deviceHandler.GetDevice"],
    devices.GET (ascii "")
      [.RequirePermission [PermissionDeviceView], .endpoint "deviceHandler.ListDevices"],
    operations.GET (ascii "/:id") [.endpoint "operationHandler.GetOperation"],
    operations.GET (ascii "") [.endpoint "operationHandler.ListOperations"] ]

/-- Go: `func SetupRouter(router *gin.Engine, cfg *config.Config)`: the routes it adds to
the engine, in the order of registration, or the panic for a missing JWT secret.
`engine` is the root group of the engine, with the middlewares installed before the
call. -/
def SetupRouter (engine : RouterGroup) (cfg : Config) : Except Failure (List Route) :=
  let swagger := engine.GET (ascii "/swagger/*any") [.endpoint "ginSwagger.WrapHandler"]
  let health := engine.GET (ascii "/health") [.endpoint "health"]
  let api := engine.Group (ascii "/api/v1")
  match cfg.Auth with
  | none => .error (.panic "JWT secret not configured")
  | some authConfig =>
    if authConfig.JWTSecret = [] then .error (.panic "JWT secret not configured")
    else .ok (swagger :: health :: apiRoutes api authConfig.JWTSecret)

/-- Go: `gin.New()` followed by the three `engine.Use` calls of `NewServer`. -/
def serverEngine : RouterGroup :=
  { Handlers := [.Recovery, .Logger, .CORS], basePath := ascii "/" }

/-- How the handler chain of a route ends for a request: a middleware aborted with a
status, the final handler of the route was reached, the chain had no final handler, or
a middleware panicked (which `Recovery` at the head of the chain turns into status
500). -/
inductive Served where
  | aborted (status : Nat) (c : gin.Context)
  | reached (endpoint : String) (c : gin.Context)
  | done (c : gin.Context)
  | panicked (msg : String)

/-- One middleware of a chain on the context. -/
def Handler.run (fp : strconv.Float64) (now : Time) (h : Handler) (c : gin.Context) :
    gin.Outcome :=
  match h with
  | .Recovery => .next c
  | .Logger => .next c
  | .CORS => middleware.CORS c
  | .JWTAuth jwtSecret => middleware.JWTAuth fp now jwtSecret c
  | .RequirePermission permissions => middleware.RequirePermission permissions c
  | .endpoint _ => .next c

/-- Go (gin): the handlers of a chain run in order; each middleware hands over to the
rest of the chain with `c.Next()`, and an abort stops the chain. The final handler of
the route is reached with the context as the middlewares left it. -/
def serve (fp : strconv.Float64) (now : Time) : List Handler → gin.Context → Served
  | [], c => .done c
  | .endpoint name :: _, c => .reached name c
  | h :: rest, c =>
    match h.run fp now c with
    | .next c1 => serve fp now rest c1
    | .abort status c1 => .aborted status c1
    | .panic msg => .panicked msg

/-- The middlewares of a chain that run for a request, in order, each with whether it
handed over to the rest of the chain. -/
def trace (fp : strconv.Float64) (now : Time) : List Handler → gin.Context →
    List (Handler × Bool)
  | [], _ => []
  | .endpoint name :: _, _ => [(.endpoint name, true)]
  | h :: rest, c =>
    match h.run fp now c with
    | .next c1 => (h, true) :: trace fp now rest c1
    | .abort _ _ => [(h, false)]
    | .panic _ => [(h, false)]

/-- The permission lists of the `RequirePermission` gates of a chain, in order. -/
def gates : List Handler → List (List GoString)
  | [] => []
  | .RequirePermission permissions :: rest => permissions :: gates rest
  | _ :: rest => gates rest

end router

/-! ## Example values, for evaluating the definitions -/

namespace sample

/-- An instance of the float64 parameter that refuses every literal sent to it. The
examples below only have plain integer literals, which never reach the parameter. -/
def noFloat : strconv.Float64 := { parseFloatOK := fun _ => false, numericDateSeconds := fun _ => none }

/-- A reading of the clock: 2023-11-14 22:13:20.123456789 UTC. -/
def t0 : Time := 1700000000123456789

def secret : GoString := ascii "test_secret_key"

def cfg : router.Config :=
  { Auth := some { DESKey := ascii "12345678", JWTSecret := secret, JWTExpireHours := 24 } }

/-- The token string of a `GoResult`. -/
def tokenOf : GoResult GoString → GoString
  | .ret tokenString _ => tokenString
  | .panic _ => []

/-- A token issued at `t0` to a user with the manager role, for 24 hours. -/
def managerToken : GoString :=
  tokenOf (GenerateToken t0 t0 t0 2 (ascii "manager1") RoleManager secret 24)

/-- The claims of `managerToken`. -/
def managerClaims : Claims :=
  { UserID := 2, UserName := ascii "manager1", Role := RoleManager,
    RegisteredClaims :=
      { ExpiresAt := some 1700086400000000000, NotBefore := some 1700000000000000000,
        IssuedAt := some 1700000000000000000 } }

/-- A POST request that carries `managerToken` as its bearer token. -/
def managerRequest : gin.Context :=
  { Method := ascii "POST",
    Header := fun key =>
      if key = ascii "Authorization" then ascii "Bearer" ++ [32] ++ managerToken else [],
    Keys := [] }

end sample

/-! ## Properties used in the proofs about the JSON decoder -/

namespace json

/-- The text `vtext` is read by the parser as the value `v`: in front of a comma or a
closing brace, at any depth and with any fuel that covers the input, `parseValue` returns
`v` and stops at the separator; and the text does not start with white space. -/
def ParsesAs (vtext : List Byte) (v : Value) : Prop :=
  (∃ c tail, vtext = c :: tail ∧ isSpace c = false) ∧
  ∀ (fuel depth : Nat) (sep : Byte) (rest : List Byte), sep.val = 44 ∨ sep.val = 125 →
    (vtext ++ sep :: rest).length ≤ fuel →
    parseValue fuel depth (vtext ++ sep :: rest) = some (v, sep :: rest)

end json

namespace sample

/-- The claims of the expired token of `TestValidateToken_Expired`, with the clock at
`t0`: expiry one hour before `t0`, issue and not-before two hours before `t0`. -/
def expiredClaims : Claims :=
  { UserID := 1, UserName := ascii "testuser", Role := RoleUser,
    RegisteredClaims :=
      { ExpiresAt := jwt.NewNumericDate (time.Add t0 (-1 * time.Hour)),
        IssuedAt := jwt.NewNumericDate (time.Add t0 (-2 * time.Hour)),
        NotBefore := jwt.NewNumericDate (time.Add t0 (-2 * time.Hour)) } }

/-- The token of `TestValidateToken_Expired`: `expiredClaims` signed with HS256 under
`secret`. -/
def expiredToken : GoString :=
  jwt.SignedString SHA256 (jwt.marshalHeader (ascii "HS256")) (marshalClaims expiredClaims)
    secret

end sample

/-! ## Go `int` and `int64` arithmetic

The server is built for 64-bit platforms, where `int` is 64 bits like `int64`. -/

/-- The value of an `int` or `int64` expression after two's-complement wrap-around. -/
def wrapInt (x : Int) : Int := time.wrapInt64 x

/-- Go: `a / b` on `int64`: the quotient truncated toward zero; a zero divisor is a
run-time panic. -/
def divInt64 (a b : Int) : Except Failure Int :=
  if b = 0 then .error (.panic "runtime error: integer divide by zero")
  else .ok (wrapInt (Int.tdiv a b))

/-! ## `internal/model/entity/user.go`, `internal/model/dto` -/

namespace entity

/-- Go: `type UserInfo struct`, with the fields of the embedded `gorm.Model` in front. -/
structure UserInfo where
  ID : Nat := 0
  CreatedAt : Time := 0
  UpdatedAt : Time := 0
  DeletedAt : Option Time := none
  UserName : GoString := []
  Password : GoString := []
  Role : RoleType := []
  IsLocked : Int := 0
  ExtraInfo : Option GoString := none
  deriving DecidableEq, Repr

end entity

namespace dto

/-- Go: `type PageRequest struct { Page int; PageSize int }`. -/
structure PageRequest where
  Page : Int := 0
  PageSize : Int := 0
  deriving DecidableEq, Repr

/-- Go: `type PageResponse struct { Total int64; Pages int; Page int; PageSize int }`. -/
structure PageResponse where
  Total : Int := 0
  Pages : Int := 0
  Page : Int := 0
  PageSize : Int := 0
  deriving DecidableEq, Repr

/-- Go: `type UserResponse struct`. -/
structure UserResponse where
  ID : Nat := 0
  UserName : GoString := []
  Role : RoleType := []
  IsLocked : Int := 0
  CreateTime : Option Time := none
  UpdateTime : Option Time := none
  ExtraInfo : Option GoString := none
  deriving DecidableEq, Repr

/-- Go: `type UserListResponse struct { PageResponse; List []*UserResponse }`. -/
structure UserListResponse where
  PageResponse : PageResponse := {}
  List : List (Option UserResponse) := []
  deriving DecidableEq, Repr

/-- Go: `type LoginResponse struct { Token string; User *UserResponse }`. -/
structure LoginResponse where
  Token : GoString := []
  User : Option UserResponse := none
  deriving DecidableEq, Repr

/-- Go: `func NewUserResponseFromEntity(u *entity.UserInfo) *UserResponse`. -/
def NewUserResponseFromEntity : Option entity.UserInfo → Option UserResponse
  | none => none
  | some u =>
    some
      { ID := u.ID, UserName := u.UserName, Role := u.Role, IsLocked := u.IsLocked,
        CreateTime := some u.CreatedAt, UpdateTime := some u.UpdatedAt,
        ExtraInfo := u.ExtraInfo }

/-- Go: `func NewUserListResponseFromEntities(list []*entity.UserInfo, page PageResponse)
*UserListResponse`. -/
def NewUserListResponseFromEntities (list : List (Option entity.UserInfo))
    (page : PageResponse) : UserListResponse :=
  { PageResponse := page, List := list.map NewUserResponseFromEntity }

end dto

/-! ## `internal/dao/interfaces/user_dao.go`, `internal/service/user.go` -/

namespace dao

/-- Go: `type UserDAO interface`, the methods that `ListUsers`, `Login`, `UpdateUser` and
`DeleteUser` call; the context argument is left out. A method gives all its results, as
an implementation of the interface may. -/
structure UserDAO where
  FindPage : Int → Int → List (Option entity.UserInfo) × Int × Option GoError
  FindByUserName : GoString → Option entity.UserInfo × Option GoError
  FindByID : Nat → Option entity.UserInfo × Option GoError
  Update : entity.UserInfo → Option GoError
  Delete : Nat → Option GoError

end dao

namespace service

/-- A call that a service method makes to the repository or to `utils`, with its
arguments (the calls of the logger are not recorded). -/
inductive Call where
  | FindPage (offset limit : Int)
  | FindByUserName (userName : GoString)
  | DESDecrypt (ciphertext key : GoString)
  | GenerateToken (userID : Nat) (username : GoString) (role : RoleType) (secret : GoString)
      (expireHours : Int)
  deriving DecidableEq, Repr

/-- Go: `type UserService struct { userDAO dao.UserDAO }`. -/
structure UserService where
  userDAO : dao.UserDAO

/-- The division of `ListUsers`: `pages := 0; if req.PageSize > 0 { pages = int((total +
int64(req.PageSize) - 1) / int64(req.PageSize)) }`. -/
def pagesOf (total pageSize : Int) : Except Failure Int :=
  if pageSize > 0 then divInt64 (wrapInt (wrapInt (total + pageSize) - 1)) pageSize
  else .ok 0

/-- Go: `func (s *UserService) ListUsers(ctx context.Context, req dto.PageRequest)
(*dto.UserListResponse, error)`: the calls made, in order, and the results. -/
def UserService.ListUsers (s : UserService) (req : dto.PageRequest) :
    List Call × GoResult (Option dto.UserListResponse) :=
  let req : dto.PageRequest := if req.Page ≤ 0 then { req with Page := 1 } else req
  let req : dto.PageRequest := if req.PageSize ≤ 0 then { req with PageSize := 10 } else req
  let offset := wrapInt (wrapInt (req.Page - 1) * req.PageSize)
  let calls := [Call.FindPage offset req.PageSize]
  match s.userDAO.FindPage offset req.PageSize with
  | (_, _, some err) => (calls, .ret none (some err))
  | (users, total, none) =>
    match pagesOf total req.PageSize with
    | .error f => (calls, failWith none f)
    | .ok pages =>
      let page : dto.PageResponse :=
        { Total := total, Page := req.Page, PageSize := req.PageSize, Pages := pages }
      (calls, .ret (some (dto.NewUserListResponseFromEntities users page)) none)

/-- The loop of `constantTimeCompare`: `result |= int(a[i]) ^ int(b[i])` over two strings
of one length. -/
def constantTimeCompare.loop : List Byte → List Byte → Nat → Nat
  | a :: as, b :: bs, result => constantTimeCompare.loop as bs (result ||| (a.val ^^^ b.val))
  | _, _, result => result

/-- Go: `func constantTimeCompare(a, b string) bool`. -/
def constantTimeCompare (a b : GoString) : Bool :=
  if a.length ≠ b.length then false
  else decide (constantTimeCompare.loop a b 0 = 0)

/-- Go: `func (s *UserService) Login(ctx context.Context, username, password string,
desKey string, jwtSecret string, jwtExpireHours int) (*dto.LoginResponse, error)`: the
calls made, in order, and the results. The three arguments in front are the readings of
the clock by `GenerateToken`. -/
def UserService.Login (s : UserService) (nowExp nowIat nowNbf : Time)
    (username password desKey jwtSecret : GoString) (jwtExpireHours : Int) :
    List Call × GoResult (Option dto.LoginResponse) :=
  let find := Call.FindByUserName username
  match s.userDAO.FindByUserName username with
  | (_, some _) => ([find], .ret none (some (errors.New "登录失败")))
  | (none, none) => ([find], .ret none (some (errors.New "用户名或密码错误")))
  | (some user, none) =>
    if user.IsLocked = 1 then ([find], .ret none (some (errors.New "用户已被锁定")))
    else
      let decrypt := Call.DESDecrypt user.Password desKey
      match DESDecrypt user.Password desKey with
      | .panic msg => ([find, decrypt], .panic msg)
      | .ret _ (some _) => ([find, decrypt], .ret none (some (errors.New "登录失败")))
      | .ret decryptedPassword none =>
        if !constantTimeCompare password decryptedPassword then
          ([find, decrypt], .ret none (some (errors.New "用户名或密码错误")))
        else
          let generate :=
            Call.GenerateToken user.ID user.UserName user.Role jwtSecret jwtExpireHours
          match GenerateToken nowExp nowIat nowNbf user.ID user.UserName user.Role jwtSecret
              jwtExpireHours with
          | .panic msg => ([find, decrypt, generate], .panic msg)
          | .ret _ (some _) =>
            ([find, decrypt, generate], .ret none (some (errors.New "登录失败")))
          | .ret token none =>
            ([find, decrypt, generate],
              .ret (some { Token := token, User := dto.NewUserResponseFromEntity (some user) })
                none)

end service

namespace sample

/-- A repository with five users, none of them named. -/
def fiveUsers : dao.UserDAO :=
  { FindPage := fun offset limit =>
      (((List.range 5).drop offset.toNat).take limit.toNat |>.map
        (fun i => some { ID := i + 1, UserName := ascii "user", Role := RoleUser }), 5, none),
    FindByUserName := fun _ => (none, none),
    FindByID := fun id =>
      if 1 ≤ id ∧ id ≤ 5 then
        (some { ID := id, UserName := ascii "user", Role := RoleUser }, none)
      else (none, none),
    Update := fun user =>
      if 1 ≤ user.ID ∧ user.ID ≤ 5 then none else some (errors.New "user not found"),
    Delete := fun id =>
      if 1 ≤ id ∧ id ≤ 5 then none else some (errors.New "user not found") }

/-- A repository whose only user, `alice`, is locked; the stored password does not
decode. -/
def lockedUsers : dao.UserDAO :=
  { FindPage := fun _ _ => ([], 0, none),
    FindByUserName := fun userName =>
      if userName = ascii "alice" then
        (some { ID := 7, UserName := ascii "alice", Password := ascii "not-valid-base64!",
                Role := RoleOperator, IsLocked := 1 }, none)
      else (none, none),
    FindByID := fun _ => (none, none),
    Update := fun _ => some (errors.New "user not found"),
    Delete := fun _ => some (errors.New "user not found") }

/-- A token whose header declares the algorithm `none` and whose signature segment is
empty. -/
def noneToken : GoString :=
  jwt.EncodeSegment (jwt.marshalHeader (ascii "none")) ++ [46] ++
    jwt.EncodeSegment (marshalClaims managerClaims) ++ [46]

/-- A token whose header declares the algorithm `RS256`, signed with HMAC-SHA256 under
`secret`, the way of the algorithm-substitution attack. -/
def rs256Token : GoString :=
  jwt.SignedString SHA256 (jwt.marshalHeader (ascii "RS256")) (marshalClaims managerClaims)
    secret

end sample

/-! ## `internal/service/user.go`: update and delete; `internal/api/handler` -/

/-- Go: `strconv.ParseUint(s, 10, 32)`, on input without underscores: all characters are
digits and the value fits in 32 bits. -/
def strconv.ParseUint32 (s : List Byte) : Option Nat :=
  if s ≠ [] ∧ s.all strconv.isDigit ∧ strconv.digitsValue s < 2 ^ 32 then
    some (strconv.digitsValue s)
  else none

/-- Go: `err.Error()` of an error made by `errors.New`. -/
def GoError.Error (err : GoError) : String := err.msg

/-- Go: `type UserUpdateRequest struct`; an absent field is a nil pointer. -/
structure dto.UserUpdateRequest where
  Password : Option GoString := none
  Role : Option RoleType := none
  IsLocked : Option Int := none
  ExtraInfo : Option GoString := none
  deriving DecidableEq, Repr

namespace service

/-- The assignments of `UpdateUser` to the fields of the user found: the password
encrypted, then role, lock flag and extra information, each when the request has it. -/
def UserService.applyUpdate (user : entity.UserInfo) (req : dto.UserUpdateRequest)
    (desKey : GoString) : Except Failure entity.UserInfo :=
  let withPassword : Except Failure entity.UserInfo :=
    match req.Password with
    | none => .ok user
    | some password =>
      match DESEncrypt password desKey with
      | .panic msg => .error (.panic msg)
      | .ret _ (some _) => .error (.error (errors.New "加密用户密码失败"))
      | .ret encryptedPassword none => .ok { user with Password := encryptedPassword }
  match withPassword with
  | .error f => .error f
  | .ok user =>
    let user := match req.Role with
      | some role => { user with Role := role }
      | none => user
    let user := match req.IsLocked with
      | some isLocked => { user with IsLocked := isLocked }
      | none => user
    let user := match req.ExtraInfo with
      | some extraInfo => { user with ExtraInfo := some extraInfo }
      | none => user
    .ok user

/-- Go: `func (s *UserService) UpdateUser(ctx context.Context, id uint, req
*dto.UserUpdateRequest, desKey string) error`. -/
def UserService.UpdateUser (s : UserService) (id : Nat) (req : dto.UserUpdateRequest)
    (desKey : GoString) : GoResult Unit :=
  match s.userDAO.FindByID id with
  | (_, some err) => .ret () (some err)
  | (none, none) => .ret () (some (errors.New "user not found"))
  | (some user, none) =>
    match UserService.applyUpdate user req desKey with
    | .error f => failWith () f
    | .ok user =>
      match s.userDAO.Update user with
      | some err => .ret () (some err)
      | none => .ret () none

/-- Go: `func (s *UserService) DeleteUser(ctx context.Context, id uint) error`. -/
def UserService.DeleteUser (s : UserService) (id : Nat) : GoResult Unit :=
  .ret () (s.userDAO.Delete id)

end service

namespace handler

/-- The values that the handlers of this development put into `Data interface{}`: nil, or
a `gin.H` with string values. -/
inductive Data where
  | null
  | H (fields : List (String × String))
  deriving DecidableEq, Repr

/-- Go: `type Response struct { Code int; Message string; Data interface{} }`. -/
structure Response where
  Code : Int
  Message : String
  Data : Data
  deriving DecidableEq, Repr

/-- What a handler leaves: the status and the body that it wrote with `c.JSON`, or a
panic. -/
inductive Written where
  | json (status : Nat) (body : Response)
  | panic (msg : String)
  deriving DecidableEq, Repr

/-- The `code` of the envelope written. -/
def Written.code : Written → Option Int
  | .json _ body => some body.Code
  | .panic _ => none

/-- Go: `func Success(c *gin.Context, data interface{})`. -/
def Success (data : Data) : Written :=
  .json 200 { Code := 0, Message := "success", Data := data }

/-- Go: `func Error(c *gin.Context, code int, message string)`. -/
def Error (code : Int) (message : String) : Written :=
  .json 200 { Code := code, Message := message, Data := .null }

/-- Go: `func BadRequest(c *gin.Context, message string)`. -/
def BadRequest (message : String) : Written := Error 400 message

/-- Go: `func NotFound(c *gin.Context, message string)`. -/
def NotFound (message : String) : Written := Error 404 message

/-- Go: `func InternalServerError(c *gin.Context, message string)`. -/
def InternalServerError (message : String) : Written := Error 500 message

/-- Go: `type UserHandler struct { userService *service.UserService; config
*config.Config }`. -/
structure UserHandler where
  userService : service.UserService
  config : router.Config

/-- Go: `func (h *UserHandler) UpdateUser(c *gin.Context)`. Of the request it reads the
path parameter `id` and the body; `bind` is the result of `c.ShouldBindJSON(&req)`. -/
def UserHandler.UpdateUser (h : UserHandler) (idStr : GoString)
    (bind : Except GoError dto.UserUpdateRequest) : Written :=
  match strconv.ParseUint32 idStr with
  | none => BadRequest "无效的用户ID"
  | some id =>
    match bind with
    | .error err => BadRequest ("无效的请求参数: " ++ err.Error)
    | .ok req =>
      match h.config.Auth with
      | none => InternalServerError "认证配置缺失或DES密钥未配置"
      | some authConfig =>
        if authConfig.DESKey = [] then InternalServerError "认证配置缺失或DES密钥未配置"
        else
          match h.userService.UpdateUser id req authConfig.DESKey with
          | .panic msg => .panic msg
          | .ret _ (some err) => InternalServerError ("更新用户失败: " ++ err.Error)
          | .ret _ none => Success (.H [("message", "更新成功")])

/-- Go: `func (h *UserHandler) DeleteUser(c *gin.Context)`. -/
def UserHandler.DeleteUser (h : UserHandler) (idStr : GoString) : Written :=
  match strconv.ParseUint32 idStr with
  | none => BadRequest "无效的用户ID"
  | some id =>
    match h.userService.DeleteUser id with
    | .panic msg => .panic msg
    | .ret _ (some err) => InternalServerError ("删除用户失败: " ++ err.Error)
    | .ret _ none => Success (.H [("message", "删除成功")])

end handler

/-! ## The other list operations of `internal/service`

The entity of a repository and the response written for it are type parameters here
(`E` and `R`, with the conversion of `dto` between them): the operations only pass them
on. -/

/-- The method `FindPage` of the repository interfaces of `internal/dao/interfaces`, for
the entity type `E`. -/
structure dao.Pager (E : Type) where
  FindPage : Int → Int → List (Option E) × Int × Option GoError

/-- Go: the list responses of `dto`, `struct { PageResponse; List []*R }`. -/
structure dto.ListResponse (R : Type) where
  PageResponse : dto.PageResponse
  List : List (Option R)

/-- Go: the functions `New...ListResponseFromEntities(list, page)` of `dto`, with the
conversion of one entity as an argument. -/
def dto.NewListResponseFromEntities {E R : Type} (fromEntity : Option E → Option R)
    (list : List (Option E)) (page : dto.PageResponse) : dto.ListResponse R :=
  { PageResponse := page, List := list.map fromEntity }

namespace service

/-- Go: `func (s *DeviceService) ListDevices(ctx context.Context, req dto.PageRequest)
(*dto.DeviceListResponse, error)`. -/
def ListDevices {E R : Type} (deviceDAO : dao.Pager E)
    (NewDeviceResponseFromEntity : Option E → Option R) (req : dto.PageRequest) :
    List Call × GoResult (Option (dto.ListResponse R)) :=
  let req : dto.PageRequest := if req.Page ≤ 0 then { req with Page := 1 } else req
  let req : dto.PageRequest := if req.PageSize ≤ 0 then { req with PageSize := 10 } else req
  let offset := wrapInt (wrapInt (req.Page - 1) * req.PageSize)
  let calls := [Call.FindPage offset req.PageSize]
  match deviceDAO.FindPage offset req.PageSize with
  | (_, _, some err) => (calls, .ret none (some err))
  | (devices, total, none) =>
    let pages : Except Failure Int :=
      if req.PageSize > 0 then
        divInt64 (wrapInt (wrapInt (total + req.PageSize) - 1)) req.PageSize
      else .ok 0
    match pages with
    | .error f => (calls, failWith none f)
    | .ok pages =>
      let page : dto.PageResponse :=
        { Total := total, Page := req.Page, PageSize := req.PageSize, Pages := pages }
      (calls,
        .ret (some (dto.NewListResponseFromEntities NewDeviceResponseFromEntity devices page))
          none)

/-- Go: `func (s *TaskService) ListTasks(ctx context.Context, req dto.PageRequest)
(*dto.TaskListResponse, error)`. -/
def ListTasks {E R : Type} (taskDAO : dao.Pager E)
    (NewTaskResponseFromEntity : Option E → Option R) (req : dto.PageRequest) :
    List Call × GoResult (Option (dto.ListResponse R)) :=
  let req : dto.PageRequest := if req.Page ≤ 0 then { req with Page := 1 } else req
  let req : dto.PageRequest := if req.PageSize ≤ 0 then { req with PageSize := 10 } else req
  let offset := wrapInt (wrapInt (req.Page - 1) * req.PageSize)
  let calls := [Call.FindPage offset req.PageSize]
  match taskDAO.FindPage offset req.PageSize with
  | (_, _, some err) => (calls, .ret none (some err))
  | (tasks, total, none) =>
    let pages : Except Failure Int :=
      if req.PageSize > 0 then
        divInt64 (wrapInt (wrapInt (total + req.PageSize) - 1)) req.PageSize
      else .ok 0
    match pages with
    | .error f => (calls, failWith none f)
    | .ok pages =>
      let page : dto.PageResponse :=
        { Total := total, Page := req.Page, PageSize := req.PageSize, Pages := pages }
      (calls,
        .ret (some (dto.NewListResponseFromEntities NewTaskResponseFromEntity tasks page)) none)

/-- Go: `func (s *PCDFileService) ListPCDFiles(ctx context.Context, req dto.PageRequest)
(*dto.PCDFileListResponse, error)`. -/
def ListPCDFiles {E R : Type} (pcdDAO : dao.Pager E)
    (NewPCDFileResponseFromEntity : Option E → Option R) (req : dto.PageRequest) :
    List Call × GoResult (Option (dto.ListResponse R)) :=
  let req : dto.PageRequest := if req.Page ≤ 0 then { req with Page := 1 } else req
  let req : dto.PageRequest := if req.PageSize ≤ 0 then { req with PageSize := 10 } else req
  let offset := wrapInt (wrapInt (req.Page - 1) * req.PageSize)
  let calls := [Call.FindPage offset req.PageSize]
  match pcdDAO.FindPage offset req.PageSize with
  | (_, _, some err) => (calls, .ret none (some err))
  | (files, total, none) =>
    let pages : Except Failure Int :=
      if req.PageSize > 0 then
        divInt64 (wrapInt (wrapInt (total + req.PageSize) - 1)) req.PageSize
      else .ok 0
    match pages with
    | .error f => (calls, failWith none f)
    | .ok pages =>
      let page : dto.PageResponse :=
        { Total := total, Page := req.Page, PageSize := req.PageSize, Pages := pages }
      (calls,
        .ret (some (dto.NewListResponseFromEntities NewPCDFileResponseFromEntity files page))
          none)

/-- Go: `func (s *SemanticMapService) ListSemanticMaps(ctx context.Context, req
dto.PageRequest) (*dto.SemanticMapListResponse, error)`. -/
def ListSemanticMaps {E R : Type} (semanticDAO : dao.Pager E)
    (NewSemanticMapResponseFromEntity : Option E → Option R) (req : dto.PageRequest) :
    List Call × GoResult (Option (dto.ListResponse R)) :=
  let req : dto.PageRequest := if req.Page ≤ 0 then { req with Page := 1 } else req
  let req : dto.PageRequest := if req.PageSize ≤ 0 then { req with PageSize := 10 } else req
  let offset := wrapInt (wrapInt (req.Page - 1) * req.PageSize)
  let calls := [Call.FindPage offset req.PageSize]
  match semanticDAO.FindPage offset req.PageSize with
  | (_, _, some err) => (calls, .ret none (some err))
  | (maps, total, none) =>
    let pages : Except Failure Int :=
      if req.PageSize > 0 then
        divInt64 (wrapInt (wrapInt (total + req.PageSize) - 1)) req.PageSize
      else .ok 0
    match pages with
    | .error f => (calls, failWith none f)
    | .ok pages =>
      let page : dto.PageResponse :=
        { Total := total, Page := req.Page, PageSize := req.PageSize, Pages := pages }
      (calls,
        .ret (some (dto.NewListResponseFromEntities NewSemanticMapResponseFromEntity maps page))
          none)

/-- Go: `func (s *UserOperationService) ListOperations(ctx context.Context, req
dto.PageRequest) (*dto.UserOperationListResponse, error)`. -/
def ListOperations {E R : Type} (operationDAO : dao.Pager E)
    (NewUserOperationResponseFromEntity : Option E → Option R) (req : dto.PageRequest) :
    List Call × GoResult (Option (dto.ListResponse R)) :=
  let req : dto.PageRequest := if req.Page ≤ 0 then { req with Page := 1 } else req
  let req : dto.PageRequest := if req.PageSize ≤ 0 then { req with PageSize := 10 } else req
  let offset := wrapInt (wrapInt (req.Page - 1) * req.PageSize)
  let calls := [Call.FindPage offset req.PageSize]
  match operationDAO.FindPage offset req.PageSize with
  | (_, _, some err) => (calls, .ret none (some err))
  | (operations, total, none) =>
    let pages : Except Failure Int :=
      if req.PageSize > 0 then
        divInt64 (wrapInt (wrapInt (total + req.PageSize) - 1)) req.PageSize
      else .ok 0
    match pages with
    | .error f => (calls, failWith none f)
    | .ok pages =>
      let page : dto.PageResponse :=
        { Total := total, Page := req.Page, PageSize := req.PageSize, Pages := pages }
      (calls,
        .ret (some (dto.NewListResponseFromEntities NewUserOperationResponseFromEntity
          operations page)) none)

end service

/-! ## `internal/dao/user.go`: `FindPage` on the database -/

/-- The two reads that `FindPage` makes through `gorm` on the model of an entity `E`:
`Count` gives the number it stores and its error, `Find` the rows it stores for an offset
and a limit (a slice, `none` when nil) and its error. -/
structure gorm.DB (E : Type) where
  Count : Int × Option GoError
  Find : Int → Int → Option (List (Option E)) × Option GoError

namespace impl

/-- A query sent to the database. -/
inductive Query where
  | Count
  | Find (offset limit : Int)
  deriving DecidableEq, Repr

/-- Go: `type UserDAOImpl struct { db *gorm.DB }`. -/
structure UserDAOImpl where
  db : gorm.DB entity.UserInfo

/-- Go: `func (d *UserDAOImpl) FindPage(ctx context.Context, offset, limit int)
([]*entity.UserInfo, int64, error)`: the queries sent, in order, and the results; the
slice is `none` when nil. -/
def UserDAOImpl.FindPage (d : UserDAOImpl) (offset limit : Int) :
    List Query × (Option (List (Option entity.UserInfo)) × Int × Option GoError) :=
  match d.db.Count with
  | (_, some err) => ([.Count], (none, 0, some err))
  | (total, none) =>
    if total = 0 then ([.Count], (some [], 0, none))
    else
      match d.db.Find offset limit with
      | (_, some err) => ([.Count, .Find offset limit], (none, 0, some err))
      | (users, none) => ([.Count, .Find offset limit], (users, total, none))

/-- The elements of a slice, a nil slice having none (`range` and `len` treat it as
empty). -/
def elements {α : Type} : Option (List α) → List α
  | none => []
  | some list => list

end impl

namespace sample

/-- A token issued at `t0` to a user with the plain user role, for 24 hours. -/
def userToken : GoString :=
  tokenOf (GenerateToken t0 t0 t0 3 (ascii "user1") RoleUser secret 24)

/-- A GET request that carries `userToken` as its bearer token. -/
def userRequest : gin.Context :=
  { Method := ascii "GET",
    Header := fun key =>
      if key = ascii "Authorization" then ascii "Bearer" ++ [32] ++ userToken else [],
    Keys := [] }

/-- A GET request without an Authorization header. -/
def anonymousRequest : gin.Context :=
  { Method := ascii "GET", Header := fun _ => [], Keys := [] }

end sample

namespace sample

/-- A repository whose user `alice` is not locked; the stored password is the encryption
of `123456` under the DES key `12345678`. -/
def aliceUsers : dao.UserDAO :=
  { FindPage := fun _ _ => ([], 1, none),
    FindByUserName := fun userName =>
      if userName = ascii "alice" then
        (some { ID := 7, UserName := ascii "alice", Password := ascii "HUX+7VtHgb0=",
                Role := RoleOperator, IsLocked := 0 }, none)
      else (none, none),
    FindByID := fun _ => (none, none),
    Update := fun _ => some (errors.New "user not found"),
    Delete := fun _ => some (errors.New "user not found") }

/-- A repository of five rows of any entity, here numbers. -/
def fiveRows : dao.Pager Nat :=
  { FindPage := fun offset limit =>
      (((List.range 5).drop offset.toNat).take limit.toNat |>.map some, 5, none) }

/-- A database in which the count of users is 0. -/
def emptyDB : gorm.DB entity.UserInfo :=
  { Count := (0, none), Find := fun _ _ => (some [], none) }

/-- The repository interface on `emptyDB`. -/
def emptyUsers : dao.UserDAO :=
  { FindPage := fun offset limit =>
      (impl.elements (impl.UserDAOImpl.FindPage ⟨emptyDB⟩ offset limit).2.1,
        (impl.UserDAOImpl.FindPage ⟨emptyDB⟩ offset limit).2.2.1,
        (impl.UserDAOImpl.FindPage ⟨emptyDB⟩ offset limit).2.2.2),
    FindByUserName := fun _ => (none, none),
    FindByID := fun _ => (none, none),
    Update := fun _ => some (errors.New "user not found"),
    Delete := fun _ => some (errors.New "user not found") }

end sample

/-! # Part II: lemmas and theorems -/

/-! ### Lemmas on the permission map -/

theorem BoolMap.index_set (m : BoolMap) (k k' : GoString) (v : Bool) :
    (m.set k v).index k' = if k' = k then v else m.index k' := by
  unfold BoolMap.index BoolMap.set
  by_cases h : k' = k
  · subst h; simp [List.lookup]
  · have h1 : (k' == k) = false := by simpa using h
    simp only [List.lookup, h1, if_neg h]
    have h2 : List.lookup k' (List.filter (fun e => decide (e.1 ≠ k)) m) = List.lookup k' m := by
      induction m with
      | nil => rfl
      | cons e m ih =>
        obtain ⟨a, b⟩ := e
        by_cases ha : a = k
        · subst ha
          have : (k' == a) = false := h1
          simpa [List.filter, List.lookup, this] using ih
        · by_cases hk : k' = a
          · subst hk; simp [List.filter, ha, List.lookup]
          · have : (k' == a) = false := by simpa using hk
            simpa [List.filter, ha, List.lookup, this] using ih
    rw [h2]

theorem buildPermissionMap_index (ps : List GoString) (m : BoolMap) (k : GoString) :
    (buildPermissionMap ps m).index k = (decide (k ∈ ps) || m.index k) := by
  induction ps generalizing m with
  | nil => simp [buildPermissionMap]
  | cons p rest ih =>
    rw [buildPermissionMap, ih, BoolMap.index_set]
    by_cases h : k = p
    · subst h; simp
    · by_cases h2 : k ∈ rest <;> simp [h, h2]

theorem permissionMap_index (role : RoleType) (k : GoString) :
    (buildPermissionMap (GetRolePermissions role) []).index k = true ↔
      k ∈ GetRolePermissions role := by
  rw [buildPermissionMap_index]
  simp [BoolMap.index]

theorem HasAnyPermission_loop_iff (m : BoolMap) (ps : List GoString) :
    HasAnyPermission.loop m ps = true ↔ ∃ p ∈ ps, m.index p = true := by
  induction ps with
  | nil => simp [HasAnyPermission.loop]
  | cons p rest ih =>
    rw [HasAnyPermission.loop]
    by_cases h : m.index p = true
    · simp [h]
    · simp [h, ih]

theorem HasAllPermissions_loop_iff (m : BoolMap) (ps : List GoString) :
    HasAllPermissions.loop m ps = true ↔ ∀ p ∈ ps, m.index p = true := by
  induction ps with
  | nil => simp [HasAllPermissions.loop]
  | cons p rest ih =>
    rw [HasAllPermissions.loop]
    by_cases h : m.index p = true
    · simp [h, ih]
    · simp [h]

theorem HasPermission_loop_iff (permission : GoString) (ps : List GoString) :
    HasPermission.loop permission ps = true ↔ permission ∈ ps := by
  induction ps with
  | nil => simp [HasPermission.loop]
  | cons p rest ih =>
    rw [HasPermission.loop]
    by_cases h : p = permission
    · simp [h]
    · have h' : ¬ permission = p := fun e => h e.symm
      simp [h, h', ih]

theorem HasAnyPermission_iff (role : RoleType) (ps : List GoString) :
    HasAnyPermission role ps = true ↔ ps = [] ∨ ∃ p ∈ ps, p ∈ GetRolePermissions role := by
  unfold HasAnyPermission
  cases ps with
  | nil => simp
  | cons q rest =>
    simp only [List.length_cons, Nat.succ_ne_zero, if_false, reduceCtorEq, false_or,
      HasAnyPermission_loop_iff, permissionMap_index]

theorem HasAllPermissions_iff (role : RoleType) (ps : List GoString) :
    HasAllPermissions role ps = true ↔ ∀ p ∈ ps, p ∈ GetRolePermissions role := by
  unfold HasAllPermissions
  cases ps with
  | nil => simp
  | cons q rest =>
    simp only [List.length_cons, Nat.succ_ne_zero, if_false,
      HasAllPermissions_loop_iff, permissionMap_index]

/-! ### The role table -/

theorem GetRolePermissions_administrator :
    GetRolePermissions (ascii "administrator") =
      [ascii "user:manage", ascii "user:view", ascii "map:manage", ascii "map:view",
       ascii "task:manage", ascii "task:view", ascii "device:manage", ascii "device:view",
       ascii "operation:view"] := by decide

theorem GetRolePermissions_manager :
    GetRolePermissions (ascii "manager") =
      [ascii "user:view", ascii "map:manage", ascii "map:view", ascii "task:manage",
       ascii "task:view", ascii "device:manage", ascii "device:view",
       ascii "operation:view"] := by decide

theorem GetRolePermissions_operator :
    GetRolePermissions (ascii "operator") =
      [ascii "user:view", ascii "map:view", ascii "task:manage", ascii "task:view",
       ascii "device:manage", ascii "device:view", ascii "operation:view"] := by decide

theorem GetRolePermissions_user :
    GetRolePermissions (ascii "user") =
      [ascii "user:view", ascii "device:view", ascii "task:view", ascii "operation:view",
       ascii "map:view"] := by decide

/-- C2: `GetRolePermissions` is the static role table, read as sets. Administrator holds
exactly the nine permissions, manager exactly those nine without `user:manage`, operator
exactly `user:view, map:view, task:manage, task:view, device:manage, device:view,
operation:view`, and user exactly the five view permissions, none of which ends in
`:manage`; the nine administrator permissions are pairwise distinct. Being a function of
the role alone, the lookup returns the same list at every call. -/
theorem GetRolePermissions_role_table :
    (∀ p : GoString, p ∈ GetRolePermissions (ascii "administrator") ↔
      (p = ascii "user:manage" ∨ p = ascii "user:view" ∨ p = ascii "map:manage" ∨
       p = ascii "map:view" ∨ p = ascii "task:manage" ∨ p = ascii "task:view" ∨
       p = ascii "device:manage" ∨ p = ascii "device:view" ∨ p = ascii "operation:view")) ∧
    (GetRolePermissions (ascii "administrator")).toFinset.card = 9 ∧
    (∀ p : GoString, p ∈ GetRolePermissions (ascii "manager") ↔
      (p ∈ GetRolePermissions (ascii "administrator") ∧ p ≠ ascii "user:manage")) ∧
    (∀ p : GoString, p ∈ GetRolePermissions (ascii "operator") ↔
      (p = ascii "user:view" ∨ p = ascii "map:view" ∨ p = ascii "task:manage" ∨
       p = ascii "task:view" ∨ p = ascii "device:manage" ∨ p = ascii "device:view" ∨
       p = ascii "operation:view")) ∧
    (∀ p : GoString, p ∈ GetRolePermissions (ascii "user") ↔
      (p = ascii "user:view" ∨ p = ascii "device:view" ∨ p = ascii "task:view" ∨
       p = ascii "operation:view" ∨ p = ascii "map:view")) ∧
    (∀ p : GoString, p ∈ GetRolePermissions (ascii "user") →
      (ascii ":manage").isSuffixOf p = false) := by
  refine ⟨?_, by decide, ?_, ?_, ?_, ?_⟩
  · intro p
    rw [GetRolePermissions_administrator]
    simp only [List.mem_cons, List.mem_singleton, List.not_mem_nil, or_false]
  · intro p
    rw [GetRolePermissions_administrator, GetRolePermissions_manager]
    simp only [List.mem_cons, List.mem_singleton, List.not_mem_nil, or_false]
    constructor
    · intro h
      rcases h with h | h | h | h | h | h | h | h <;> subst h <;>
        refine ⟨by simp, by decide⟩
    · rintro ⟨h, hne⟩
      rcases h with h | h
      · exact absurd h hne
      · exact h
  · intro p
    rw [GetRolePermissions_operator]
    simp only [List.mem_cons, List.mem_singleton, List.not_mem_nil, or_false]
  · intro p
    rw [GetRolePermissions_user]
    simp only [List.mem_cons, List.mem_singleton, List.not_mem_nil, or_false]
  · intro p hp
    rw [GetRolePermissions_user] at hp
    simp only [List.mem_cons, List.mem_singleton, List.not_mem_nil, or_false] at hp
    rcases hp with h | h | h | h | h <;> subst h <;> decide

/-- C3: `HasAnyPermission(role, ps...)` is true exactly when `ps` is empty or some element
of `ps` is among `GetRolePermissions(role)`. With no required permission it is true for
every role string, recognised or not; the plain user role fails
`(user:manage, map:manage)` and passes `(user:view)`. -/
theorem HasAnyPermission_spec :
    (∀ (role : RoleType) (ps : List GoString),
      HasAnyPermission role ps = true ↔ (ps = [] ∨ ∃ p ∈ ps, p ∈ GetRolePermissions role)) ∧
    (∀ role : RoleType, HasAnyPermission role [] = true) ∧
    HasAnyPermission (ascii "user") [ascii "user:manage", ascii "map:manage"] = false ∧
    HasAnyPermission (ascii "user") [ascii "user:view"] = true := by
  refine ⟨HasAnyPermission_iff, fun _ => rfl, by decide, by decide⟩

/-! ### `encoding/base64`: decoding inverts encoding -/

namespace base64

theorem StdEncoding_wellFormed : StdEncoding.WellFormed := by
  constructor
  · decide
  · intro p hp
    have : p = 61 := by
      simp only [StdEncoding, Option.some.injEq] at hp
      exact hp.symm
    subst this
    decide

theorem RawURLEncoding_wellFormed : RawURLEncoding.WellFormed := by
  constructor
  · decide
  · intro p hp
    simp [RawURLEncoding] at hp

theorem byte_ofNat_eq (a : Byte) (n : Nat) (h : n % 256 = a.val) : (Fin.ofNat n : Byte) = a := by
  apply Fin.ext
  simpa [Fin.ofNat] using h

theorem quantumBytes_four (a b c : Byte) :
    quantumBytes 4
      [(a.val * 65536 + b.val * 256 + c.val) / 262144 % 64,
       (a.val * 65536 + b.val * 256 + c.val) / 4096 % 64,
       (a.val * 65536 + b.val * 256 + c.val) / 64 % 64,
       (a.val * 65536 + b.val * 256 + c.val) % 64] = [a, b, c] := by
  have ha := a.isLt
  have hb := b.isLt
  have hc := c.isLt
  simp only [quantumBytes, List.getD_cons_zero, List.getD_cons_succ, List.take, Nat.add_one_sub_one]
  rw [byte_ofNat_eq a _ (by omega), byte_ofNat_eq b _ (by omega), byte_ofNat_eq c _ (by omega)]

theorem quantumBytes_three (a b : Byte) :
    quantumBytes 3
      [(a.val * 65536 + b.val * 256) / 262144 % 64,
       (a.val * 65536 + b.val * 256) / 4096 % 64,
       (a.val * 65536 + b.val * 256) / 64 % 64] = [a, b] := by
  have ha := a.isLt
  have hb := b.isLt
  simp only [quantumBytes, List.getD_cons_zero, List.getD_cons_succ, List.getD_nil, List.take,
    Nat.add_one_sub_one]
  rw [byte_ofNat_eq a _ (by omega), byte_ofNat_eq b _ (by omega)]

theorem quantumBytes_two (a : Byte) :
    quantumBytes 2 [(a.val * 65536) / 262144 % 64, (a.val * 65536) / 4096 % 64] = [a] := by
  have ha := a.isLt
  simp only [quantumBytes, List.getD_cons_zero, List.getD_cons_succ, List.getD_nil, List.take,
    Nat.add_one_sub_one]
  rw [byte_ofNat_eq a _ (by omega)]

/-- Reading one alphabet character into a quantum that is not yet full. -/
theorem decodeLoop_char (enc : Encoding) (h : enc.WellFormed) (i : Nat) (hi : i < 64)
    (rest : List Byte) (dbuf : List Nat) (out : List Byte) (hd : dbuf.length ≠ 3) :
    enc.decodeLoop (enc.char i :: rest) dbuf out = enc.decodeLoop rest (dbuf ++ [i]) out := by
  rw [Encoding.decodeLoop, h.decode_char i hi]
  simp [hd]

/-- Reading the fourth alphabet character of a quantum. -/
theorem decodeLoop_char_last (enc : Encoding) (h : enc.WellFormed) (i : Nat) (hi : i < 64)
    (rest : List Byte) (dbuf : List Nat) (out : List Byte) (hd : dbuf.length = 3) :
    enc.decodeLoop (enc.char i :: rest) dbuf out =
      enc.decodeLoop rest [] (out ++ quantumBytes 4 (dbuf ++ [i])) := by
  rw [Encoding.decodeLoop, h.decode_char i hi]
  simp [hd]

/-- The end of the input after two or three characters of a quantum, padded or not. -/
theorem decodeLoop_tail (enc : Encoding) (h : enc.WellFormed) (dbuf : List Nat)
    (out : List Byte) (hd : dbuf.length = 2 ∨ dbuf.length = 3) :
    enc.decodeLoop (if dbuf.length = 2 then enc.pad ++ enc.pad else enc.pad) dbuf out =
      .ok (out ++ quantumBytes dbuf.length dbuf) := by
  cases hp : enc.padChar with
  | none =>
    have hpad : enc.pad = [] := by simp [Encoding.pad, hp]
    rw [hpad]
    simp only [List.append_nil, ite_self]
    rw [Encoding.decodeLoop]
    rcases hd with hd | hd <;> simp [hd, hp]
  | some p =>
    have hpad : enc.pad = [p] := by simp [Encoding.pad, hp]
    obtain ⟨hm, hn⟩ := h.pad_outside p hp
    rw [hpad]
    rcases hd with hd | hd
    · simp only [hd, if_true, List.singleton_append]
      rw [Encoding.decodeLoop, hm]
      simp [hn, hp, Encoding.decodePadding, hd, skipNewlines]
    · simp only [hd, Nat.succ_ne_self, if_false]
      rw [Encoding.decodeLoop, hm]
      simp [hn, hp, Encoding.decodePadding, hd, skipNewlines]

theorem decodeLoop_encode (enc : Encoding) (h : enc.WellFormed) :
    ∀ (bs out : List Byte), enc.decodeLoop (enc.EncodeToString bs) [] out = .ok (out ++ bs)
  | a :: b :: c :: rest, out => by
    have h0 : (a.val * 65536 + b.val * 256 + c.val) / 262144 % 64 < 64 :=
      Nat.mod_lt _ (by decide)
    have h1 : (a.val * 65536 + b.val * 256 + c.val) / 4096 % 64 < 64 :=
      Nat.mod_lt _ (by decide)
    have h2 : (a.val * 65536 + b.val * 256 + c.val) / 64 % 64 < 64 := Nat.mod_lt _ (by decide)
    have h3 : (a.val * 65536 + b.val * 256 + c.val) % 64 < 64 := Nat.mod_lt _ (by decide)
    rw [Encoding.EncodeToString]
    rw [decodeLoop_char enc h _ h0 _ _ _ (by simp),
      decodeLoop_char enc h _ h1 _ _ _ (by simp),
      decodeLoop_char enc h _ h2 _ _ _ (by simp),
      decodeLoop_char_last enc h _ h3 _ _ _ (by simp)]
    simp only [List.nil_append, List.cons_append]
    rw [decodeLoop_encode enc h rest, quantumBytes_four]
    simp
  | [a, b], out => by
    have h0 : (a.val * 65536 + b.val * 256) / 262144 % 64 < 64 := Nat.mod_lt _ (by decide)
    have h1 : (a.val * 65536 + b.val * 256) / 4096 % 64 < 64 := Nat.mod_lt _ (by decide)
    have h2 : (a.val * 65536 + b.val * 256) / 64 % 64 < 64 := Nat.mod_lt _ (by decide)
    rw [Encoding.EncodeToString]
    simp only [List.cons_append, List.nil_append]
    rw [decodeLoop_char enc h _ h0 _ _ _ (by simp),
      decodeLoop_char enc h _ h1 _ _ _ (by simp),
      decodeLoop_char enc h _ h2 _ _ _ (by simp)]
    have := decodeLoop_tail enc h
      [(a.val * 65536 + b.val * 256) / 262144 % 64, (a.val * 65536 + b.val * 256) / 4096 % 64,
        (a.val * 65536 + b.val * 256) / 64 % 64] out (Or.inr rfl)
    simp only [List.length_cons, List.length_nil, Nat.reduceAdd, Nat.reduceEqDiff,
      if_false] at this
    simp only [List.nil_append, List.cons_append]
    rw [this, quantumBytes_three]
  | [a], out => by
    have h0 : (a.val * 65536) / 262144 % 64 < 64 := Nat.mod_lt _ (by decide)
    have h1 : (a.val * 65536) / 4096 % 64 < 64 := Nat.mod_lt _ (by decide)
    rw [Encoding.EncodeToString]
    simp only [List.cons_append, List.nil_append]
    rw [decodeLoop_char enc h _ h0 _ _ _ (by simp),
      decodeLoop_char enc h _ h1 _ _ _ (by simp)]
    have := decodeLoop_tail enc h
      [(a.val * 65536) / 262144 % 64, (a.val * 65536) / 4096 % 64] out (Or.inl rfl)
    simp only [List.length_cons, List.length_nil, Nat.reduceAdd, if_true] at this
    simp only [List.nil_append, List.cons_append]
    rw [this, quantumBytes_two]
  | [], out => by
    simp [Encoding.EncodeToString, Encoding.decodeLoop]

/-- `DecodeString(EncodeToString(bs)) = bs`, without error. -/
theorem DecodeString_EncodeToString (enc : Encoding) (h : enc.WellFormed) (bs : List Byte) :
    enc.DecodeString (enc.EncodeToString bs) = .ok bs := by
  simpa [Encoding.DecodeString] using decodeLoop_encode enc h bs []

end base64

/-! ### `crypto/des`: decryption inverts encryption -/

namespace des

theorem natBits_length (w n : Nat) : (natBits w n).length = w := by
  induction w with
  | zero => rfl
  | succ w ih => simp [natBits, ih]

theorem byteBits_length (b : Byte) : (byteBits b).length = 8 := natBits_length 8 b.val

theorem bytesBits_length (l : List Byte) : (bytesBits l).length = 8 * l.length := by
  induction l with
  | nil => rfl
  | cons b rest ih => simp [bytesBits, byteBits_length, ih]; omega

theorem bitsBytes_length (n : Nat) (bits : List Bool) : (bitsBytes n bits).length = n := by
  induction n generalizing bits with
  | zero => rfl
  | succ n ih => simp [bitsBytes, ih]

theorem bitsByte_byteBits : ∀ b : Byte, bitsByte (byteBits b) = b := by decide

theorem byteBits_bitsByte (bits : List Bool) (h : bits.length = 8) :
    byteBits (bitsByte bits) = bits := by
  match bits, h with
  | [b7, b6, b5, b4, b3, b2, b1, b0], _ =>
    cases b7 <;> cases b6 <;> cases b5 <;> cases b4 <;> cases b3 <;> cases b2 <;>
      cases b1 <;> cases b0 <;> rfl

theorem bitsBytes_bytesBits (l : List Byte) : bitsBytes l.length (bytesBits l) = l := by
  induction l with
  | nil => rfl
  | cons b rest ih =>
    simp only [List.length_cons, bitsBytes, bytesBits]
    rw [List.take_left' (byteBits_length b), List.drop_left' (byteBits_length b),
      bitsByte_byteBits, ih]

theorem bytesBits_bitsBytes (n : Nat) (bits : List Bool) (h : bits.length = 8 * n) :
    bytesBits (bitsBytes n bits) = bits := by
  induction n generalizing bits with
  | zero =>
    have : bits = [] := List.length_eq_zero.mp (by omega)
    subst this
    rfl
  | succ n ih =>
    simp only [bitsBytes, bytesBits]
    rw [byteBits_bitsByte _ (by simp; omega), ih _ (by simp; omega), List.take_append_drop]

theorem permute_length (table : List Nat) (bits : List Bool) :
    (permute table bits).length = table.length := by
  simp [permute]

/-- Two permutations in a row select through the composed table. -/
theorem permute_permute (t u : List Nat) (bits : List Bool)
    (h : ∀ i ∈ t, i - 1 < u.length) :
    permute t (permute u bits) =
      (t.map (fun i => u.getD (i - 1) 0 - 1)).map (fun j => bits.getD j false) := by
  unfold permute
  rw [List.map_map]
  apply List.map_congr_left
  intro i hi
  have hlt := h i hi
  simp [List.getD_eq_getElem?_getD, List.getElem?_map, List.getElem?_eq_getElem hlt]

theorem range_map_getD (bits : List Bool) :
    (List.range bits.length).map (fun j => bits.getD j false) = bits := by
  apply List.ext_getElem
  · simp
  · intro i h1 h2
    simp [List.getD_eq_getElem?_getD, List.getElem?_eq_getElem h2]

theorem final_initial (bits : List Bool) (h : bits.length = 64) :
    permute finalPermutation (permute initialPermutation bits) = bits := by
  rw [permute_permute _ _ _ (by decide)]
  have : finalPermutation.map (fun i => initialPermutation.getD (i - 1) 0 - 1) =
      List.range 64 := by decide
  rw [this, ← h, range_map_getD]

theorem initial_final (bits : List Bool) (h : bits.length = 64) :
    permute initialPermutation (permute finalPermutation bits) = bits := by
  rw [permute_permute _ _ _ (by decide)]
  have : initialPermutation.map (fun i => finalPermutation.getD (i - 1) 0 - 1) =
      List.range 64 := by decide
  rw [this, ← h, range_map_getD]

theorem xorBits_length (a b : List Bool) (h : a.length = b.length) :
    (xorBits a b).length = a.length := by
  simp [xorBits, h]

theorem xorBits_cancel (a b : List Bool) (h : a.length = b.length) :
    xorBits (xorBits a b) b = a := by
  induction a generalizing b with
  | nil => simp [xorBits]
  | cons x a ih =>
    cases b with
    | nil => simp at h
    | cons y b =>
      have hl : a.length = b.length := by simpa using h
      have := ih b hl
      simp only [xorBits, List.zipWith_cons_cons, List.cons.injEq] at this ⊢
      exact ⟨by cases x <;> cases y <;> rfl, this⟩

theorem feistel_length (r k : List Bool) : (feistel r k).length = 32 := by
  simp [feistel, permute_length, permutationFunction]

theorem round_halves (k : List Bool) (lr : List Bool × List Bool) (h : Halves lr) :
    Halves (round k lr) := by
  obtain ⟨h1, h2⟩ := h
  exact ⟨h2, by simp [round, xorBits_length _ _ (h1.trans (feistel_length _ _).symm), h1]⟩

theorem rounds_halves (ks : List (List Bool)) (lr : List Bool × List Bool) (h : Halves lr) :
    Halves (ks.foldl (fun lr k => round k lr) lr) := by
  induction ks generalizing lr with
  | nil => exact h
  | cons k ks ih => exact ih _ (round_halves k lr h)

/-- A round, an exchange of the halves and the same round again give back the block
with its halves exchanged. -/
theorem round_swap_round (k : List Bool) (lr : List Bool × List Bool) (h : Halves lr) :
    round k ((round k lr).2, (round k lr).1) = (lr.2, lr.1) := by
  obtain ⟨h1, _⟩ := h
  simp only [round]
  rw [xorBits_cancel _ _ (h1.trans (feistel_length _ _).symm)]

/-- The rounds with the subkeys reversed undo the rounds, up to the exchanges of the
halves around them. -/
theorem rounds_reverse (ks : List (List Bool)) (lr : List Bool × List Bool) (h : Halves lr) :
    (ks.reverse.foldl (fun lr k => round k lr)
      ((ks.foldl (fun lr k => round k lr) lr).2, (ks.foldl (fun lr k => round k lr) lr).1)) =
      (lr.2, lr.1) := by
  induction ks generalizing lr with
  | nil => rfl
  | cons k ks ih =>
    simp only [List.foldl_cons, List.reverse_cons, List.foldl_append, List.foldl_nil]
    rw [ih _ (round_halves k lr h)]
    exact round_swap_round k lr h

theorem cryptBlock_length (ks : List (List Bool)) (block : List Bool) :
    (cryptBlock ks block).length = 64 := by
  simp [cryptBlock, permute_length, finalPermutation]

theorem cryptBlock_reverse (ks : List (List Bool)) (block : List Bool)
    (h : block.length = 64) : cryptBlock ks.reverse (cryptBlock ks block) = block := by
  have hip : (permute initialPermutation block).length = 64 := by
    simp [permute_length, initialPermutation]
  have h0 : Halves ((permute initialPermutation block).take 32,
      (permute initialPermutation block).drop 32) := by
    constructor <;> simp [hip]
  have hA := rounds_halves ks _ h0
  have hrev := rounds_reverse ks _ h0
  unfold cryptBlock
  simp only []
  rw [initial_final _ (by simp [hA.1, hA.2])]
  rw [List.take_left' hA.2, List.drop_left' hA.2, hrev]
  simp only [List.take_append_drop]
  exact final_initial block h

theorem Decrypt_Encrypt (c : Cipher) (src : List Byte) (h : src.length = 8) :
    c.Decrypt (c.Encrypt src) = src := by
  unfold Cipher.Decrypt Cipher.Encrypt
  rw [bytesBits_bitsBytes 8 _ (by simp [cryptBlock_length]),
    cryptBlock_reverse _ _ (by simp [bytesBits_length, h])]
  have := bitsBytes_bytesBits src
  rwa [h] at this

theorem Encrypt_length (c : Cipher) (src : List Byte) : (c.Encrypt src).length = 8 := by
  simp [Cipher.Encrypt, bitsBytes_length]

end des

/-! ### `crypto/cipher`: CBC decryption inverts CBC encryption -/

namespace cipher

theorem byte_xor_cancel (a b : Byte) : (a ^^^ b) ^^^ b = a := by
  apply Fin.ext
  have ha : a.val < 256 := a.isLt
  have hb : b.val < 256 := b.isLt
  have hx : a.val ^^^ b.val < 256 := Nat.xor_lt_two_pow (n := 8) ha hb
  show ((a.val ^^^ b.val) % 256 ^^^ b.val) % 256 = a.val
  rw [Nat.mod_eq_of_lt hx, Nat.xor_assoc, Nat.xor_self, Nat.xor_zero, Nat.mod_eq_of_lt ha]

theorem xorBytes_length (x y : List Byte) (h : x.length = y.length) :
    (xorBytes x y).length = x.length := by
  simp [xorBytes, h]

theorem xorBytes_cancel (x y : List Byte) (h : x.length = y.length) :
    xorBytes (xorBytes x y) y = x := by
  induction x generalizing y with
  | nil => simp [xorBytes]
  | cons a x ih =>
    cases y with
    | nil => simp at h
    | cons b y =>
      have hl : x.length = y.length := by simpa using h
      have := ih y hl
      simp only [xorBytes, List.zipWith_cons_cons, List.cons.injEq] at this ⊢
      exact ⟨byte_xor_cancel a b, this⟩

theorem encryptBlocks_length (x : cbc) (n : Nat) (iv src : List Byte) :
    (encryptBlocks x n iv src).length = 8 * n := by
  induction n generalizing iv src with
  | zero => rfl
  | succ n ih => simp [encryptBlocks, des.Encrypt_length, ih]; omega

theorem decryptBlocks_encryptBlocks (x : cbc) (hx : x.blockSize = 8) (n : Nat)
    (iv src : List Byte) (hiv : iv.length = 8) (hsrc : src.length = 8 * n) :
    decryptBlocks x n iv (encryptBlocks x n iv src) = src := by
  induction n generalizing iv src with
  | zero =>
    have : src = [] := List.length_eq_zero.mp (by omega)
    subst this
    rfl
  | succ n ih =>
    have htake : (src.take 8).length = 8 := by simp; omega
    have hxor : (xorBytes (src.take 8) iv).length = 8 := by
      rw [xorBytes_length _ _ (htake.trans hiv.symm), htake]
    have hdst := des.Encrypt_length x.b (xorBytes (src.take 8) iv)
    simp only [encryptBlocks, decryptBlocks, hx]
    rw [List.take_left' hdst, List.drop_left' hdst, des.Decrypt_Encrypt _ _ hxor,
      xorBytes_cancel _ _ (htake.trans hiv.symm), ih _ _ hdst (by simp; omega),
      List.take_append_drop]

end cipher

/-! ### `crypto.go`: padding and the round trip of the credential codec -/

theorem pkcs5Padding_eight (data : List Byte) :
    pkcs5Padding data 8 =
      .ok (data ++ List.replicate (8 - data.length % 8) (Fin.ofNat (8 - data.length % 8))) := by
  simp [pkcs5Padding]

theorem pkcs5UnPadding_padded (data : List Byte) (p : Nat) (h1 : 1 ≤ p) (h2 : p ≤ 8) :
    pkcs5UnPadding (data ++ List.replicate p (Fin.ofNat p)) = data := by
  have hval : ((Fin.ofNat p : Byte)).val = p := by
    show p % 256 = p
    omega
  have hlast : (data ++ List.replicate p (Fin.ofNat p : Byte)).getD
      ((data ++ List.replicate p (Fin.ofNat p : Byte)).length - 1) 0 = Fin.ofNat p := by
    rw [List.getD_eq_getElem?_getD, List.getElem?_append_right (by simp; omega)]
    rw [List.getElem?_replicate]
    simp only [List.length_append, List.length_replicate]
    rw [if_pos (by omega)]
    rfl
  unfold pkcs5UnPadding
  simp only [hlast, hval]
  simp only [List.length_append, List.length_replicate]
  rw [if_neg (by omega), if_neg (by omega)]
  have : data.length + p - p = data.length := by omega
  rw [this, List.take_left' rfl]

/-- C1: for every key of exactly eight bytes and every plaintext (the empty one
included), `DESEncrypt` returns a ciphertext and a nil error, and `DESDecrypt` of that
ciphertext under the same key returns exactly the plaintext and a nil error. -/
theorem DESDecrypt_DESEncrypt (plaintext key : GoString) (hkey : key.length = 8) :
    ∃ ciphertext : GoString,
      DESEncrypt plaintext key = .ret ciphertext none ∧
      DESDecrypt ciphertext key = .ret plaintext none := by
  have hpos : 1 ≤ 8 - plaintext.length % 8 := by omega
  have hle : 8 - plaintext.length % 8 ≤ 8 := by omega
  have hlen : (plaintext ++ List.replicate (8 - plaintext.length % 8)
      (Fin.ofNat (8 - plaintext.length % 8) : Byte)).length =
      8 * ((plaintext.length + (8 - plaintext.length % 8)) / 8) := by
    simp only [List.length_append, List.length_replicate]
    omega
  have hmod : (plaintext.length + (8 - plaintext.length % 8)) % 8 = 0 := by omega
  refine ⟨base64.StdEncoding.EncodeToString
    (cipher.encryptBlocks
      { b := { subkeys := des.generateSubkeys (des.bytesBits key) }, blockSize := 8, iv := key }
      ((plaintext.length + (8 - plaintext.length % 8)) / 8) key
      (plaintext ++ List.replicate (8 - plaintext.length % 8)
        (Fin.ofNat (8 - plaintext.length % 8)))), ?_, ?_⟩
  · simp only [DESEncrypt, hkey, des.NewCipher, pkcs5Padding_eight, des.Cipher.BlockSize,
      cipher.NewCBCEncrypter, cipher.cbc.EncryptBlocks, ne_eq, not_true_eq_false, if_false,
      List.length_append, List.length_replicate, hmod, OfNat.ofNat_ne_zero]
  · simp only [DESDecrypt, hkey, des.NewCipher, des.Cipher.BlockSize,
      cipher.NewCBCDecrypter, cipher.cbc.DecryptBlocks, ne_eq, not_true_eq_false, if_false,
      base64.DecodeString_EncodeToString _ base64.StdEncoding_wellFormed,
      cipher.encryptBlocks_length, OfNat.ofNat_ne_zero, Nat.mul_mod_right]
    rw [Nat.mul_div_cancel_left _ (by decide : 0 < 8),
      cipher.decryptBlocks_encryptBlocks _ rfl _ _ _ hkey hlen,
      pkcs5UnPadding_padded _ _ hpos hle]

/-- C1, at the key `12345678` and the plaintext `hello world`. -/
theorem DESDecrypt_DESEncrypt_witness :
    (ascii "12345678").length = 8 ∧
    ∃ ciphertext : GoString,
      DESEncrypt (ascii "hello world") (ascii "12345678") = .ret ciphertext none ∧
      DESDecrypt ciphertext (ascii "12345678") = .ret (ascii "hello world") none :=
  ⟨by decide, DESDecrypt_DESEncrypt (ascii "hello world") (ascii "12345678") (by decide)⟩

/-! ### The middlewares -/

namespace strings

theorem cut_eq_some (sep : Byte) (s before after : List Byte)
    (h : cut sep s = some (before, after)) : s = before ++ sep :: after := by
  induction s generalizing before with
  | nil => simp [cut] at h
  | cons c rest ih =>
    rw [cut] at h
    by_cases hc : c = sep
    · simp only [hc, if_true, Option.some.injEq, Prod.mk.injEq] at h
      obtain ⟨h1, h2⟩ := h
      subst h1 h2 hc
      rfl
    · simp only [hc, if_false] at h
      cases hr : cut sep rest with
      | none => simp [hr] at h
      | some p =>
        obtain ⟨b, a⟩ := p
        simp only [hr, Option.some.injEq, Prod.mk.injEq] at h
        obtain ⟨h1, h2⟩ := h
        subst h1 h2
        rw [ih b hr]
        rfl

theorem cut_append (sep : Byte) (before after : List Byte) (h : sep ∉ before) :
    cut sep (before ++ sep :: after) = some (before, after) := by
  induction before with
  | nil => simp [cut]
  | cons c rest ih =>
    have hc : c ≠ sep := fun e => h (by simp [e])
    have hr : sep ∉ rest := fun e => h (by simp [e])
    simp [cut, hc, ih hr]

end strings

/-- `ValidateToken` returns either claims and a nil error, or no claims and an error. -/
theorem ValidateToken_cases (fp : strconv.Float64) (now : Time) (tokenString secret : GoString) :
    (∃ claims, ValidateToken fp now tokenString secret = .ret (some claims) none) ∨
    (∃ err, ValidateToken fp now tokenString secret = .ret none (some err)) := by
  unfold ValidateToken
  cases h : jwt.ParseWithClaims fp now (unmarshalClaims fp) (fun c => c.RegisteredClaims)
      tokenString (ValidateToken.keyFunc secret) with
  | error err => exact Or.inr ⟨err, rfl⟩
  | ok token =>
    by_cases hv : token.Valid = true
    · exact Or.inl ⟨token.Claims, by simp [hv]⟩
    · exact Or.inr ⟨errors.New "invalid token", by simp [hv]⟩

namespace gin

theorem Get_Set_same (c : Context) (key : GoString) (value : Any) :
    (c.Set key value).Get key = some value := by
  simp [Context.Set, Context.Get, List.lookup]

theorem Get_Set_other (c : Context) (key key1 : GoString) (value : Any) (h : key1 ≠ key) :
    (c.Set key value).Get key1 = c.Get key1 := by
  have h1 : (key1 == key) = false := by simpa using h
  simp only [Context.Set, Context.Get, List.lookup, h1]
  induction c.Keys with
  | nil => rfl
  | cons e m ih =>
    obtain ⟨a, b⟩ := e
    by_cases ha : a = key
    · subst ha
      simpa [List.filter, List.lookup, h1] using ih
    · by_cases hk : key1 = a
      · subst hk; simp [List.filter, ha, List.lookup]
      · have : (key1 == a) = false := by simpa using hk
        simpa [List.filter, ha, List.lookup, this] using ih

end gin

namespace middleware

theorem JWTAuth_next_iff (fp : strconv.Float64) (now : Time) (jwtSecret : GoString)
    (c c1 : gin.Context) :
    JWTAuth fp now jwtSecret c = .next c1 ↔
      ∃ t claims, c.GetHeader (ascii "Authorization") = ascii "Bearer" ++ [32] ++ t ∧
        ValidateToken fp now t jwtSecret = .ret (some claims) none ∧
        c1 = ((c.Set UserIDKey (.uint claims.UserID)).Set UserNameKey
          (.string claims.UserName)).Set UserRoleKey (.roleType claims.Role) := by
  unfold JWTAuth
  simp only []
  by_cases he : c.GetHeader (ascii "Authorization") = []
  · simp only [he, if_true, reduceCtorEq, false_iff]
    rintro ⟨t, claims, h, _⟩
    have hB : ascii "Bearer" = [66, 101, 97, 114, 101, 114] := by decide
    rw [hB] at h
    simp at h
  · simp only [he, if_false]
    unfold strings.SplitN2
    cases hcut : strings.cut 32 (c.GetHeader (ascii "Authorization")) with
    | none =>
      simp only [List.length_singleton, ne_eq, OfNat.one_ne_ofNat, not_false_eq_true, true_or,
        if_true, reduceCtorEq, false_iff]
      rintro ⟨t, claims, h, _⟩
      rw [h, show ascii "Bearer" ++ [32] ++ t = ascii "Bearer" ++ 32 :: t by simp,
        strings.cut_append 32 _ _ (by decide)] at hcut
      exact absurd hcut (by simp)
    | some p =>
      obtain ⟨before, after⟩ := p
      have hs := strings.cut_eq_some 32 _ _ _ hcut
      simp only [List.length_cons, List.length_nil, ne_eq, not_true_eq_false, false_or,
        List.getD_cons_zero, List.getD_cons_succ]
      by_cases hb : before = ascii "Bearer"
      · subst hb
        simp only [not_true_eq_false, if_false]
        constructor
        · intro h
          rcases ValidateToken_cases fp now after jwtSecret with ⟨claims, hv⟩ | ⟨err, hv⟩
          · rw [hv] at h
            simp only [gin.Outcome.next.injEq] at h
            exact ⟨after, claims, by simpa using hs, hv, h.symm⟩
          · rw [hv] at h
            simp at h
        · rintro ⟨t, claims, h, hv, hc⟩
          rw [h, show ascii "Bearer" ++ [32] ++ t = ascii "Bearer" ++ 32 :: t by simp,
            strings.cut_append 32 _ _ (by decide)] at hcut
          simp only [Option.some.injEq, Prod.mk.injEq, true_and] at hcut
          subst hcut
          rw [hv, hc]
      · simp only [hb, not_false_eq_true, if_true, reduceCtorEq, false_iff]
        rintro ⟨t, claims, h, _⟩
        rw [h, show ascii "Bearer" ++ [32] ++ t = ascii "Bearer" ++ 32 :: t by simp,
          strings.cut_append 32 _ _ (by decide)] at hcut
        simp only [Option.some.injEq, Prod.mk.injEq] at hcut
        exact hb hcut.1.symm

theorem JWTAuth_cases (fp : strconv.Float64) (now : Time) (jwtSecret : GoString)
    (c : gin.Context) :
    (∃ c1, JWTAuth fp now jwtSecret c = .next c1) ∨ JWTAuth fp now jwtSecret c = .abort 401 c := by
  unfold JWTAuth
  simp only []
  split
  · exact Or.inr rfl
  · split
    · exact Or.inr rfl
    · rcases ValidateToken_cases fp now
        ((strings.SplitN2 32 (c.GetHeader (ascii "Authorization"))).getD 1 []) jwtSecret with
        ⟨claims, hv⟩ | ⟨err, hv⟩
      · rw [hv]; exact Or.inl ⟨_, rfl⟩
      · rw [hv]; exact Or.inr rfl

/-- C4: `JWTAuth(s)` hands over to the next handler exactly when the Authorization
header is `Bearer`, one space and a token `t` (the scheme compared byte for byte, the
split at the first space) for which `ValidateToken(t, s)` returns claims and a nil
error (a nil error always comes with claims). When it does, the context passed on holds
`user_id`, `user_name` and `user_role` equal to the UserID, UserName and Role of those
claims. In every other case, among them an empty or absent header, it aborts with
status 401 and leaves the context as it was, so none of the three keys is bound by
it. -/
theorem JWTAuth_spec (fp : strconv.Float64) (now : Time) (jwtSecret : GoString)
    (c : gin.Context) :
    ((∃ c1, JWTAuth fp now jwtSecret c = .next c1) ↔
      ∃ t claims, c.GetHeader (ascii "Authorization") = ascii "Bearer" ++ [32] ++ t ∧
        ValidateToken fp now t jwtSecret = .ret (some claims) none) ∧
    (∀ t v, ValidateToken fp now t jwtSecret = .ret v none → ∃ claims, v = some claims) ∧
    (∀ t claims, c.GetHeader (ascii "Authorization") = ascii "Bearer" ++ [32] ++ t ∧
        ValidateToken fp now t jwtSecret = .ret (some claims) none →
      ∃ c1, JWTAuth fp now jwtSecret c = .next c1 ∧
        c1.Get (ascii "user_id") = some (.uint claims.UserID) ∧
        c1.Get (ascii "user_name") = some (.string claims.UserName) ∧
        c1.Get (ascii "user_role") = some (.roleType claims.Role)) ∧
    (JWTAuth fp now jwtSecret c = .abort 401 c ↔
      ¬ ∃ t claims, c.GetHeader (ascii "Authorization") = ascii "Bearer" ++ [32] ++ t ∧
        ValidateToken fp now t jwtSecret = .ret (some claims) none) ∧
    (c.GetHeader (ascii "Authorization") = [] → JWTAuth fp now jwtSecret c = .abort 401 c) := by
  have hiff : (∃ c1, JWTAuth fp now jwtSecret c = .next c1) ↔
      ∃ t claims, c.GetHeader (ascii "Authorization") = ascii "Bearer" ++ [32] ++ t ∧
        ValidateToken fp now t jwtSecret = .ret (some claims) none := by
    constructor
    · rintro ⟨c1, h⟩
      obtain ⟨t, claims, h1, h2, _⟩ := (JWTAuth_next_iff fp now jwtSecret c c1).mp h
      exact ⟨t, claims, h1, h2⟩
    · rintro ⟨t, claims, h1, h2⟩
      exact ⟨_, (JWTAuth_next_iff fp now jwtSecret c _).mpr ⟨t, claims, h1, h2, rfl⟩⟩
  refine ⟨hiff, ?_, ?_, ?_, ?_⟩
  · intro t v hv
    rcases ValidateToken_cases fp now t jwtSecret with ⟨claims, h⟩ | ⟨err, h⟩
    · rw [h] at hv
      simp only [GoResult.ret.injEq, and_true] at hv
      exact ⟨claims, hv.symm⟩
    · rw [h] at hv
      simp at hv
  · rintro t claims ⟨h1, h2⟩
    refine ⟨_, (JWTAuth_next_iff fp now jwtSecret c _).mpr ⟨t, claims, h1, h2, rfl⟩, ?_, ?_, ?_⟩
    · rw [gin.Get_Set_other _ _ _ _ (by decide), gin.Get_Set_other _ _ _ _ (by decide)]
      exact gin.Get_Set_same _ _ _
    · rw [gin.Get_Set_other _ _ _ _ (by decide)]
      exact gin.Get_Set_same _ _ _
    · exact gin.Get_Set_same _ _ _
  · constructor
    · intro h hex
      obtain ⟨c1, h1⟩ := hiff.mpr hex
      rw [h] at h1
      simp at h1
    · intro hno
      rcases JWTAuth_cases fp now jwtSecret c with h | h
      · exact absurd (hiff.mp h) hno
      · exact h
  · intro he
    simp [JWTAuth, he]

/-- C5: `RequirePermission(ps...)` hands over to the next handler exactly when the
context holds under `user_role` a value of type `RoleType` whose role passes
`HasAnyPermission(role, ps...)`; in every other case (no value bound, a value of another
type, a role that holds none of `ps`) it aborts with status 403. It never does anything
else, and it leaves the context unchanged. -/
theorem RequirePermission_spec (permissions : List GoString) (c : gin.Context) :
    ((∃ c1, RequirePermission permissions c = .next c1) ↔
      ∃ role, c.Get (ascii "user_role") = some (.roleType role) ∧
        HasAnyPermission role permissions = true) ∧
    (RequirePermission permissions c = .abort 403 c ↔
      ¬ ∃ role, c.Get (ascii "user_role") = some (.roleType role) ∧
        HasAnyPermission role permissions = true) ∧
    (RequirePermission permissions c = .next c ∨
      RequirePermission permissions c = .abort 403 c) := by
  have hkey : UserRoleKey = ascii "user_role" := rfl
  unfold RequirePermission
  rw [hkey]
  cases hget : c.Get (ascii "user_role") with
  | none => simp
  | some roleValue =>
    cases roleValue with
    | roleType role =>
      by_cases hp : HasAnyPermission role permissions = true
      · simp [hp]
      · simp [hp]
    | uint n => simp
    | string s => simp
    | other n => simp

end middleware

/-! ### The route table -/

namespace router

theorem SetupRouter_ok (engine : RouterGroup) (cfg : Config) (routes : List Route)
    (h : SetupRouter engine cfg = .ok routes) :
    ∃ auth, cfg.Auth = some auth ∧ auth.JWTSecret ≠ [] ∧
      routes = engine.GET (ascii "/swagger/*any") [.endpoint "ginSwagger.WrapHandler"] ::
        engine.GET (ascii "/health") [.endpoint "health"] ::
        apiRoutes (engine.Group (ascii "/api/v1")) auth.JWTSecret := by
  unfold SetupRouter at h
  simp only [] at h
  cases ha : cfg.Auth with
  | none => simp [ha] at h
  | some auth =>
    simp only [ha] at h
    by_cases hs : auth.JWTSecret = []
    · simp [hs] at h
    · simp only [hs, if_false, Except.ok.injEq] at h
      exact ⟨auth, rfl, hs, h.symm⟩

/-- The table of `SetupRouter` on the engine of `NewServer`, by module: each route under
one of the five module paths has exactly one permission gate, the view permission of the
module on a GET route and its manage permission on a POST, PUT or DELETE route. -/
theorem table_gates (secret : GoString) :
    ∀ r ∈ serverEngine.GET (ascii "/swagger/*any") [.endpoint "ginSwagger.WrapHandler"] ::
        serverEngine.GET (ascii "/health") [.endpoint "health"] ::
        apiRoutes (serverEngine.Group (ascii "/api/v1")) secret,
      ∀ m ∈ [(ascii "/api/v1/users", ascii "user"),
          (ascii "/api/v1/maps/pcd-files", ascii "map"),
          (ascii "/api/v1/maps/semantic-maps", ascii "map"),
          (ascii "/api/v1/tasks", ascii "task"), (ascii "/api/v1/devices", ascii "device")],
        m.1.isPrefixOf r.path = true →
          (r.method = ascii "GET" ∧ gates r.handlers = [[m.2 ++ ascii ":view"]]) ∨
          (r.method ∈ [ascii "POST", ascii "PUT", ascii "DELETE"] ∧
            gates r.handlers = [[m.2 ++ ascii ":manage"]]) :=
  of_decide_eq_true (Eq.refl true)

/-- No two routes of the table have the same method and path. -/
theorem table_nodup (secret : GoString) :
    ((serverEngine.GET (ascii "/swagger/*any") [.endpoint "ginSwagger.WrapHandler"] ::
        serverEngine.GET (ascii "/health") [.endpoint "health"] ::
        apiRoutes (serverEngine.Group (ascii "/api/v1")) secret).map
      (fun r => (r.method, r.path))).Nodup :=
  of_decide_eq_true (Eq.refl true)

theorem serve_gated (fp : strconv.Float64) (now : Time) (secret : GoString)
    (permissions : List GoString) (name : String) (c : gin.Context) (t : GoString)
    (claims : Claims) (hm : c.Method ≠ ascii "OPTIONS")
    (hh : c.GetHeader (ascii "Authorization") = ascii "Bearer" ++ [32] ++ t)
    (hv : ValidateToken fp now t secret = .ret (some claims) none) :
    ∃ c1, c1.Get (ascii "user_role") = some (.roleType claims.Role) ∧
      serve fp now [.Recovery, .Logger, .CORS, .JWTAuth secret,
        .RequirePermission permissions, .endpoint name] c =
        if HasAnyPermission claims.Role permissions then .reached name c1
        else .aborted 403 c1 := by
  have hj := (middleware.JWTAuth_next_iff fp now secret c _).mpr ⟨t, claims, hh, hv, rfl⟩
  refine ⟨((c.Set middleware.UserIDKey (.uint claims.UserID)).Set middleware.UserNameKey
      (.string claims.UserName)).Set middleware.UserRoleKey (.roleType claims.Role),
    gin.Get_Set_same _ _ _, ?_⟩
  have hget := gin.Get_Set_same
    ((c.Set middleware.UserIDKey (.uint claims.UserID)).Set middleware.UserNameKey
      (.string claims.UserName)) middleware.UserRoleKey (.roleType claims.Role)
  simp only [serve, Handler.run, middleware.CORS, hm, if_false, hj]
  simp only [middleware.RequirePermission, hget]
  by_cases hp : HasAnyPermission claims.Role permissions = true
  · simp [hp, serve]
  · simp [hp]


/-- A chain in which every permission gate comes after `JWTAuth(secret)`. -/
theorem guarded_split (secret : GoString) (pre tail : List Handler)
    (hpre : ∀ h ∈ pre, ∀ ps, h ≠ .RequirePermission ps) :
    ∀ (i : Nat) (ps : List GoString),
      (pre ++ Handler.JWTAuth secret :: tail)[i]? = some (Handler.RequirePermission ps) →
      ∃ j, j < i ∧
        (pre ++ Handler.JWTAuth secret :: tail)[j]? = some (Handler.JWTAuth secret) := by
  intro i ps hi
  have hmid : (pre ++ Handler.JWTAuth secret :: tail)[pre.length]? =
      some (Handler.JWTAuth secret) := by
    rw [List.getElem?_append_right (Nat.le_refl _)]
    simp
  refine ⟨pre.length, ?_, hmid⟩
  by_contra hlt
  rcases Nat.lt_or_ge i pre.length with h | h
  · rw [List.getElem?_append_left h] at hi
    exact hpre _ (List.getElem?_mem hi) ps rfl
  · have : i = pre.length := by omega
    subst this
    rw [hmid] at hi
    simp at hi

theorem guarded_none (secret : GoString) (hs : List Handler)
    (hno : ∀ h ∈ hs, ∀ ps, h ≠ .RequirePermission ps) :
    ∀ (i : Nat) (ps : List GoString), hs[i]? = some (Handler.RequirePermission ps) →
      ∃ j, j < i ∧ hs[j]? = some (Handler.JWTAuth secret) := by
  intro i ps hi
  exact absurd rfl (hno _ (List.getElem?_mem hi) ps)

theorem engine_no_gate :
    ∀ h ∈ [Handler.Recovery, Handler.Logger, Handler.CORS], ∀ ps, h ≠ .RequirePermission ps := by
  intro h hh ps
  simp only [List.mem_cons, List.mem_singleton, List.not_mem_nil, or_false] at hh
  rcases hh with rfl | rfl | rfl <;> simp

/-- The table of `SetupRouter` on the engine of `NewServer`: in every chain, a permission
gate has `JWTAuth` of the configured secret at an earlier position. -/
theorem table_guarded (secret : GoString) :
    ∀ r ∈ serverEngine.GET (ascii "/swagger/*any") [.endpoint "ginSwagger.WrapHandler"] ::
        serverEngine.GET (ascii "/health") [.endpoint "health"] ::
        apiRoutes (serverEngine.Group (ascii "/api/v1")) secret,
      ∀ (i : Nat) (ps : List GoString), r.handlers[i]? = some (Handler.RequirePermission ps) →
        ∃ j, j < i ∧ r.handlers[j]? = some (Handler.JWTAuth secret) := by
  simp only [apiRoutes, List.forall_mem_cons, List.not_mem_nil, false_implies, implies_true,
    and_true]
  refine ⟨?_, ?_, ?_, ?_, ?_, ?_, ?_, ?_, ?_, ?_, ?_, ?_, ?_, ?_, ?_, ?_, ?_, ?_, ?_, ?_, ?_,
    ?_, ?_, ?_, ?_, ?_, ?_, ?_, ?_, ?_, ?_, ?_⟩
  all_goals first
    | exact guarded_split secret [.Recovery, .Logger, .CORS] _ engine_no_gate
    | exact guarded_none secret _ (by
        intro h hh ps
        simp only [RouterGroup.GET, RouterGroup.POST, RouterGroup.handle, RouterGroup.Group,
          serverEngine, List.cons_append, List.nil_append, List.mem_cons, List.mem_singleton,
          List.not_mem_nil, or_false] at hh
        rcases hh with rfl | rfl | rfl | rfl <;> simp)

/-- What runs of a chain: an entry of the trace at position `i` is the handler of the
chain at position `i`, and every handler before it ran and handed over. -/
theorem trace_getElem (fp : strconv.Float64) (now : Time) (hs : List Handler)
    (c : gin.Context) (i : Nat) (h : Handler) (b : Bool)
    (hi : (trace fp now hs c)[i]? = some (h, b)) :
    hs[i]? = some h ∧
      ∀ j, j < i → ∀ g, hs[j]? = some g → (trace fp now hs c)[j]? = some (g, true) := by
  induction hs generalizing c i with
  | nil => simp [trace] at hi
  | cons g rest ih =>
    have key : ∀ (l : List (Handler × Bool)),
        (trace fp now (g :: rest) c = [(g, true)] ∨ trace fp now (g :: rest) c = [(g, false)] ∨
          ∃ c1, trace fp now (g :: rest) c = (g, true) :: trace fp now rest c1) := by
      intro _
      cases g with
      | endpoint name => exact Or.inl (by simp [trace])
      | Recovery => exact Or.inr (Or.inr ⟨c, by simp [trace, Handler.run]⟩)
      | Logger => exact Or.inr (Or.inr ⟨c, by simp [trace, Handler.run]⟩)
      | CORS =>
        cases hr : Handler.run fp now .CORS c with
        | next c1 => exact Or.inr (Or.inr ⟨c1, by simp [trace, hr]⟩)
        | abort s c1 => exact Or.inr (Or.inl (by simp [trace, hr]))
        | panic m => exact Or.inr (Or.inl (by simp [trace, hr]))
      | JWTAuth s =>
        cases hr : Handler.run fp now (.JWTAuth s) c with
        | next c1 => exact Or.inr (Or.inr ⟨c1, by simp [trace, hr]⟩)
        | abort s c1 => exact Or.inr (Or.inl (by simp [trace, hr]))
        | panic m => exact Or.inr (Or.inl (by simp [trace, hr]))
      | RequirePermission ps =>
        cases hr : Handler.run fp now (.RequirePermission ps) c with
        | next c1 => exact Or.inr (Or.inr ⟨c1, by simp [trace, hr]⟩)
        | abort s c1 => exact Or.inr (Or.inl (by simp [trace, hr]))
        | panic m => exact Or.inr (Or.inl (by simp [trace, hr]))
    rcases key [] with hk | hk | ⟨c1, hk⟩
    · rw [hk] at hi
      cases i with
      | zero =>
        simp only [List.getElem?_cons_zero, Option.some.injEq, Prod.mk.injEq] at hi
        exact ⟨by simp [hi.1], fun j hj => absurd hj (Nat.not_lt_zero j)⟩
      | succ i => simp at hi
    · rw [hk] at hi
      cases i with
      | zero =>
        simp only [List.getElem?_cons_zero, Option.some.injEq, Prod.mk.injEq] at hi
        exact ⟨by simp [hi.1], fun j hj => absurd hj (Nat.not_lt_zero j)⟩
      | succ i => simp at hi
    · rw [hk] at hi ⊢
      cases i with
      | zero =>
        simp only [List.getElem?_cons_zero, Option.some.injEq, Prod.mk.injEq] at hi
        exact ⟨by simp [hi.1], fun j hj => absurd hj (Nat.not_lt_zero j)⟩
      | succ i =>
        simp only [List.getElem?_cons_succ] at hi
        obtain ⟨h1, h2⟩ := ih c1 i hi
        refine ⟨by simpa using h1, ?_⟩
        intro j hj g1 hg
        cases j with
        | zero =>
          simp only [List.getElem?_cons_zero, Option.some.injEq] at hg
          simp [hg]
        | succ j =>
          simp only [List.getElem?_cons_succ] at hg ⊢
          exact h2 j (by omega) g1 hg

end router
namespace sample

theorem managerToken_valid :
    ValidateToken noFloat t0 managerToken secret = .ret (some managerClaims) none := by decide

end sample

namespace router

/-- C6: in the table built by `SetupRouter` on the engine of `NewServer`, every route
under `/api/v1/users`, `/api/v1/maps/pcd-files`, `/api/v1/maps/semantic-maps`,
`/api/v1/tasks` and `/api/v1/devices` has exactly one permission gate: the view
permission of its module on a GET route, the manage permission of its module on a POST,
PUT or DELETE route (and these are its only methods). A gate for one permission admits a
bound role exactly when the role holds that permission. A request with a valid token of
the manager role is stopped with status 403 on `POST /api/v1/users` and reaches the
final handler on `POST /api/v1/maps/pcd-files`. No two routes share method and path. -/
theorem SetupRouter_permission_gates (fp : strconv.Float64) (now : Time) (cfg : Config)
    (routes : List Route) (auth : AuthConfig) (hauth : cfg.Auth = some auth)
    (h : SetupRouter serverEngine cfg = .ok routes) :
    (∀ r ∈ routes,
      ∀ m ∈ [(ascii "/api/v1/users", ascii "user"),
          (ascii "/api/v1/maps/pcd-files", ascii "map"),
          (ascii "/api/v1/maps/semantic-maps", ascii "map"),
          (ascii "/api/v1/tasks", ascii "task"), (ascii "/api/v1/devices", ascii "device")],
        m.1.isPrefixOf r.path = true →
          (r.method = ascii "GET" ∧ gates r.handlers = [[m.2 ++ ascii ":view"]]) ∨
          (r.method ∈ [ascii "POST", ascii "PUT", ascii "DELETE"] ∧
            gates r.handlers = [[m.2 ++ ascii ":manage"]])) ∧
    (∀ (perm : GoString) (role : RoleType) (c : gin.Context),
      c.Get (ascii "user_role") = some (.roleType role) →
        ((∃ c1, middleware.RequirePermission [perm] c = .next c1) ↔
          perm ∈ GetRolePermissions role)) ∧
    (∃ r ∈ routes, r.method = ascii "POST" ∧ r.path = ascii "/api/v1/users" ∧
      ∀ (c : gin.Context) (t : GoString) (claims : Claims), c.Method = ascii "POST" →
        c.GetHeader (ascii "Authorization") = ascii "Bearer" ++ [32] ++ t →
        ValidateToken fp now t auth.JWTSecret = .ret (some claims) none →
        claims.Role = ascii "manager" →
        ∃ c1, serve fp now r.handlers c = .aborted 403 c1) ∧
    (∃ r ∈ routes, r.method = ascii "POST" ∧ r.path = ascii "/api/v1/maps/pcd-files" ∧
      ∀ (c : gin.Context) (t : GoString) (claims : Claims), c.Method = ascii "POST" →
        c.GetHeader (ascii "Authorization") = ascii "Bearer" ++ [32] ++ t →
        ValidateToken fp now t auth.JWTSecret = .ret (some claims) none →
        claims.Role = ascii "manager" →
        ∃ c1, serve fp now r.handlers c = .reached "pcdHandler.CreatePCDFile" c1) ∧
    (routes.map (fun r => (r.method, r.path))).Nodup := by
  obtain ⟨auth1, ha, _, hr⟩ := SetupRouter_ok serverEngine cfg routes h
  rw [hauth] at ha
  cases ha
  subst hr
  refine ⟨table_gates auth.JWTSecret, ?_, ?_, ?_, table_nodup auth.JWTSecret⟩
  · intro perm role c hc
    rw [(middleware.RequirePermission_spec [perm] c).1]
    constructor
    · rintro ⟨role1, h1, h2⟩
      rw [hc] at h1
      cases h1
      rcases (HasAnyPermission_iff role [perm]).mp h2 with h3 | ⟨p, hp, h3⟩
      · simp at h3
      · simp only [List.mem_singleton] at hp
        exact hp ▸ h3
    · intro hp
      exact ⟨role, hc, (HasAnyPermission_iff role [perm]).mpr (Or.inr ⟨perm, by simp, hp⟩)⟩
  · refine ⟨(((serverEngine.Group (ascii "/api/v1")).Group (ascii "")).Use
        [.JWTAuth auth.JWTSecret]).Group (ascii "/users") |>.POST (ascii "")
        [.RequirePermission [PermissionUserManage], .endpoint "userHandler.CreateUser"],
      by simp [apiRoutes], rfl, of_decide_eq_true (Eq.refl true), ?_⟩
    intro c t claims hm hh hv hrole
    obtain ⟨c1, _, hs⟩ := serve_gated fp now auth.JWTSecret [PermissionUserManage]
      "userHandler.CreateUser" c t claims (by rw [hm]; decide) hh hv
    refine ⟨c1, ?_⟩
    have hp : HasAnyPermission claims.Role [PermissionUserManage] = false := by
      rw [hrole]; decide
    rw [hp] at hs
    exact hs
  · refine ⟨((((serverEngine.Group (ascii "/api/v1")).Group (ascii "")).Use
        [.JWTAuth auth.JWTSecret]).Group (ascii "/maps")).Group (ascii "/pcd-files")
        |>.POST (ascii "")
        [.RequirePermission [PermissionMapManage], .endpoint "pcdHandler.CreatePCDFile"],
      by simp [apiRoutes], rfl, of_decide_eq_true (Eq.refl true), ?_⟩
    intro c t claims hm hh hv hrole
    obtain ⟨c1, _, hs⟩ := serve_gated fp now auth.JWTSecret [PermissionMapManage]
      "pcdHandler.CreatePCDFile" c t claims (by rw [hm]; decide) hh hv
    refine ⟨c1, ?_⟩
    have hp : HasAnyPermission claims.Role [PermissionMapManage] = true := by
      rw [hrole]; decide
    rw [hp] at hs
    exact hs

/-- C6, for the configuration `sample.cfg` and a request with the token of a manager:
403 on `POST /api/v1/users`, the final handler on `POST /api/v1/maps/pcd-files`. -/
theorem SetupRouter_permission_gates_witness :
    ∃ routes, SetupRouter serverEngine sample.cfg = .ok routes ∧
      (∃ r ∈ routes, r.method = ascii "POST" ∧ r.path = ascii "/api/v1/users" ∧
        ∃ c1, serve sample.noFloat sample.t0 r.handlers sample.managerRequest =
          .aborted 403 c1) ∧
      (∃ r ∈ routes, r.method = ascii "POST" ∧ r.path = ascii "/api/v1/maps/pcd-files" ∧
        ∃ c1, serve sample.noFloat sample.t0 r.handlers sample.managerRequest =
          .reached "pcdHandler.CreatePCDFile" c1) := by
  have hw := SetupRouter_permission_gates sample.noFloat sample.t0 sample.cfg _ _ rfl rfl
  obtain ⟨r1, hr1, hm1, hp1, hs1⟩ := hw.2.2.1
  obtain ⟨r2, hr2, hm2, hp2, hs2⟩ := hw.2.2.2.1
  exact ⟨_, rfl,
    ⟨r1, hr1, hm1, hp1, hs1 sample.managerRequest sample.managerToken sample.managerClaims
      rfl rfl sample.managerToken_valid rfl⟩,
    ⟨r2, hr2, hm2, hp2, hs2 sample.managerRequest sample.managerToken sample.managerClaims
      rfl rfl sample.managerToken_valid rfl⟩⟩

/-- C7: in the table registered by `SetupRouter` on the engine of `NewServer`, every
chain that has a `RequirePermission` gate has `JWTAuth` of the configured secret at an
earlier position; so for every request, whenever a permission gate runs, `JWTAuth` ran
before it in the same chain and handed over, which it does only for a validated token
and with the three identity keys bound. -/
theorem SetupRouter_auth_before_gate (fp : strconv.Float64) (now : Time) (cfg : Config)
    (routes : List Route) (auth : AuthConfig) (hauth : cfg.Auth = some auth)
    (h : SetupRouter serverEngine cfg = .ok routes) :
    (∀ r ∈ routes, ∀ (i : Nat) (ps : List GoString),
      r.handlers[i]? = some (Handler.RequirePermission ps) →
        ∃ j, j < i ∧ r.handlers[j]? = some (Handler.JWTAuth auth.JWTSecret)) ∧
    (∀ r ∈ routes, ∀ (c : gin.Context) (i : Nat) (ps : List GoString) (b : Bool),
      (trace fp now r.handlers c)[i]? = some (Handler.RequirePermission ps, b) →
        ∃ j, j < i ∧
          (trace fp now r.handlers c)[j]? = some (Handler.JWTAuth auth.JWTSecret, true)) ∧
    (∀ (c c1 : gin.Context), middleware.JWTAuth fp now auth.JWTSecret c = .next c1 →
      ∃ t claims, c.GetHeader (ascii "Authorization") = ascii "Bearer" ++ [32] ++ t ∧
        ValidateToken fp now t auth.JWTSecret = .ret (some claims) none ∧
        c1.Get (ascii "user_role") = some (.roleType claims.Role)) := by
  obtain ⟨auth1, ha, _, hr⟩ := SetupRouter_ok serverEngine cfg routes h
  rw [hauth] at ha
  cases ha
  subst hr
  refine ⟨table_guarded auth.JWTSecret, ?_, ?_⟩
  · intro r hr c i ps b hi
    obtain ⟨h1, h2⟩ := trace_getElem fp now r.handlers c i _ b hi
    obtain ⟨j, hj, hg⟩ := table_guarded auth.JWTSecret r hr i ps h1
    exact ⟨j, hj, h2 j hj _ hg⟩
  · intro c c1 hn
    obtain ⟨t, claims, h1, h2, h3⟩ := (middleware.JWTAuth_next_iff fp now auth.JWTSecret c c1).mp hn
    exact ⟨t, claims, h1, h2, by rw [h3]; exact gin.Get_Set_same _ _ _⟩

/-- C7, for the configuration `sample.cfg`. -/
theorem SetupRouter_auth_before_gate_witness :
    ∃ routes, SetupRouter serverEngine sample.cfg = .ok routes ∧
      ∀ r ∈ routes, ∀ (i : Nat) (ps : List GoString),
        r.handlers[i]? = some (Handler.RequirePermission ps) →
          ∃ j, j < i ∧ r.handlers[j]? = some (Handler.JWTAuth sample.secret) :=
  ⟨_, rfl,
    (SetupRouter_auth_before_gate sample.noFloat sample.t0 sample.cfg _ _ rfl rfl).1⟩

end router

/-! ### `strconv`: parsing inverts formatting -/

namespace strconv

theorem digit_val (d : Nat) (h : d < 10) : (digit d).val = 48 + d := by
  show (48 + d) % 256 = 48 + d
  omega

theorem isDigit_digit (d : Nat) (h : d < 10) : isDigit (digit d) = true := by
  simp only [isDigit, digit_val d h, Bool.and_eq_true, decide_eq_true_eq]
  omega

theorem digitsValue_append (ds : List Byte) (d : Byte) :
    digitsValue (ds ++ [d]) = digitsValue ds * 10 + (d.val - 48) := by
  simp [digitsValue, List.foldl_append]

theorem digitsValue_cons_aux (acc : Nat) (ds : List Byte) :
    List.foldl (fun acc b => acc * 10 + ((b : Byte).val - 48)) acc ds =
      acc * 10 ^ ds.length + digitsValue ds := by
  induction ds generalizing acc with
  | nil => simp [digitsValue]
  | cons d ds ih =>
    simp only [List.foldl_cons, List.length_cons, digitsValue]
    rw [ih, ih (0 * 10 + (d.val - 48))]
    ring

theorem digitsValue_cons (d : Byte) (ds : List Byte) :
    digitsValue (d :: ds) = (d.val - 48) * 10 ^ ds.length + digitsValue ds := by
  simp only [digitsValue, List.foldl_cons]
  rw [digitsValue_cons_aux]
  simp [digitsValue]

/-- What `formatLoop` writes in front of `acc`: the decimal digits of `n`, without a
leading zero unless `n` is zero. -/
theorem formatLoop_spec (fuel n : Nat) (acc : List Byte) (h : n < fuel) :
    ∃ ds : List Byte, formatLoop fuel n acc = ds ++ acc ∧ ds ≠ [] ∧
      ds.all isDigit = true ∧ digitsValue ds = n ∧
      (ds.head? = some 48 → n = 0 ∧ ds = [48]) := by
  induction fuel generalizing n acc with
  | zero => omega
  | succ fuel ih =>
    rw [formatLoop]
    by_cases hn : n < 10
    · refine ⟨[digit n], by simp [hn], by simp, by simp [isDigit_digit n hn], ?_, ?_⟩
      · simp [digitsValue, digit_val n hn]
      · intro h0
        simp only [List.head?_cons, Option.some.injEq] at h0
        have hv := congrArg Fin.val h0
        rw [digit_val n hn] at hv
        have : n = 0 := by
          have : (48 : Byte).val = 48 := rfl
          omega
        subst this
        exact ⟨rfl, rfl⟩
    · obtain ⟨ds, h1, h2, h3, h4, h5⟩ := ih (n / 10) (digit (n % 10) :: acc) (by omega)
      refine ⟨ds ++ [digit (n % 10)], by simp [hn, h1], by simp, ?_, ?_, ?_⟩
      · simp [List.all_append, h3, isDigit_digit (n % 10) (by omega)]
      · rw [digitsValue_append, h4, digit_val _ (by omega)]
        omega
      · intro h0
        have hds : ds.head? = some 48 := by
          cases ds with
          | nil => exact absurd rfl h2
          | cons d ds => simpa using h0
        obtain ⟨hz, _⟩ := h5 hds
        omega

theorem FormatUint_spec (n : Nat) :
    FormatUint n ≠ [] ∧ (FormatUint n).all isDigit = true ∧ digitsValue (FormatUint n) = n ∧
      ((FormatUint n).head? = some 48 → FormatUint n = [48]) := by
  obtain ⟨ds, h1, h2, h3, h4, h5⟩ := formatLoop_spec (n + 1) n [] (by omega)
  have : FormatUint n = ds := by simp [FormatUint, h1]
  rw [this]
  exact ⟨h2, h3, h4, fun h => (h5 h).2⟩

theorem ParseUint_FormatUint (n : Nat) (h : n < 2 ^ 64) : ParseUint (FormatUint n) = some n := by
  obtain ⟨h1, h2, h3, _⟩ := FormatUint_spec n
  have h' : n < 18446744073709551616 := by simpa using h
  simp [ParseUint, h1, h2, h3, h']

theorem head_isDigit_ne_minus (ds : List Byte) (h1 : ds ≠ []) (h2 : ds.all isDigit = true) :
    ∃ d rest, ds = d :: rest ∧ isDigit d = true ∧ d.val ≠ 45 := by
  cases ds with
  | nil => exact absurd rfl h1
  | cons d rest =>
    simp only [List.all_cons, Bool.and_eq_true] at h2
    refine ⟨d, rest, rfl, h2.1, ?_⟩
    have := h2.1
    simp only [isDigit, Bool.and_eq_true, decide_eq_true_eq] at this
    omega

theorem plainInt_FormatInt (i : Int) : plainInt (FormatInt i) = some i := by
  obtain ⟨h1, h2, h3, _⟩ := FormatUint_spec i.natAbs
  unfold FormatInt
  by_cases hi : i < 0
  · simp only [hi, if_true, plainInt, h1, ne_eq, not_false_eq_true, h2, and_self, h3]
    simp only [Option.some.injEq]
    omega
  · simp only [hi, if_false]
    obtain ⟨d, rest, hd, _, hne⟩ := head_isDigit_ne_minus _ h1 h2
    have hne2 : d ≠ 45 := fun e => hne (by rw [e]; rfl)
    unfold plainInt
    rw [hd]
    split
    · rename_i heq
      simp only [List.cons.injEq] at heq
      exact absurd heq.1 hne2
    · rw [← hd]
      simp only [h1, ne_eq, not_false_eq_true, h2, and_self, if_true, h3, Option.some.injEq]
      omega

end strconv
/-! ### `unicode/utf8`: valid encodings are canonical -/

namespace utf8

theorem isCont_iff (b : Byte) : isCont b = true ↔ 128 ≤ b.val ∧ b.val ≤ 191 := by
  simp [isCont]

theorem second_bounds (b0 b1 : Byte) (h : second b0 b1 = true) :
    128 ≤ b1.val ∧ b1.val ≤ 191 ∧ (b0.val = 224 → 160 ≤ b1.val) ∧ (b0.val = 237 → b1.val ≤ 159) ∧
      (b0.val = 240 → 144 ≤ b1.val) ∧ (b0.val = 244 → b1.val ≤ 143) := by
  unfold second at h
  split_ifs at h with h1 h2 h3 h4
  · simp only [Bool.and_eq_true, decide_eq_true_eq] at h; omega
  · simp only [Bool.and_eq_true, decide_eq_true_eq] at h; omega
  · simp only [Bool.and_eq_true, decide_eq_true_eq] at h; omega
  · simp only [Bool.and_eq_true, decide_eq_true_eq] at h; omega
  · rw [isCont_iff] at h; omega

/-- The shape of a valid multi-byte encoding at the head of the input. -/
theorem DecodeRune_valid (b : Byte) (rest : List Byte) (hb : 128 ≤ b.val)
    (hk : (DecodeRune (b :: rest)).2 ≠ 1) :
    (∃ b1 r, rest = b1 :: r ∧ 194 ≤ b.val ∧ b.val ≤ 223 ∧ isCont b1 = true ∧
      DecodeRune (b :: rest) = (b.val % 32 * 64 + b1.val % 64, 2)) ∨
    (∃ b1 b2 r, rest = b1 :: b2 :: r ∧ 224 ≤ b.val ∧ b.val ≤ 239 ∧ second b b1 = true ∧
      isCont b2 = true ∧
      DecodeRune (b :: rest) = (b.val % 16 * 4096 + b1.val % 64 * 64 + b2.val % 64, 3)) ∨
    (∃ b1 b2 b3 r, rest = b1 :: b2 :: b3 :: r ∧ 240 ≤ b.val ∧ b.val ≤ 244 ∧
      second b b1 = true ∧ isCont b2 = true ∧ isCont b3 = true ∧
      DecodeRune (b :: rest) =
        (b.val % 8 * 262144 + b1.val % 64 * 4096 + b2.val % 64 * 64 + b3.val % 64, 4)) := by
  have hnlt : ¬ b.val < 128 := by omega
  by_cases h2 : 194 ≤ b.val ∧ b.val ≤ 223
  · cases rest with
    | nil => simp [DecodeRune, hnlt, h2] at hk
    | cons b1 r =>
      by_cases hc : isCont b1 = true
      · exact Or.inl ⟨b1, r, rfl, h2.1, h2.2, hc, by simp [DecodeRune, hnlt, h2, hc]⟩
      · simp [DecodeRune, hnlt, h2, hc] at hk
  · by_cases h3 : 224 ≤ b.val ∧ b.val ≤ 239
    · cases rest with
      | nil => simp [DecodeRune, hnlt, h2, h3] at hk
      | cons b1 r1 =>
        cases r1 with
        | nil => simp [DecodeRune, hnlt, h2, h3] at hk
        | cons b2 r =>
          by_cases hc : (second b b1 && isCont b2) = true
          · have hc' := hc
            simp only [Bool.and_eq_true] at hc'
            exact Or.inr (Or.inl ⟨b1, b2, r, rfl, h3.1, h3.2, hc'.1, hc'.2,
              by simp [DecodeRune, hnlt, h2, h3, hc'.1, hc'.2]⟩)
          · simp only [Bool.and_eq_true, not_and] at hc
            by_cases hs : second b b1 = true
            · simp [DecodeRune, hnlt, h2, h3, hs, hc hs] at hk
            · simp [DecodeRune, hnlt, h2, h3, hs] at hk
    · by_cases h4 : 240 ≤ b.val ∧ b.val ≤ 244
      · cases rest with
        | nil => simp [DecodeRune, hnlt, h2, h3, h4] at hk
        | cons b1 r1 =>
          cases r1 with
          | nil => simp [DecodeRune, hnlt, h2, h3, h4] at hk
          | cons b2 r2 =>
            cases r2 with
            | nil => simp [DecodeRune, hnlt, h2, h3, h4] at hk
            | cons b3 r =>
              by_cases hs : second b b1 = true
              · by_cases hc2 : isCont b2 = true
                · by_cases hc3 : isCont b3 = true
                  · exact Or.inr (Or.inr ⟨b1, b2, b3, r, rfl, h4.1, h4.2, hs, hc2, hc3,
                      by simp [DecodeRune, hnlt, h2, h3, h4, hs, hc2, hc3]⟩)
                  · simp [DecodeRune, hnlt, h2, h3, h4, hs, hc2, hc3] at hk
                · simp [DecodeRune, hnlt, h2, h3, h4, hs, hc2] at hk
              · simp [DecodeRune, hnlt, h2, h3, h4, hs] at hk
      · simp [DecodeRune, hnlt, h2, h3, h4] at hk

theorem byte_eq (a : Byte) (n : Nat) (h : n % 256 = a.val) : (Fin.ofNat n : Byte) = a := by
  apply Fin.ext
  simpa [Fin.ofNat] using h

/-- A valid multi-byte encoding: the rune is encoded back to the same bytes, and it is
decoded from them whatever follows. -/
theorem DecodeRune_canonical (b : Byte) (rest : List Byte) (hb : 128 ≤ b.val)
    (hk : (DecodeRune (b :: rest)).2 ≠ 1) :
    ∃ enc tail, b :: rest = enc ++ tail ∧ enc.length = (DecodeRune (b :: rest)).2 ∧
      EncodeRune (DecodeRune (b :: rest)).1 = enc ∧
      128 ≤ (DecodeRune (b :: rest)).1 ∧
      (∀ t, DecodeRune (enc ++ t) = DecodeRune (b :: rest)) ∧
      (∃ c cs, enc = c :: cs ∧ 128 ≤ c.val) := by
  have hnlt : ¬ b.val < 128 := by omega
  rcases DecodeRune_valid b rest hb hk with
    ⟨b1, r, hr, h1, h2, hc, hd⟩ | ⟨b1, b2, r, hr, h1, h2, hs, hc, hd⟩ |
    ⟨b1, b2, b3, r, hr, h1, h2, hs, hc2, hc3, hd⟩
  · have hb1 := (isCont_iff b1).mp hc
    have hbl := b.isLt
    refine ⟨[b, b1], r, by simp [hr], by simp [hd], ?_, by rw [hd]; simp only []; omega, ?_,
      ⟨b, [b1], rfl, hb⟩⟩
    · rw [hd]
      simp only [EncodeRune]
      rw [if_neg (by omega), if_pos (by omega),
        byte_eq b _ (by omega), byte_eq b1 _ (by omega)]
    · intro t
      rw [hd]
      simp [DecodeRune, hnlt, h1, h2, hc]
  · have hb1 := second_bounds b b1 hs
    have hb2 := (isCont_iff b2).mp hc
    have hbl := b.isLt
    refine ⟨[b, b1, b2], r, by simp [hr], by simp [hd], ?_, by rw [hd]; simp only []; omega, ?_,
      ⟨b, [b1, b2], rfl, hb⟩⟩
    · rw [hd]
      simp only [EncodeRune]
      rw [if_neg (by omega), if_neg (by omega), if_neg (by omega), if_pos (by omega),
        byte_eq b _ (by omega), byte_eq b1 _ (by omega), byte_eq b2 _ (by omega)]
    · intro t
      rw [hd]
      have hn2 : ¬ (194 ≤ b.val ∧ b.val ≤ 223) := by omega
      simp [DecodeRune, hnlt, hn2, h1, h2, hs, hc]
  · have hb1 := second_bounds b b1 hs
    have hb2 := (isCont_iff b2).mp hc2
    have hb3 := (isCont_iff b3).mp hc3
    have hbl := b.isLt
    refine ⟨[b, b1, b2, b3], r, by simp [hr], by simp [hd], ?_,
      by rw [hd]; simp only []; omega, ?_, ⟨b, [b1, b2, b3], rfl, hb⟩⟩
    · rw [hd]
      simp only [EncodeRune]
      rw [if_neg (by omega), if_neg (by omega), if_neg (by omega), if_neg (by omega),
        byte_eq b _ (by omega), byte_eq b1 _ (by omega), byte_eq b2 _ (by omega),
        byte_eq b3 _ (by omega)]
    · intro t
      rw [hd]
      have hn2 : ¬ (194 ≤ b.val ∧ b.val ≤ 223) := by omega
      have hn3 : ¬ (224 ≤ b.val ∧ b.val ≤ 239) := by omega
      simp [DecodeRune, hnlt, hn2, hn3, h1, h2, hs, hc2, hc3]

end utf8
/-! ### `encoding/json`: the decoder reads back what the encoder writes -/

namespace json

/-- One step of `scanString`, read off its definition. -/
theorem scanString_cons (fuel : Nat) (c : Byte) (rest acc : List Byte) :
    scanString (fuel + 1) (c :: rest) acc =
    if c.val = 34 then some (acc, rest)
    else if c.val = 92 then
      match rest with
      | [] => none
      | e :: rest2 =>
        if e.val = 117 then
          match hex4 rest2 with
          | none => none
          | some (rr, rest3) =>
            if isSurrogate rr then
              match getu4 rest3 with
              | some (rr1, rest5) =>
                if decodeSurrogates rr rr1 ≠ utf8.RuneError then
                  scanString fuel rest5 (acc ++ utf8.EncodeRune (decodeSurrogates rr rr1))
                else scanString fuel rest3 (acc ++ utf8.EncodeRune utf8.RuneError)
              | none => scanString fuel rest3 (acc ++ utf8.EncodeRune utf8.RuneError)
            else scanString fuel rest3 (acc ++ utf8.EncodeRune rr)
        else
          match simpleEscape e with
          | some b => scanString fuel rest2 (acc ++ [b])
          | none => none
    else if c.val < 32 then none
    else if c.val < 128 then scanString fuel rest (acc ++ [c])
    else
      scanString fuel ((c :: rest).drop (utf8.DecodeRune (c :: rest)).2)
        (acc ++ utf8.EncodeRune (utf8.DecodeRune (c :: rest)).1) := rfl

/-- Reading the escape sequence of an ASCII byte gives the byte. -/
theorem scanString_escapeByte (b : Byte) (h1 : b.val < 128) (h2 : htmlSafe b = false)
    (fuel : Nat) (rest acc : List Byte) :
    scanString (fuel + 1) (escapeByte b ++ rest) acc = scanString fuel rest (acc ++ [b]) := by
  have hcases : b.val < 32 ∨ b.val = 34 ∨ b.val = 92 ∨ b.val = 60 ∨ b.val = 62 ∨ b.val = 38 := by
    simp only [htmlSafe, Bool.and_eq_false_iff, decide_eq_false_iff_not, Bool.not_eq_false',
      Bool.or_eq_true, decide_eq_true_eq] at h2
    omega
  have hb : ∀ k : Nat, b.val = k → k < 256 → b = (Fin.ofNat k : Byte) := fun k hk hlt =>
    Fin.ext (by simp [Fin.ofNat, hk, Nat.mod_eq_of_lt hlt])
  rcases hcases with h | h | h | h | h | h
  · generalize hv : b.val = k at h
    interval_cases k <;> (rw [hb _ hv (by decide)]; rfl)
  all_goals (rw [hb _ h (by decide)]; rfl)

theorem scanString_safe (b : Byte) (h1 : b.val < 128) (h2 : htmlSafe b = true)
    (fuel : Nat) (rest acc : List Byte) :
    scanString (fuel + 1) (b :: rest) acc = scanString fuel rest (acc ++ [b]) := by
  simp only [htmlSafe, Bool.and_eq_true, decide_eq_true_eq, Bool.not_eq_true',
    Bool.or_eq_false_iff, decide_eq_false_iff_not] at h2
  rw [scanString_cons]
  rw [if_neg (by omega), if_neg (by omega), if_neg (by omega), if_pos h1]

theorem scanString_quote (fuel : Nat) (rest acc : List Byte) :
    scanString (fuel + 1) (34 :: rest) acc = some (acc, rest) := rfl

theorem scanString_line_separator (fuel : Nat) (r : Nat) (h : r = 8232 ∨ r = 8233)
    (rest acc : List Byte) :
    scanString (fuel + 1) ([92, 117, 50, 48, 50, hex.getD (r % 16) 0] ++ rest) acc =
      scanString fuel rest (acc ++ utf8.EncodeRune r) := by
  rcases h with h | h <;> subst h <;> rfl

theorem scanString_multibyte (fuel : Nat) (c : Byte) (cs acc : List Byte) (h : 128 ≤ c.val) :
    scanString (fuel + 1) (c :: cs) acc =
      scanString fuel ((c :: cs).drop (utf8.DecodeRune (c :: cs)).2)
        (acc ++ utf8.EncodeRune (utf8.DecodeRune (c :: cs)).1) := by
  rw [scanString_cons]
  rw [if_neg (by omega), if_neg (by omega), if_neg (by omega), if_neg (by omega)]

theorem appendStringLoop_ascii (n : Nat) (b : Byte) (tl : List Byte) (hb : b.val < 128) :
    appendStringLoop (n + 1) (b :: tl) =
      (if htmlSafe b then [b] else escapeByte b) ++ appendStringLoop n tl := by
  simp [appendStringLoop, hb]

theorem appendStringLoop_multibyte (n : Nat) (b : Byte) (tl : List Byte) (hb : ¬ b.val < 128)
    (hk : (utf8.DecodeRune (b :: tl)).2 ≠ 1) :
    appendStringLoop (n + 1) (b :: tl) =
      (if (utf8.DecodeRune (b :: tl)).1 = 8232 ∨ (utf8.DecodeRune (b :: tl)).1 = 8233 then
        [92, 117, 50, 48, 50, hex.getD ((utf8.DecodeRune (b :: tl)).1 % 16) 0]
       else (b :: tl).take (utf8.DecodeRune (b :: tl)).2) ++
      appendStringLoop n ((b :: tl).drop (utf8.DecodeRune (b :: tl)).2) := by
  rw [appendStringLoop]
  simp only [hb, if_false, hk, and_false]
  split_ifs <;> rfl

theorem validLoop_ascii (n : Nat) (b : Byte) (tl : List Byte) (hb : b.val < 128) :
    utf8.validLoop (n + 1) (b :: tl) = utf8.validLoop n tl := by
  simp [utf8.validLoop, hb]

theorem validLoop_multibyte (n : Nat) (b : Byte) (tl : List Byte) (hb : ¬ b.val < 128)
    (hv : utf8.validLoop (n + 1) (b :: tl) = true) :
    (utf8.DecodeRune (b :: tl)).2 ≠ 1 ∧
      utf8.validLoop n ((b :: tl).drop (utf8.DecodeRune (b :: tl)).2) = true := by
  rw [utf8.validLoop] at hv
  simp only [hb, if_false] at hv
  by_cases hk : (utf8.DecodeRune (b :: tl)).2 = 1
  · simp [hk] at hv
  · simp only [hk, if_false] at hv
    exact ⟨hk, hv⟩

/-- The scanner reads a string written by `appendString` back to the string, when the
string is valid UTF-8. -/
theorem scanString_appendStringLoop (n : Nat) :
    ∀ (s acc rest : List Byte) (fuel : Nat), utf8.validLoop n s = true →
      (appendStringLoop n s ++ 34 :: rest).length ≤ fuel →
      scanString fuel (appendStringLoop n s ++ 34 :: rest) acc = some (acc ++ s, rest) := by
  induction n with
  | zero =>
    intro s acc rest fuel hv hf
    cases s with
    | nil =>
      simp only [appendStringLoop, List.nil_append, List.length_cons] at hf ⊢
      obtain ⟨f, rfl⟩ : ∃ f, fuel = f + 1 := ⟨fuel - 1, by omega⟩
      simp [scanString_quote]
    | cons b tl => simp [utf8.validLoop] at hv
  | succ n ih =>
    intro s acc rest fuel hv hf
    cases s with
    | nil =>
      simp only [appendStringLoop, List.nil_append, List.length_cons] at hf ⊢
      obtain ⟨f, rfl⟩ : ∃ f, fuel = f + 1 := ⟨fuel - 1, by omega⟩
      simp [scanString_quote]
    | cons b tl =>
      by_cases hb : b.val < 128
      · rw [validLoop_ascii n b tl hb] at hv
        rw [appendStringLoop_ascii n b tl hb] at hf ⊢
        by_cases hs : htmlSafe b = true
        · simp only [hs, if_true, List.singleton_append, List.cons_append, List.nil_append,
            List.length_cons] at hf ⊢
          obtain ⟨f, rfl⟩ : ∃ f, fuel = f + 1 := ⟨fuel - 1, by omega⟩
          rw [scanString_safe b hb hs f _ acc, ih tl (acc ++ [b]) rest f hv (by omega)]
          simp
        · have hs' : htmlSafe b = false := by simpa using hs
          simp only [hs', Bool.false_eq_true, if_false, List.append_assoc] at hf ⊢
          have hlen : 1 ≤ (escapeByte b).length := by
            unfold escapeByte
            split_ifs <;> simp
          rw [List.length_append] at hf
          obtain ⟨f, rfl⟩ : ∃ f, fuel = f + 1 := ⟨fuel - 1, by omega⟩
          rw [scanString_escapeByte b hb hs' f _ acc, ih tl (acc ++ [b]) rest f hv (by omega)]
          simp
      · obtain ⟨hk, hv1⟩ := validLoop_multibyte n b tl hb hv
        rw [appendStringLoop_multibyte n b tl hb hk] at hf ⊢
        obtain ⟨enc, tail, hsplit, hlen, henc, hr, hdec, c, cs, hcs, hc⟩ :=
          utf8.DecodeRune_canonical b tl (by omega) hk
        generalize utf8.DecodeRune (b :: tl) = d at hk hv1 hf hlen henc hr hdec ⊢
        rw [hsplit] at hv1 hf ⊢
        rw [← hlen, List.drop_left' rfl] at hv1 hf ⊢
        rw [List.take_left' rfl] at hf ⊢
        by_cases hls : d.1 = 8232 ∨ d.1 = 8233
        · simp only [hls, if_true, List.append_assoc] at hf ⊢
          rw [List.length_append] at hf
          simp only [List.length_cons, List.length_nil] at hf
          obtain ⟨f, rfl⟩ : ∃ f, fuel = f + 1 := ⟨fuel - 1, by omega⟩
          rw [scanString_line_separator f _ hls, henc, ih tail (acc ++ enc) rest f hv1 (by omega)]
          simp
        · simp only [hls, if_false, List.append_assoc] at hf ⊢
          have hl2 : 1 ≤ enc.length := by rw [hcs]; simp
          rw [List.length_append] at hf
          obtain ⟨f, rfl⟩ : ∃ f, fuel = f + 1 := ⟨fuel - 1, by omega⟩
          have hstep := scanString_multibyte f c
            (cs ++ (appendStringLoop n tail ++ 34 :: rest)) acc hc
          rw [← List.cons_append, ← hcs, hdec, henc, ← hlen, List.drop_left' rfl] at hstep
          rw [hstep, ih tail (acc ++ enc) rest f hv1 (by omega)]
          simp

/-- `appendString` read back by the scanner. -/
theorem scanString_appendString (s rest : List Byte) (fuel : Nat)
    (hv : utf8.ValidString s = true) (hf : (appendString s ++ rest).length ≤ fuel + 1) :
    ∃ tail, appendString s ++ rest = 34 :: tail ∧ scanString fuel tail [] = some (s, rest) := by
  refine ⟨appendStringLoop s.length s ++ 34 :: rest, by simp [appendString], ?_⟩
  have := scanString_appendStringLoop s.length s [] rest fuel hv
    (by simp [appendString] at hf ⊢; omega)
  simpa using this

end json

namespace json

theorem spanDigits_append (ds rest : List Byte) (h : ds.all strconv.isDigit = true)
    (hr : ∀ c tail, rest = c :: tail → strconv.isDigit c = false) :
    spanDigits (ds ++ rest) = (ds, rest) := by
  induction ds with
  | nil =>
    cases rest with
    | nil => rfl
    | cons c tail => simp [spanDigits, hr c tail rfl]
  | cons d ds ih =>
    simp only [List.all_cons, Bool.and_eq_true] at h
    simp [spanDigits, h.1, ih h.2]

/-- A separator after a value: a comma or a closing brace. -/
theorem sep_facts (sep : Byte) (h : sep.val = 44 ∨ sep.val = 125) :
    strconv.isDigit sep = false ∧ sep ≠ 46 ∧ sep.val ≠ 101 ∧ sep.val ≠ 69 ∧
      isSpace sep = false := by
  have h46 : sep ≠ 46 := by
    intro e
    have : sep.val = 46 := by rw [e]; rfl
    omega
  rcases h with h | h <;> simp [strconv.isDigit, isSpace, h, h46]

theorem scanNumber_digits (ds : List Byte) (sep : Byte) (rest : List Byte)
    (h1 : ds ≠ []) (h2 : ds.all strconv.isDigit = true)
    (h3 : ds.head? = some 48 → ds = [48]) (hs : sep.val = 44 ∨ sep.val = 125) :
    scanInt (ds ++ sep :: rest) = some (ds, sep :: rest) ∧
    scanFrac (sep :: rest) = some ([], sep :: rest) ∧
    scanExp (sep :: rest) = some ([], sep :: rest) := by
  obtain ⟨hd, h46, h101, h69, _⟩ := sep_facts sep hs
  refine ⟨?_, ?_, ?_⟩
  · cases ds with
    | nil => exact absurd rfl h1
    | cons d tl =>
      simp only [List.all_cons, Bool.and_eq_true] at h2
      by_cases h0 : d.val = 48
      · have hd48 : d = 48 := Fin.ext h0
        have := h3 (by simp [hd48])
        simp only [List.cons.injEq] at this
        rw [this.2, hd48]
        rfl
      · have hsp := spanDigits_append tl (sep :: rest) h2.2
          (fun c tail e => by simp only [List.cons.injEq] at e; rw [← e.1]; exact hd)
        simp [scanInt, h0, h2.1, hsp]
  · unfold scanFrac
    split
    · rename_i heq
      simp only [List.cons.injEq] at heq
      exact absurd heq.1 h46
    · rfl
  · simp [scanExp, h101, h69]

theorem scanSign_digit (d : Byte) (tl : List Byte) (h : d.val ≠ 45) :
    scanSign (d :: tl) = ([], d :: tl) := by
  have hne : d ≠ 45 := fun e => h (by rw [e]; rfl)
  unfold scanSign
  split
  · rename_i heq
    simp only [List.cons.injEq] at heq
    exact absurd heq.1 hne
  · rfl

theorem scanNumber_FormatUint (n : Nat) (sep : Byte) (rest : List Byte)
    (hs : sep.val = 44 ∨ sep.val = 125) :
    scanNumber (strconv.FormatUint n ++ sep :: rest) =
      some (strconv.FormatUint n, sep :: rest) := by
  obtain ⟨h1, h2, _, h4⟩ := strconv.FormatUint_spec n
  obtain ⟨hi, hf, he⟩ := scanNumber_digits _ sep rest h1 h2 h4 hs
  obtain ⟨d, tl, hd, _, hne⟩ := strconv.head_isDigit_ne_minus _ h1 h2
  have hsign : scanSign (strconv.FormatUint n ++ sep :: rest) =
      ([], strconv.FormatUint n ++ sep :: rest) := by
    rw [hd]
    exact scanSign_digit d _ hne
  unfold scanNumber
  simp only [hsign, hi, hf, he]
  simp

theorem scanNumber_FormatInt (i : Int) (sep : Byte) (rest : List Byte)
    (hs : sep.val = 44 ∨ sep.val = 125) :
    scanNumber (strconv.FormatInt i ++ sep :: rest) =
      some (strconv.FormatInt i, sep :: rest) := by
  by_cases hi : i < 0
  · obtain ⟨h1, h2, _, h4⟩ := strconv.FormatUint_spec i.natAbs
    obtain ⟨hint, hf, he⟩ := scanNumber_digits _ sep rest h1 h2 h4 hs
    simp only [strconv.FormatInt, hi, if_true, List.cons_append]
    unfold scanNumber
    have hsign : scanSign (45 :: (strconv.FormatUint i.natAbs ++ sep :: rest)) =
        ([45], strconv.FormatUint i.natAbs ++ sep :: rest) := rfl
    simp only [hsign, hint, hf, he]
    simp
  · simp only [strconv.FormatInt, hi, if_false]
    exact scanNumber_FormatUint _ sep rest hs

/-- One step of `parseValue`, read off its definition. -/
theorem parseValue_cons (fuel depth : Nat) (c : Byte) (rest : List Byte) :
    parseValue (fuel + 1) depth (c :: rest) =
    if c.val = 123 then
      if depth + 1 > maxNestingDepth then none
      else
        match skipSpace rest with
        | [] => none
        | d :: rest2 =>
          if d.val = 125 then some (.object [], rest2)
          else
            match parseMembers fuel (depth + 1) (d :: rest2) with
            | some (ms, rest3) => some (.object ms, rest3)
            | none => none
    else if c.val = 91 then
      if depth + 1 > maxNestingDepth then none
      else
        match skipSpace rest with
        | [] => none
        | d :: rest2 =>
          if d.val = 93 then some (.array [], rest2)
          else
            match parseElements fuel (depth + 1) (d :: rest2) with
            | some (vs, rest3) => some (.array vs, rest3)
            | none => none
    else if c.val = 34 then
      match scanString fuel rest [] with
      | some (str, rest2) => some (.string str, rest2)
      | none => none
    else if c.val = 45 ∨ strconv.isDigit c then
      match scanNumber (c :: rest) with
      | some (lit, rest2) => some (.number lit, rest2)
      | none => none
    else
      match literal [116, 114, 117, 101] (c :: rest) with
      | some rest2 => some (.bool true, rest2)
      | none =>
        match literal [102, 97, 108, 115, 101] (c :: rest) with
        | some rest2 => some (.bool false, rest2)
        | none =>
          match literal [110, 117, 108, 108] (c :: rest) with
          | some rest2 => some (.null, rest2)
          | none => none := rfl

/-- One step of `parseMembers`, read off its definition. -/
theorem parseMembers_cons (fuel depth : Nat) (c : Byte) (rest : List Byte) :
    parseMembers (fuel + 1) depth (c :: rest) =
    if c.val = 34 then
      match scanString fuel rest [] with
      | none => none
      | some (key, rest2) =>
        match skipSpace rest2 with
        | [] => none
        | colon :: rest3 =>
          if colon.val = 58 then
            match parseValue fuel depth (skipSpace rest3) with
            | none => none
            | some (v, rest4) =>
              match skipSpace rest4 with
              | [] => none
              | sep :: rest5 =>
                if sep.val = 125 then some ([(key, v)], rest5)
                else if sep.val = 44 then
                  match parseMembers fuel depth (skipSpace rest5) with
                  | some (ms, rest6) => some ((key, v) :: ms, rest6)
                  | none => none
                else none
          else none
    else none := rfl

end json
namespace json

theorem skipSpace_cons (c : Byte) (rest : List Byte) (h : isSpace c = false) :
    skipSpace (c :: rest) = c :: rest := by
  simp [skipSpace, h]

theorem appendString_cons (s : List Byte) :
    appendString s = 34 :: (appendStringLoop s.length s ++ [34]) := by
  simp [appendString]

theorem ParsesAs_string (s : List Byte) (hv : utf8.ValidString s = true) :
    ParsesAs (appendString s) (.string s) := by
  refine ⟨⟨34, _, appendString_cons s, by decide⟩, ?_⟩
  intro fuel depth sep rest _ hf
  obtain ⟨tail, ht, hscan⟩ := scanString_appendString s (sep :: rest) (fuel - 1) hv (by omega)
  have hpos : 1 ≤ fuel := by
    rw [ht] at hf
    simp only [List.length_cons] at hf
    omega
  obtain ⟨f, rfl⟩ : ∃ f, fuel = f + 1 := ⟨fuel - 1, by omega⟩
  rw [ht, parseValue_cons]
  simp only [Nat.add_one_sub_one] at hscan
  rw [if_neg (by decide), if_neg (by decide), if_pos (by decide), hscan]

theorem ParsesAs_digits (lit : List Byte) (c : Byte) (tail : List Byte) (hl : lit = c :: tail)
    (hc : c.val = 45 ∨ strconv.isDigit c = true)
    (hscan : ∀ (sep : Byte) (rest : List Byte), sep.val = 44 ∨ sep.val = 125 →
      scanNumber (lit ++ sep :: rest) = some (lit, sep :: rest)) :
    ParsesAs lit (.number lit) := by
  have hcv : c.val ≠ 123 ∧ c.val ≠ 91 ∧ c.val ≠ 34 ∧ isSpace c = false := by
    rcases hc with h | h
    · simp [isSpace, h]
    · simp only [strconv.isDigit, Bool.and_eq_true, decide_eq_true_eq] at h
      simp only [isSpace, Bool.or_eq_false_iff, decide_eq_false_iff_not]
      omega
  refine ⟨⟨c, tail, hl, hcv.2.2.2⟩, ?_⟩
  intro fuel depth sep rest hs hf
  have hpos : 1 ≤ fuel := by
    rw [hl] at hf
    simp only [List.cons_append, List.length_cons] at hf
    omega
  obtain ⟨f, rfl⟩ : ∃ f, fuel = f + 1 := ⟨fuel - 1, by omega⟩
  have h := hscan sep rest hs
  rw [hl] at h ⊢
  rw [List.cons_append, parseValue_cons]
  rw [if_neg hcv.1, if_neg hcv.2.1, if_neg hcv.2.2.1, if_pos hc]
  rw [List.cons_append] at h
  rw [h]

theorem ParsesAs_FormatUint (n : Nat) :
    ParsesAs (strconv.FormatUint n) (.number (strconv.FormatUint n)) := by
  obtain ⟨h1, h2, _, _⟩ := strconv.FormatUint_spec n
  obtain ⟨d, tl, hd, hdig, _⟩ := strconv.head_isDigit_ne_minus _ h1 h2
  exact ParsesAs_digits _ d tl hd (Or.inr hdig) (fun sep rest hs => scanNumber_FormatUint n sep rest hs)

theorem ParsesAs_FormatInt (i : Int) :
    ParsesAs (strconv.FormatInt i) (.number (strconv.FormatInt i)) := by
  by_cases hi : i < 0
  · exact ParsesAs_digits _ 45 (strconv.FormatUint i.natAbs) (by simp [strconv.FormatInt, hi])
      (Or.inl rfl) (fun sep rest hs => scanNumber_FormatInt i sep rest hs)
  · have : strconv.FormatInt i = strconv.FormatUint i.natAbs := by simp [strconv.FormatInt, hi]
    rw [this]
    exact ParsesAs_FormatUint _

/-- One member of an object in front of a comma or a closing brace: the key is read by
the string scanner, the value by `parseValue`. -/
theorem parseMembers_member (key vtext : List Byte) (v : Value)
    (hk : utf8.ValidString key = true) (hv : ParsesAs vtext v) (fuel depth : Nat)
    (sep : Byte) (rest : List Byte) (hs : sep.val = 44 ∨ sep.val = 125)
    (hf : (appendString key ++ 58 :: (vtext ++ sep :: rest)).length ≤ fuel + 1) :
    parseMembers (fuel + 1) depth (appendString key ++ 58 :: (vtext ++ sep :: rest)) =
      if sep.val = 125 then some ([(key, v)], rest)
      else
        match parseMembers fuel depth (skipSpace rest) with
        | some (ms, rest6) => some ((key, v) :: ms, rest6)
        | none => none := by
  obtain ⟨⟨c, tail, hvt, hvc⟩, hparse⟩ := hv
  have hlen : (vtext ++ sep :: rest).length ≤ fuel := by
    rw [appendString_cons] at hf
    simp only [List.length_append, List.length_cons, List.length_nil, List.cons_append] at hf ⊢
    omega
  obtain ⟨ktail, hkt, hscan⟩ :=
    scanString_appendString key (58 :: (vtext ++ sep :: rest)) fuel hk (by simpa using hf)
  rw [hkt, parseMembers_cons, if_pos (by decide), hscan]
  simp only []
  rw [skipSpace_cons 58 _ (by decide)]
  simp only []
  rw [if_pos (by decide)]
  have hsk : skipSpace (vtext ++ sep :: rest) = vtext ++ sep :: rest := by
    rw [hvt, List.cons_append]
    exact skipSpace_cons c _ hvc
  rw [hsk, hparse fuel depth sep rest hs hlen]
  simp only []
  rw [skipSpace_cons sep rest (sep_facts sep hs).2.2.2.2]
  simp only []
  rcases hs with h | h
  · rw [if_neg (by omega), if_pos h, if_neg (by omega)]
  · rw [if_pos h, if_pos h]

end json
namespace json

theorem parseMembers_last (key vtext : List Byte) (v : Value)
    (hk : utf8.ValidString key = true) (hv : ParsesAs vtext v) (depth : Nat)
    (rest : List Byte) (fuel : Nat)
    (hf : (appendString key ++ 58 :: (vtext ++ 125 :: rest)).length ≤ fuel) :
    parseMembers fuel depth (appendString key ++ 58 :: (vtext ++ 125 :: rest)) =
      some ([(key, v)], rest) := by
  have hpos : 1 ≤ fuel := by
    rw [appendString_cons] at hf
    simp only [List.cons_append, List.length_cons] at hf
    omega
  obtain ⟨f, rfl⟩ : ∃ f, fuel = f + 1 := ⟨fuel - 1, by omega⟩
  rw [parseMembers_member key vtext v hk hv f depth 125 rest (Or.inr rfl) hf]
  rfl

theorem parseMembers_more (key vtext : List Byte) (v : Value)
    (hk : utf8.ValidString key = true) (hv : ParsesAs vtext v) (depth : Nat)
    (more : List Byte) (ms : List (List Byte × Value)) (rest : List Byte)
    (hq : ∃ tail, more = 34 :: tail)
    (hmore : ∀ fuel, more.length ≤ fuel → parseMembers fuel depth more = some (ms, rest))
    (fuel : Nat) (hf : (appendString key ++ 58 :: (vtext ++ 44 :: more)).length ≤ fuel) :
    parseMembers fuel depth (appendString key ++ 58 :: (vtext ++ 44 :: more)) =
      some ((key, v) :: ms, rest) := by
  have hpos : more.length + 2 ≤ fuel := by
    rw [appendString_cons] at hf
    simp only [List.cons_append, List.length_cons, List.length_append] at hf
    omega
  obtain ⟨f, rfl⟩ : ∃ f, fuel = f + 1 := ⟨fuel - 1, by omega⟩
  rw [parseMembers_member key vtext v hk hv f depth 44 more (Or.inl rfl) hf]
  obtain ⟨tail, ht⟩ := hq
  have hsk : skipSpace more = more := by
    rw [ht]
    exact skipSpace_cons 34 tail (by decide)
  rw [if_neg (by decide), hsk, hmore f (by omega)]

theorem appendString_head (s rest : List Byte) : ∃ tail, appendString s ++ rest = 34 :: tail :=
  ⟨appendStringLoop s.length s ++ [34] ++ rest, by simp [appendString]⟩

/-- The text of an object whose members are given by `parseMembers`. -/
theorem parse_object (body : List Byte) (ms : List (List Byte × Value))
    (hq : ∃ tail, body = 34 :: tail)
    (hbody : ∀ fuel, body.length ≤ fuel → parseMembers fuel 1 body = some (ms, [])) :
    parse (123 :: body) = some (.object ms) := by
  obtain ⟨tail, ht⟩ := hq
  have hsk : skipSpace body = body := by
    rw [ht]
    exact skipSpace_cons 34 tail (by decide)
  unfold parse
  rw [skipSpace_cons 123 body (by decide), parseValue_cons, if_pos (by decide),
    if_neg (by decide), hsk]
  rw [ht] at hbody ⊢
  simp only []
  rw [if_neg (by decide), hbody _ (by simp)]
  rfl

end json

/-! ### `jwt.go`: the claims are decoded back from their JSON text -/

theorem marshalClaims_dates (userID : Nat) (username : GoString) (role : RoleType)
    (exp nbf iat : Time) :
    marshalClaims
        { UserID := userID, UserName := username, Role := role,
          RegisteredClaims :=
            { ExpiresAt := some exp, NotBefore := some nbf, IssuedAt := some iat } } =
      123 :: (json.appendString (ascii "user_id") ++ 58 :: (strconv.FormatUint userID ++ 44 ::
        (json.appendString (ascii "user_name") ++ 58 :: (json.appendString username ++ 44 ::
        (json.appendString (ascii "role") ++ 58 :: (json.appendString role ++ 44 ::
        (json.appendString (ascii "exp") ++ 58 :: (strconv.FormatInt (time.Unix exp) ++ 44 ::
        (json.appendString (ascii "nbf") ++ 58 :: (strconv.FormatInt (time.Unix nbf) ++ 44 ::
        (json.appendString (ascii "iat") ++ 58 ::
          (strconv.FormatInt (time.Unix iat) ++ [125])))))))))))) := by
  simp [marshalClaims, jwt.marshalNumericDate, List.append_assoc]

theorem numericDate_FormatInt (fp : strconv.Float64) (t : Time)
    (hsec : t % 1000000000 = 0) (hrange : (time.Unix t).natAbs < 2 ^ 53) :
    jwt.numericDate fp (strconv.FormatInt (time.Unix t)) = some t := by
  unfold jwt.numericDate
  rw [strconv.plainInt_FormatInt]
  simp only [hrange, if_true, Option.some.injEq]
  have hu : time.Unix t = t / 1000000000 := rfl
  rw [hu]
  exact Int.ediv_mul_cancel (Int.dvd_of_emod_eq_zero hsec)

/-- `json.Unmarshal` of the text that `json.Marshal` writes for claims gives the claims
back, for a user id within `uint`, a user name and a role that are valid UTF-8, and
dates of whole seconds within the range that float64 holds exactly. -/
theorem unmarshalClaims_marshalClaims (fp : strconv.Float64) (userID : Nat)
    (username : GoString) (role : RoleType) (exp nbf iat : Time)
    (hid : userID < 2 ^ 64) (hname : utf8.ValidString username = true)
    (hrole : utf8.ValidString role = true)
    (he : exp % 1000000000 = 0) (hn : nbf % 1000000000 = 0) (hi : iat % 1000000000 = 0)
    (hre : (time.Unix exp).natAbs < 2 ^ 53) (hrn : (time.Unix nbf).natAbs < 2 ^ 53)
    (hri : (time.Unix iat).natAbs < 2 ^ 53) :
    unmarshalClaims fp (marshalClaims
        { UserID := userID, UserName := username, Role := role,
          RegisteredClaims :=
            { ExpiresAt := some exp, NotBefore := some nbf, IssuedAt := some iat } }) =
      some
        { UserID := userID, UserName := username, Role := role,
          RegisteredClaims :=
            { ExpiresAt := some exp, NotBefore := some nbf, IssuedAt := some iat } } := by
  have h6 := json.parseMembers_last (ascii "iat") _ _ (by decide)
    (json.ParsesAs_FormatInt (time.Unix iat)) 1 []
  have h5 := json.parseMembers_more (ascii "nbf") _ _ (by decide)
    (json.ParsesAs_FormatInt (time.Unix nbf)) 1 _ _ [] (json.appendString_head _ _) h6
  have h4 := json.parseMembers_more (ascii "exp") _ _ (by decide)
    (json.ParsesAs_FormatInt (time.Unix exp)) 1 _ _ [] (json.appendString_head _ _) h5
  have h3 := json.parseMembers_more (ascii "role") _ _ (by decide)
    (json.ParsesAs_string role hrole) 1 _ _ [] (json.appendString_head _ _) h4
  have h2 := json.parseMembers_more (ascii "user_name") _ _ (by decide)
    (json.ParsesAs_string username hname) 1 _ _ [] (json.appendString_head _ _) h3
  have h1 := json.parseMembers_more (ascii "user_id") _ _ (by decide)
    (json.ParsesAs_FormatUint userID) 1 _ _ [] (json.appendString_head _ _) h2
  have hparse := json.parse_object _ _ (json.appendString_head _ _) h1
  unfold unmarshalClaims
  rw [marshalClaims_dates, hparse]
  have f1 : json.findField claimsFields (ascii "user_id") = some .user_id := by decide
  have f2 : json.findField claimsFields (ascii "user_name") = some .user_name := by decide
  have f3 : json.findField claimsFields (ascii "role") = some .role := by decide
  have f4 : json.findField claimsFields (ascii "exp") = some .exp := by decide
  have f5 : json.findField claimsFields (ascii "nbf") = some .nbf := by decide
  have f6 : json.findField claimsFields (ascii "iat") = some .iat := by decide
  simp only [storeClaims, storeClaim, f1, f2, f3, f4, f5, f6, json.storeUint, json.storeString,
    jwt.storeNumericDate, strconv.ParseUint_FormatUint userID hid,
    numericDate_FormatInt fp exp he hre, numericDate_FormatInt fp nbf hn hrn,
    numericDate_FormatInt fp iat hi hri, Option.map_some']

/-! ### `jwt`: a signed token is parsed back -/

namespace strings

theorem Split_no_sep (sep : Byte) (s : List Byte) (h : sep ∉ s) : Split sep s = [s] := by
  induction s with
  | nil => rfl
  | cons c rest ih =>
    have hc : c ≠ sep := fun e => h (by simp [e])
    have hr : sep ∉ rest := fun e => h (by simp [e])
    simp [Split, hc, ih hr]

theorem Split_append (sep : Byte) (a rest : List Byte) (h : sep ∉ a) :
    Split sep (a ++ sep :: rest) = a :: Split sep rest := by
  induction a with
  | nil => simp [Split]
  | cons c tl ih =>
    have hc : c ≠ sep := fun e => h (by simp [e])
    have hr : sep ∉ tl := fun e => h (by simp [e])
    simp [Split, hc, ih hr]

theorem Split_three (sep : Byte) (a b c : List Byte) (ha : sep ∉ a) (hb : sep ∉ b)
    (hc : sep ∉ c) : Split sep (a ++ sep :: (b ++ sep :: c)) = [a, b, c] := by
  rw [Split_append sep a _ ha, Split_append sep b _ hb, Split_no_sep sep c hc]

end strings

namespace base64

theorem RawURL_char_ne_dot (i : Nat) : RawURLEncoding.char i ≠ 46 := by
  unfold Encoding.char
  rw [List.getD_eq_getElem?_getD]
  cases h : RawURLEncoding.encode[i]? with
  | none => simp
  | some c =>
    have hmem := List.getElem?_mem h
    intro e
    simp only [Option.getD_some] at e
    rw [e] at hmem
    exact absurd hmem (by decide)

theorem RawURL_no_dot : ∀ bs : List Byte, (46 : Byte) ∉ RawURLEncoding.EncodeToString bs
  | a :: b :: c :: rest => by
    rw [Encoding.EncodeToString]
    simp only [List.mem_cons, not_or]
    exact ⟨(RawURL_char_ne_dot _).symm, (RawURL_char_ne_dot _).symm,
      (RawURL_char_ne_dot _).symm, (RawURL_char_ne_dot _).symm, RawURL_no_dot rest⟩
  | [a, b] => by
    rw [Encoding.EncodeToString]
    have hp : RawURLEncoding.pad = [] := rfl
    simp only [hp, List.append_nil, List.mem_cons, List.not_mem_nil, or_false, not_or]
    exact ⟨(RawURL_char_ne_dot _).symm, (RawURL_char_ne_dot _).symm,
      (RawURL_char_ne_dot _).symm⟩
  | [a] => by
    rw [Encoding.EncodeToString]
    have hp : RawURLEncoding.pad = [] := rfl
    simp only [hp, List.append_nil, List.mem_cons, List.not_mem_nil, or_false, not_or]
    exact ⟨(RawURL_char_ne_dot _).symm, (RawURL_char_ne_dot _).symm⟩
  | [] => by simp [Encoding.EncodeToString]

end base64

namespace jwt

theorem DecodeSegment_EncodeSegment (seg : List Byte) :
    DecodeSegment (EncodeSegment seg) = .ok seg :=
  base64.DecodeString_EncodeToString _ base64.RawURLEncoding_wellFormed seg

theorem unmarshalMap_marshalHeader (fp : strconv.Float64) :
    json.unmarshalMap fp (marshalHeader (ascii "HS256")) =
      some [(ascii "alg", .string (ascii "HS256")), (ascii "typ", .string (ascii "JWT"))] := by
  rfl

theorem Split_SignedString (hash : HashFunc) (headerJSON claimsJSON key : List Byte) :
    strings.Split 46 (SignedString hash headerJSON claimsJSON key) =
      [EncodeSegment headerJSON, EncodeSegment claimsJSON,
        EncodeSegment (signHMAC hash (SigningString headerJSON claimsJSON) key)] := by
  have := strings.Split_three 46 (EncodeSegment headerJSON) (EncodeSegment claimsJSON)
    (EncodeSegment (signHMAC hash (SigningString headerJSON claimsJSON) key))
    (base64.RawURL_no_dot _) (base64.RawURL_no_dot _) (base64.RawURL_no_dot _)
  rw [← this]
  simp [SignedString, SigningString]

/-- A token signed by `SignedString` is parsed and verified under every key that gives
the same HMAC tag; the validator then decides on the dates alone. -/
theorem ParseWithClaims_SignedString {γ : Type} (fp : strconv.Float64) (now : Time)
    (unmarshal : List Byte → Option γ) (registered : γ → RegisteredClaims)
    (hash : HashFunc) (alg : GoString) (header : List (List Byte × json.Value))
    (headerJSON claimsJSON key key2 : List Byte) (claims : γ)
    (hh : json.unmarshalMap fp headerJSON = some header)
    (halg : json.lookupLast (ascii "alg") header = some (.string alg))
    (hm : GetSigningMethod alg = some (.HMAC hash))
    (hc : unmarshal claimsJSON = some claims)
    (keyFunc : Token γ → Except GoError (List Byte))
    (hkey : ∀ token : Token γ, token.Method = .HMAC hash → keyFunc token = .ok key2)
    (htag : hmac.Sum hash key2 (SigningString headerJSON claimsJSON) =
      hmac.Sum hash key (SigningString headerJSON claimsJSON)) :
    ∃ token : Token γ, token.Claims = claims ∧ token.Valid = true ∧
      ParseWithClaims fp now unmarshal registered
        (SignedString hash headerJSON claimsJSON key) keyFunc =
      match validateClaims now (registered claims) with
      | [] => .ok token
      | errs => .error (newError "" (ErrTokenInvalidClaims :: errs)) := by
  refine ⟨{ Raw := SignedString hash headerJSON claimsJSON key,
            Method := .HMAC hash, Header := header, Claims := claims,
            Signature := signHMAC hash (SigningString headerJSON claimsJSON) key,
            Valid := true }, rfl, rfl, ?_⟩
  have hk := hkey { Raw := SignedString hash headerJSON claimsJSON key,
                    Method := .HMAC hash, Header := header, Claims := claims,
                    Signature := [], Valid := false } rfl
  have hv : SigningMethod.Verify (.HMAC hash)
      (EncodeSegment headerJSON ++ [46] ++ EncodeSegment claimsJSON)
      (signHMAC hash (SigningString headerJSON claimsJSON) key) key2 = true := by
    simp only [SigningMethod.Verify, verifyHMAC, hmac.Equal, signHMAC, decide_eq_true_eq]
    exact htag.symm
  unfold ParseWithClaims ParseUnverified
  simp only [Split_SignedString, List.length_cons, List.length_nil, ne_eq, not_true_eq_false,
    if_false, List.getD_cons_zero, List.getD_cons_succ, DecodeSegment_EncodeSegment,
    hh, hc, halg, hm, hk, hv, Bool.not_true, Bool.false_eq_true]

end jwt
namespace time

theorem truncateSecond_mod (t : Time) : truncateSecond t % 1000000000 = 0 := by
  unfold truncateSecond
  exact Int.mul_emod_left _ _

theorem Unix_truncateSecond (t : Time) : Unix (truncateSecond t) = t / 1000000000 := by
  unfold Unix truncateSecond
  exact Int.mul_ediv_cancel _ (by decide)

theorem Unix_truncateSecond_range (t : Int) (h1 : -18446744073709551616 ≤ t)
    (h2 : t < 18446744073709551616) : (Unix (truncateSecond t)).natAbs < 2 ^ 53 := by
  rw [Unix_truncateSecond]
  have e53 : (2 : Nat) ^ 53 = 9007199254740992 := by norm_num
  rw [e53]
  omega

theorem wrapInt64_range (x : Int) : -(2 ^ 63) ≤ wrapInt64 x ∧ wrapInt64 x < 2 ^ 63 := by
  unfold wrapInt64
  have h1 : (2 : Int) ^ 63 = 9223372036854775808 := by norm_num
  have h2 : (2 : Int) ^ 64 = 18446744073709551616 := by norm_num
  rw [h1, h2]
  omega

theorem wrapInt64_id (x : Int) (h1 : -(2 ^ 63) ≤ x) (h2 : x < 2 ^ 63) : wrapInt64 x = x := by
  unfold wrapInt64
  have e1 : (2 : Int) ^ 63 = 9223372036854775808 := by norm_num
  have e2 : (2 : Int) ^ 64 = 18446744073709551616 := by norm_num
  rw [e1] at h1 h2 ⊢
  rw [e2]
  omega

end time

/-! ### `jwt.go`: issuing and validating -/

/-- The claims that `GenerateToken` signs. -/
theorem GenerateToken_eq (nowExp nowIat nowNbf : Time) (userID : Nat) (username : GoString)
    (role : RoleType) (secret : GoString) (expireHours : Int) :
    GenerateToken nowExp nowIat nowNbf userID username role secret expireHours =
      .ret (jwt.SignedString SHA256 (jwt.marshalHeader (ascii "HS256"))
        (marshalClaims
          { UserID := userID, UserName := username, Role := role,
            RegisteredClaims :=
              { ExpiresAt := some (time.truncateSecond
                  (nowExp + time.wrapInt64 (expireHours * time.Hour))),
                NotBefore := some (time.truncateSecond nowNbf),
                IssuedAt := some (time.truncateSecond nowIat) } }) secret) none := rfl

theorem keyFunc_HMAC (secret : GoString) (hash : HashFunc) (token : jwt.Token Claims)
    (h : token.Method = .HMAC hash) : ValidateToken.keyFunc secret token = .ok secret := by
  simp [ValidateToken.keyFunc, h]

/-- Validation of a token that `GenerateToken` issued, under a secret that gives the same
HMAC tag as the issuing secret: the outcome is decided by the validator on the dates. -/
theorem ValidateToken_GenerateToken (fp : strconv.Float64)
    (nowExp nowIat nowNbf now : Time) (userID : Nat) (username : GoString) (role : RoleType)
    (secret secret2 : GoString) (expireHours : Int)
    (hid : userID < 2 ^ 64) (hname : utf8.ValidString username = true)
    (hrole : utf8.ValidString role = true)
    (he1 : 0 ≤ nowExp) (he2 : nowExp < 2 ^ 63) (hi1 : 0 ≤ nowIat) (hi2 : nowIat < 2 ^ 63)
    (hn1 : 0 ≤ nowNbf) (hn2 : nowNbf < 2 ^ 63)
    (htag : ∀ msg, hmac.Sum SHA256 secret2 msg = hmac.Sum SHA256 secret msg) :
    ∃ tokenString claims,
      GenerateToken nowExp nowIat nowNbf userID username role secret expireHours =
        .ret tokenString none ∧
      claims.UserID = userID ∧ claims.UserName = username ∧ claims.Role = role ∧
      claims.RegisteredClaims.ExpiresAt =
        some (time.truncateSecond (nowExp + time.wrapInt64 (expireHours * time.Hour))) ∧
      claims.RegisteredClaims.NotBefore = some (time.truncateSecond nowNbf) ∧
      ValidateToken fp now tokenString secret2 =
        match jwt.validateClaims now claims.RegisteredClaims with
        | [] => .ret (some claims) none
        | errs => .ret none (some (jwt.newError "" (jwt.ErrTokenInvalidClaims :: errs))) := by
  have hw := time.wrapInt64_range (expireHours * time.Hour)
  have e63 : (2 : Int) ^ 63 = 9223372036854775808 := by norm_num
  unfold Time at *
  rw [e63] at he2 hi2 hn2 hw
  have hc := unmarshalClaims_marshalClaims fp userID username role
    (time.truncateSecond (nowExp + time.wrapInt64 (expireHours * time.Hour)))
    (time.truncateSecond nowNbf) (time.truncateSecond nowIat) hid hname hrole
    (time.truncateSecond_mod _) (time.truncateSecond_mod _) (time.truncateSecond_mod _)
    (time.Unix_truncateSecond_range _ (by omega) (by omega))
    (time.Unix_truncateSecond_range _ (by omega) (by omega))
    (time.Unix_truncateSecond_range _ (by omega) (by omega))
  obtain ⟨token, ht1, ht2, hp⟩ := jwt.ParseWithClaims_SignedString fp now (unmarshalClaims fp)
    (fun c => c.RegisteredClaims) SHA256 (ascii "HS256") _ (jwt.marshalHeader (ascii "HS256"))
    _ secret secret2 _ (jwt.unmarshalMap_marshalHeader fp) (by rfl) (by rfl) hc
    (ValidateToken.keyFunc secret2) (fun token h => keyFunc_HMAC secret2 SHA256 token h)
    (htag _)
  refine ⟨_,
    { UserID := userID, UserName := username, Role := role,
      RegisteredClaims :=
        { ExpiresAt := some (time.truncateSecond
            (nowExp + time.wrapInt64 (expireHours * time.Hour))),
          NotBefore := some (time.truncateSecond nowNbf),
          IssuedAt := some (time.truncateSecond nowIat) } },
    GenerateToken_eq _ _ _ _ _ _ _ _, rfl, rfl, rfl, rfl, rfl, ?_⟩
  unfold ValidateToken
  rw [hp]
  cases hv : jwt.validateClaims now
      ({ UserID := userID, UserName := username, Role := role,
         RegisteredClaims :=
          { ExpiresAt := some (time.truncateSecond
              (nowExp + time.wrapInt64 (expireHours * time.Hour))),
            NotBefore := some (time.truncateSecond nowNbf),
            IssuedAt := some (time.truncateSecond nowIat) } } : Claims).RegisteredClaims with
  | nil =>
    simp only [hv, ht2, if_true, ht1]
  | cons e es =>
    simp only [hv]

namespace hmac

/-- A key shorter than a block and the same key followed by a zero byte give the same
HMAC: the key is filled with zero bytes to the block size. -/
theorem Sum_append_zero (h : HashFunc) (key msg : List Byte) (hlen : key.length < h.blockSize) :
    Sum h (key ++ [0]) msg = Sum h key msg := by
  have hk : blockKey h (key ++ [0]) = blockKey h key := by
    have h1 : ¬ (key.length + 1 > h.blockSize) := by omega
    have h2 : ¬ (key.length > h.blockSize) := by omega
    have h3 : h.blockSize - key.length = (h.blockSize - (key.length + 1)) + 1 := by omega
    simp only [blockKey, List.length_append, List.length_singleton, h1, h2, if_false]
    rw [h3, List.replicate_succ, List.append_assoc]
    rfl
  simp only [Sum, hk]

end hmac

namespace jwt

theorem ParseUnverified_SignedString {γ : Type} (fp : strconv.Float64)
    (unmarshal : List Byte → Option γ) (hash : HashFunc) (alg : GoString)
    (header : List (List Byte × json.Value)) (headerJSON claimsJSON key : List Byte)
    (claims : γ) (m : SigningMethod)
    (hh : json.unmarshalMap fp headerJSON = some header)
    (halg : json.lookupLast (ascii "alg") header = some (.string alg))
    (hm : GetSigningMethod alg = some m)
    (hc : unmarshal claimsJSON = some claims) :
    ParseUnverified fp unmarshal (SignedString hash headerJSON claimsJSON key) =
      .ok ({ Raw := SignedString hash headerJSON claimsJSON key, Method := m,
             Header := header, Claims := claims, Signature := [], Valid := false },
           [EncodeSegment headerJSON, EncodeSegment claimsJSON,
            EncodeSegment (signHMAC hash (SigningString headerJSON claimsJSON) key)]) := by
  unfold ParseUnverified
  simp only [Split_SignedString, List.length_cons, List.length_nil, ne_eq, not_true_eq_false,
    if_false, List.getD_cons_zero, List.getD_cons_succ, DecodeSegment_EncodeSegment,
    hh, hc, halg, hm]
  try rfl

/-- A token signed by `SignedString` is rejected under every key that gives another HMAC
tag. -/
theorem ParseWithClaims_SignedString_reject {γ : Type} (fp : strconv.Float64) (now : Time)
    (unmarshal : List Byte → Option γ) (registered : γ → RegisteredClaims)
    (hash : HashFunc) (alg : GoString) (header : List (List Byte × json.Value))
    (headerJSON claimsJSON key key2 : List Byte)
    (hh : json.unmarshalMap fp headerJSON = some header)
    (halg : json.lookupLast (ascii "alg") header = some (.string alg))
    (hm : GetSigningMethod alg = some (.HMAC hash))
    (keyFunc : Token γ → Except GoError (List Byte))
    (hkey : ∀ token : Token γ, token.Method = .HMAC hash → keyFunc token = .ok key2)
    (htag : hmac.Sum hash key2 (SigningString headerJSON claimsJSON) ≠
      hmac.Sum hash key (SigningString headerJSON claimsJSON)) :
    ∃ err, ParseWithClaims fp now unmarshal registered
      (SignedString hash headerJSON claimsJSON key) keyFunc = .error err := by
  cases hc : unmarshal claimsJSON with
  | none =>
    refine ⟨newError "could not JSON decode claim" [ErrTokenMalformed], ?_⟩
    unfold ParseWithClaims ParseUnverified
    simp only [Split_SignedString, List.length_cons, List.length_nil, ne_eq, not_true_eq_false,
      if_false, List.getD_cons_zero, List.getD_cons_succ, DecodeSegment_EncodeSegment,
      hh, hc]
    try rfl
  | some claims =>
    refine ⟨newError "" [ErrTokenSignatureInvalid], ?_⟩
    have hk := hkey { Raw := SignedString hash headerJSON claimsJSON key,
                      Method := .HMAC hash, Header := header, Claims := claims,
                      Signature := [], Valid := false } rfl
    have hv : SigningMethod.Verify (.HMAC hash)
        (EncodeSegment headerJSON ++ [46] ++ EncodeSegment claimsJSON)
        (signHMAC hash (SigningString headerJSON claimsJSON) key) key2 = false := by
      simp only [SigningMethod.Verify, verifyHMAC, hmac.Equal, signHMAC, decide_eq_false_iff_not]
      exact fun h => htag h.symm
    unfold ParseWithClaims
    rw [ParseUnverified_SignedString fp unmarshal hash alg header headerJSON claimsJSON key
      claims _ hh halg hm hc]
    simp only [List.getD_cons_zero, List.getD_cons_succ, DecodeSegment_EncodeSegment, hk, hv,
      Bool.not_false, if_true]
    try rfl

end jwt
/-- C8 (amended): for every user id of the `uint` range, every username and role that are
valid UTF-8, every secret and every `expireHours` from 1 to 2562047 (the hours an `int64`
count of nanoseconds can hold), with clock readings that do not go backwards from the
three of `GenerateToken` to the one of the validator, lie in the years an `int64` count of
nanoseconds since 1970 can hold, and of which the last is less than 3599 seconds after the
first: `GenerateToken` returns a token and a nil error, and `ValidateToken` on that token
with the same secret returns a nil error and claims whose `UserID`, `UserName` and `Role`
are the ones given and whose expires-at is later than the reading of the validator. -/
theorem ValidateToken_GenerateToken_round_trip (fp : strconv.Float64)
    (nowExp nowIat nowNbf now : Time) (userID : Nat) (username : GoString) (role : RoleType)
    (secret : GoString) (expireHours : Int)
    (hid : userID < 2 ^ 64) (hname : utf8.ValidString username = true)
    (hrole : utf8.ValidString role = true)
    (hh1 : 1 ≤ expireHours) (hh2 : expireHours ≤ 2562047)
    (h0 : 0 ≤ nowExp) (h1 : nowExp ≤ nowIat) (h2 : nowIat ≤ nowNbf) (h3 : nowNbf ≤ now)
    (h4 : now < nowExp + 3599 * time.Second) (h5 : now < 2 ^ 63) :
    ∃ tokenString claims,
      GenerateToken nowExp nowIat nowNbf userID username role secret expireHours =
        .ret tokenString none ∧
      ValidateToken fp now tokenString secret = .ret (some claims) none ∧
      claims.UserID = userID ∧ claims.UserName = username ∧ claims.Role = role ∧
      ∃ exp, claims.RegisteredClaims.ExpiresAt = some exp ∧ now < exp := by
  have e63 : (2 : Int) ^ 63 = 9223372036854775808 := by norm_num
  have hw : time.wrapInt64 (expireHours * time.Hour) = expireHours * time.Hour := by
    apply time.wrapInt64_id
    · rw [e63]; unfold time.Hour time.Duration; omega
    · rw [e63]; unfold time.Hour time.Duration; omega
  unfold Time time.Second time.Duration at *
  rw [e63] at h5
  obtain ⟨tokenString, claims, hg, hu, hn, hr, hexp, hnbf, hv⟩ :=
    ValidateToken_GenerateToken fp nowExp nowIat nowNbf now userID username role secret secret
      expireHours hid hname hrole h0 (show (nowExp : Int) < 2 ^ 63 by rw [e63]; omega)
      (show (0 : Int) ≤ nowIat by omega) (show (nowIat : Int) < 2 ^ 63 by rw [e63]; omega)
      (show (0 : Int) ≤ nowNbf by omega) (show (nowNbf : Int) < 2 ^ 63 by rw [e63]; omega)
      (fun _ => rfl)
  have hlt : now < time.truncateSecond (nowExp + time.wrapInt64 (expireHours * time.Hour)) := by
    rw [hw]
    show (now : Int) < (nowExp + expireHours * 3600000000000) / 1000000000 * 1000000000
    omega
  have hle : time.truncateSecond nowNbf ≤ now := by
    show (nowNbf : Int) / 1000000000 * 1000000000 ≤ now
    omega
  have hvc : jwt.validateClaims now claims.RegisteredClaims = [] := by
    simp only [jwt.validateClaims, hexp, hnbf, time.Before, decide_eq_true_eq, hlt, if_true,
      Bool.not_eq_true', decide_eq_false_iff_not, not_lt, hle, List.append_nil]
  rw [hvc] at hv
  exact ⟨tokenString, claims, hg, hv, hu, hn, hr, _, hexp, hlt⟩

/-- C8 (amended), at the inputs of `TestValidateToken_Success` with the four clock readings
one nanosecond apart. -/
theorem ValidateToken_GenerateToken_round_trip_witness :
    ∃ tokenString claims,
      GenerateToken sample.t0 (sample.t0 + 1) (sample.t0 + 2) 1 (ascii "testuser") RoleUser
        sample.secret 24 = .ret tokenString none ∧
      ValidateToken sample.noFloat (sample.t0 + 3) tokenString sample.secret =
        .ret (some claims) none ∧
      claims.UserID = 1 ∧ claims.UserName = ascii "testuser" ∧ claims.Role = RoleUser ∧
      ∃ exp, claims.RegisteredClaims.ExpiresAt = some exp ∧ sample.t0 + 3 < exp :=
  ValidateToken_GenerateToken_round_trip sample.noFloat sample.t0 (sample.t0 + 1)
    (sample.t0 + 2) (sample.t0 + 3) 1 (ascii "testuser") RoleUser sample.secret 24
    (by decide) (by decide) (by decide) (by decide) (by decide) (by decide) (by decide)
    (by decide) (by decide) (by decide) (by decide)

/-- C8 as stated fails on two inputs. With `expireHours = 2562048` the product
`time.Duration(expireHours) * time.Hour` wraps around in `int64`, the expiry lies before
the time of issue, and validation at the very reading of the clock used for issuing
returns the token-expired error. With the one-byte username `0xff`, which is not UTF-8,
validation succeeds but the claims carry the username U+FFFD (`0xef 0xbf 0xbd`), which
`json.Marshal` wrote in its place. -/
theorem ValidateToken_GenerateToken_counterexample :
    (1 ≤ (2562048 : Int) ∧
      ∃ tokenString err,
        GenerateToken sample.t0 sample.t0 sample.t0 1 (ascii "testuser") RoleUser sample.secret
          2562048 = .ret tokenString none ∧
        ValidateToken sample.noFloat sample.t0 tokenString sample.secret =
          .ret none (some err) ∧
        errors.Is err jwt.ErrTokenExpired = true) ∧
    (∃ tokenString claims,
        GenerateToken sample.t0 sample.t0 sample.t0 1 [255] RoleUser sample.secret 24 =
          .ret tokenString none ∧
        ValidateToken sample.noFloat sample.t0 tokenString sample.secret =
          .ret (some claims) none ∧
        claims.UserName = [239, 191, 189] ∧ claims.UserName ≠ [255]) := by
  refine ⟨⟨by decide, ?_⟩, ?_⟩
  · obtain ⟨tokenString, claims, hg, _, _, _, hexp, hnbf, hv⟩ :=
      ValidateToken_GenerateToken sample.noFloat sample.t0 sample.t0 sample.t0 sample.t0 1
        (ascii "testuser") RoleUser sample.secret sample.secret 2562048
        (by decide) (by decide) (by decide) (by decide) (by decide) (by decide) (by decide)
        (by decide) (by decide) (fun _ => rfl)
    have hvc : jwt.validateClaims sample.t0 claims.RegisteredClaims = [jwt.ErrTokenExpired] := by
      simp only [jwt.validateClaims, hexp, hnbf]
      decide
    rw [hvc] at hv
    exact ⟨tokenString, _, hg, hv, by decide⟩
  · exact ⟨_,
      { UserID := 1, UserName := [239, 191, 189], Role := RoleUser,
        RegisteredClaims :=
          { ExpiresAt := some 1700086400000000000, NotBefore := some 1700000000000000000,
            IssuedAt := some 1700000000000000000 } },
      rfl, by decide, rfl, by decide⟩

/-- C9 (amended): for every token produced by `GenerateToken` with secret `s1` and every
secret `s2` with which `GenerateToken`, on the same arguments and clock readings, produces
another token (its HMAC-SHA256 signature of the same header and claims differs),
`ValidateToken` on the token with `s2` returns an error and no claims. -/
theorem ValidateToken_other_secret (fp : strconv.Float64) (nowExp nowIat nowNbf now : Time)
    (userID : Nat) (username : GoString) (role : RoleType) (s1 s2 : GoString)
    (expireHours : Int) (tokenString : GoString)
    (hgen : GenerateToken nowExp nowIat nowNbf userID username role s1 expireHours =
      .ret tokenString none)
    (hne : GenerateToken nowExp nowIat nowNbf userID username role s2 expireHours ≠
      GenerateToken nowExp nowIat nowNbf userID username role s1 expireHours) :
    ∃ err, ValidateToken fp now tokenString s2 = .ret none (some err) := by
  rw [GenerateToken_eq] at hgen
  rw [GenerateToken_eq, GenerateToken_eq] at hne
  injection hgen with hgen _
  subst hgen
  have htag : hmac.Sum SHA256 s2 (jwt.SigningString (jwt.marshalHeader (ascii "HS256"))
      (marshalClaims
        { UserID := userID, UserName := username, Role := role,
          RegisteredClaims :=
            { ExpiresAt := some (time.truncateSecond
                (nowExp + time.wrapInt64 (expireHours * time.Hour))),
              NotBefore := some (time.truncateSecond nowNbf),
              IssuedAt := some (time.truncateSecond nowIat) } })) ≠
      hmac.Sum SHA256 s1 (jwt.SigningString (jwt.marshalHeader (ascii "HS256"))
      (marshalClaims
        { UserID := userID, UserName := username, Role := role,
          RegisteredClaims :=
            { ExpiresAt := some (time.truncateSecond
                (nowExp + time.wrapInt64 (expireHours * time.Hour))),
              NotBefore := some (time.truncateSecond nowNbf),
              IssuedAt := some (time.truncateSecond nowIat) } })) := by
    intro h
    apply hne
    simp only [jwt.SignedString, jwt.signHMAC, h]
  obtain ⟨err, he⟩ := jwt.ParseWithClaims_SignedString_reject fp now (unmarshalClaims fp)
    (fun c => c.RegisteredClaims) SHA256 (ascii "HS256") _ (jwt.marshalHeader (ascii "HS256"))
    _ s1 s2 (jwt.unmarshalMap_marshalHeader fp) (by rfl) (by rfl)
    (ValidateToken.keyFunc s2) (fun token h => keyFunc_HMAC s2 SHA256 token h) htag
  refine ⟨err, ?_⟩
  unfold ValidateToken
  rw [he]

/-- C9 (amended), at the inputs of `TestValidateToken_InvalidSignature`: a token issued
with `test_secret_key` and validated with `wrong_secret_key`. -/
theorem ValidateToken_other_secret_witness :
    ∃ err, ValidateToken sample.noFloat sample.t0
      (sample.tokenOf (GenerateToken sample.t0 sample.t0 sample.t0 1 (ascii "testuser")
        RoleUser sample.secret 24)) (ascii "wrong_secret_key") = .ret none (some err) :=
  ValidateToken_other_secret sample.noFloat sample.t0 sample.t0 sample.t0 sample.t0 1
    (ascii "testuser") RoleUser sample.secret (ascii "wrong_secret_key") 24 _ rfl (by decide)

/-- C9 as stated fails: the secret `test_secret_key` followed by a zero byte is another
secret, and `ValidateToken` with it accepts a token that `GenerateToken` issued with
`test_secret_key`, returning claims and a nil error (HMAC fills a key shorter than a
block with zero bytes, so the two are the same key). -/
theorem ValidateToken_other_secret_counterexample :
    sample.secret ++ [0] ≠ sample.secret ∧
    ∃ tokenString claims,
      GenerateToken sample.t0 sample.t0 sample.t0 1 (ascii "testuser") RoleUser sample.secret
        24 = .ret tokenString none ∧
      ValidateToken sample.noFloat sample.t0 tokenString (sample.secret ++ [0]) =
        .ret (some claims) none := by
  refine ⟨by decide, ?_⟩
  obtain ⟨tokenString, claims, hg, _, _, _, hexp, hnbf, hv⟩ :=
    ValidateToken_GenerateToken sample.noFloat sample.t0 sample.t0 sample.t0 sample.t0 1
      (ascii "testuser") RoleUser sample.secret (sample.secret ++ [0]) 24
      (by decide) (by decide) (by decide) (by decide) (by decide) (by decide) (by decide)
      (by decide) (by decide) (fun msg => hmac.Sum_append_zero SHA256 sample.secret msg (by decide))
  have hvc : jwt.validateClaims sample.t0 claims.RegisteredClaims = [] := by
    simp only [jwt.validateClaims, hexp, hnbf]
    decide
  rw [hvc] at hv
  exact ⟨tokenString, claims, hg, hv⟩

/-- C10: for every token string that parses to a token with an HMAC method, whose
signature segment is the HMAC of its first two segments under the secret (it is correctly
signed with the secret), and whose expires-at claim is earlier than the reading of the
clock by the validator, `ValidateToken` returns no claims and an error that
`errors.Is(err, jwt.ErrTokenExpired)` recognises. -/
theorem ValidateToken_expired (fp : strconv.Float64) (now : Time)
    (tokenString secret : GoString) (token : jwt.Token Claims) (parts : List (List Byte))
    (hash : HashFunc) (sig : List Byte) (exp : Time)
    (hparse : jwt.ParseUnverified fp (unmarshalClaims fp) tokenString = .ok (token, parts))
    (hmethod : token.Method = .HMAC hash)
    (hsig : jwt.DecodeSegment (parts.getD 2 []) = .ok sig)
    (hverify : jwt.verifyHMAC hash (parts.getD 0 [] ++ [46] ++ parts.getD 1 []) sig secret =
      true)
    (hexp : token.Claims.RegisteredClaims.ExpiresAt = some exp) (hlt : exp < now) :
    ∃ err, ValidateToken fp now tokenString secret = .ret none (some err) ∧
      errors.Is err jwt.ErrTokenExpired = true := by
  have hk : ValidateToken.keyFunc secret token = .ok secret := keyFunc_HMAC secret hash token hmethod
  have hv : token.Method.Verify (parts.getD 0 [] ++ [46] ++ parts.getD 1 []) sig secret =
      true := by
    rw [hmethod]
    exact hverify
  have hb : time.Before now exp = false := by
    simp only [time.Before, decide_eq_false_iff_not, not_lt]
    exact le_of_lt hlt
  obtain ⟨rest, hvc⟩ : ∃ rest, jwt.validateClaims now token.Claims.RegisteredClaims =
      jwt.ErrTokenExpired :: rest := by
    simp only [jwt.validateClaims, hexp, hb, Bool.false_eq_true, if_false]
    exact ⟨_, rfl⟩
  refine ⟨jwt.newError "" (jwt.ErrTokenInvalidClaims :: jwt.ErrTokenExpired :: rest), ?_, ?_⟩
  · unfold ValidateToken jwt.ParseWithClaims
    simp only [hparse, hsig, hk, hv, Bool.not_true, Bool.false_eq_true, if_false, hvc]
  · simp [errors.Is, jwt.newError, jwt.ErrTokenExpired, errors.New]

/-- C10, at the token of `TestValidateToken_Expired`: expiry one hour before the reading
of the clock. -/
theorem ValidateToken_expired_witness :
    ∃ err, ValidateToken sample.noFloat sample.t0 sample.expiredToken sample.secret =
        .ret none (some err) ∧
      errors.Is err jwt.ErrTokenExpired = true :=
  ValidateToken_expired sample.noFloat sample.t0 sample.expiredToken sample.secret _ _ SHA256
    _ (time.truncateSecond (time.Add sample.t0 (-1 * time.Hour)))
    (jwt.ParseUnverified_SignedString sample.noFloat (unmarshalClaims sample.noFloat) SHA256
      (ascii "HS256") _ (jwt.marshalHeader (ascii "HS256")) (marshalClaims sample.expiredClaims)
      sample.secret sample.expiredClaims (.HMAC SHA256)
      (jwt.unmarshalMap_marshalHeader sample.noFloat) rfl rfl
      (unmarshalClaims_marshalClaims sample.noFloat 1 (ascii "testuser") RoleUser _ _ _
        (by decide) (by decide) (by decide) (by decide) (by decide) (by decide) (by decide)
        (by decide) (by decide)))
    rfl (jwt.DecodeSegment_EncodeSegment _)
    (by simp only [List.getD_cons_zero, List.getD_cons_succ, jwt.verifyHMAC, jwt.signHMAC,
      jwt.SigningString, hmac.Equal, decide_True])
    rfl (by decide)

/-! ### What the parser has checked when it accepts -/

namespace jwt

theorem GetSigningMethod_HMAC (alg : GoString) (hash : HashFunc)
    (h : GetSigningMethod alg = some (.HMAC hash)) :
    alg = ascii "HS256" ∨ alg = ascii "HS384" ∨ alg = ascii "HS512" := by
  unfold GetSigningMethod at h
  split_ifs at h with h1 h2 h3
  · exact Or.inl h1
  · exact Or.inr (Or.inl h2)
  · exact Or.inr (Or.inr h3)
  all_goals simp at h

/-- A token string that `ParseUnverified` accepts has three segments, of which the first
two decode to a JSON object and to the claims, and its header names a registered
method. -/
theorem ParseUnverified_ok {γ : Type} (fp : strconv.Float64)
    (unmarshal : List Byte → Option γ) (tokenString : GoString) (token : Token γ)
    (parts : List (List Byte))
    (h : ParseUnverified fp unmarshal tokenString = .ok (token, parts)) :
    parts = strings.Split 46 tokenString ∧ parts.length = 3 ∧
    ∃ headerBytes header claimBytes alg,
      DecodeSegment (parts.getD 0 []) = .ok headerBytes ∧
      json.unmarshalMap fp headerBytes = some header ∧
      DecodeSegment (parts.getD 1 []) = .ok claimBytes ∧
      unmarshal claimBytes = some token.Claims ∧
      json.lookupLast (ascii "alg") header = some (.string alg) ∧
      GetSigningMethod alg = some token.Method := by
  unfold ParseUnverified at h
  simp only at h
  split at h
  · simp at h
  · rename_i hlen
    split at h
    · simp at h
    · rename_i headerBytes hhb
      split at h
      · simp at h
      · rename_i header hh
        split at h
        · simp at h
        · rename_i claimBytes hcb
          split at h
          · simp at h
          · rename_i claims hc
            split at h
            · rename_i method halg
              split at h
              · simp at h
              · rename_i m hm
                simp only [Except.ok.injEq, Prod.mk.injEq] at h
                obtain ⟨ht, hp⟩ := h
                subst ht
                subst hp
                exact ⟨rfl, by simpa using hlen, headerBytes, header, claimBytes, method,
                  hhb, hh, hcb, hc, halg, hm⟩
            · simp at h

/-- A token string that `ParseWithClaims` accepts has passed `ParseUnverified`, its third
segment decodes, the key function gave a key, and the method verified the signature
under that key. -/
theorem ParseWithClaims_ok {γ : Type} (fp : strconv.Float64) (now : Time)
    (unmarshal : List Byte → Option γ) (registered : γ → RegisteredClaims)
    (tokenString : GoString) (keyFunc : Token γ → Except GoError (List Byte))
    (result : Token γ)
    (h : ParseWithClaims fp now unmarshal registered tokenString keyFunc = .ok result) :
    ∃ token parts sig key,
      ParseUnverified fp unmarshal tokenString = .ok (token, parts) ∧
      DecodeSegment (parts.getD 2 []) = .ok sig ∧
      keyFunc token = .ok key ∧
      token.Method.Verify (parts.getD 0 [] ++ [46] ++ parts.getD 1 []) sig key = true ∧
      validateClaims now (registered token.Claims) = [] ∧
      result = { token with Signature := sig, Valid := true } := by
  unfold ParseWithClaims at h
  split at h
  · simp at h
  · rename_i token parts hp
    split at h
    · simp at h
    · rename_i sig hs
      split at h
      · simp at h
      · rename_i key hk
        split at h
        · simp at h
        · rename_i hv
          split at h
          · rename_i hvc
            simp only [Except.ok.injEq] at h
            exact ⟨token, parts, sig, key, hp, hs, hk, by simpa using hv, hvc, h.symm⟩
          · simp at h

end jwt

theorem keyFunc_ok (secret : GoString) (token : jwt.Token Claims) (key : List Byte)
    (h : ValidateToken.keyFunc secret token = .ok key) :
    ∃ hash, token.Method = .HMAC hash := by
  unfold ValidateToken.keyFunc at h
  split at h
  · rename_i hash hm
    exact ⟨hash, hm⟩
  · simp at h

/-- When `ValidateToken` returns claims, the parser has accepted the token string. -/
theorem ValidateToken_ok (fp : strconv.Float64) (now : Time) (tokenString secret : GoString)
    (claims : Claims) (err : Option GoError)
    (h : ValidateToken fp now tokenString secret = .ret (some claims) err) :
    ∃ result, jwt.ParseWithClaims fp now (unmarshalClaims fp) (fun c => c.RegisteredClaims)
      tokenString (ValidateToken.keyFunc secret) = .ok result := by
  unfold ValidateToken at h
  split at h
  · simp at h
  · rename_i token ht
    exact ⟨token, ht⟩

/-- C11: for every token string whose header segment decodes to a JSON object that
declares, under `alg`, a name other than `HS256`, `HS384` and `HS512` (the HMAC family),
whatever its other segments are, and for every secret, `ValidateToken` returns an error
and no claims. -/
theorem ValidateToken_rejects_non_HMAC (fp : strconv.Float64) (now : Time)
    (tokenString secret : GoString) (headerBytes : List Byte)
    (header : List (List Byte × json.Value)) (alg : GoString)
    (hseg : jwt.DecodeSegment ((strings.Split 46 tokenString).getD 0 []) = .ok headerBytes)
    (hjson : json.unmarshalMap fp headerBytes = some header)
    (halg : json.lookupLast (ascii "alg") header = some (.string alg))
    (hfam : alg ≠ ascii "HS256" ∧ alg ≠ ascii "HS384" ∧ alg ≠ ascii "HS512") :
    ∃ err, ValidateToken fp now tokenString secret = .ret none (some err) := by
  rcases ValidateToken_cases fp now tokenString secret with ⟨claims, hc⟩ | herr
  · exfalso
    obtain ⟨result, hr⟩ := ValidateToken_ok fp now tokenString secret claims none hc
    obtain ⟨token, parts, sig, key, hp, _, hk, _, _, _⟩ :=
      jwt.ParseWithClaims_ok fp now _ _ tokenString _ result hr
    obtain ⟨hparts, _, hb2, header2, _, alg2, h1, h2, _, _, h3, h4⟩ :=
      jwt.ParseUnverified_ok fp _ tokenString token parts hp
    obtain ⟨hash, hm⟩ := keyFunc_ok secret token key hk
    rw [hparts, hseg] at h1
    injection h1 with h1
    subst h1
    rw [hjson] at h2
    injection h2 with h2
    subst h2
    rw [halg] at h3
    injection h3 with h3
    injection h3 with h3
    subst h3
    rw [hm] at h4
    rcases jwt.GetSigningMethod_HMAC alg hash h4 with h | h | h
    · exact hfam.1 h
    · exact hfam.2.1 h
    · exact hfam.2.2 h
  · exact herr

/-- C11, at two tokens: one whose header declares `none`, with an empty signature, and one
whose header declares `RS256`, signed with HMAC-SHA256 under the secret of the
validator. -/
theorem ValidateToken_rejects_non_HMAC_witness :
    (∃ err, ValidateToken sample.noFloat sample.t0 sample.noneToken sample.secret =
      .ret none (some err)) ∧
    (∃ err, ValidateToken sample.noFloat sample.t0 sample.rs256Token sample.secret =
      .ret none (some err)) :=
  ⟨ValidateToken_rejects_non_HMAC sample.noFloat sample.t0 sample.noneToken sample.secret
      (jwt.marshalHeader (ascii "none"))
      [(ascii "alg", .string (ascii "none")), (ascii "typ", .string (ascii "JWT"))]
      (ascii "none") (by rfl) (by rfl) (by rfl) (by decide),
   ValidateToken_rejects_non_HMAC sample.noFloat sample.t0 sample.rs256Token sample.secret
      (jwt.marshalHeader (ascii "RS256"))
      [(ascii "alg", .string (ascii "RS256")), (ascii "typ", .string (ascii "JWT"))]
      (ascii "RS256")
      (by rw [sample.rs256Token, jwt.Split_SignedString]
          exact jwt.DecodeSegment_EncodeSegment _)
      (by rfl) (by rfl) (by decide)⟩
/-! ### The permission catalog on unrecognised roles, and `HasAllPermissions` -/

/-- C12: for every role string other than `administrator`, `manager`, `operator` and
`user`, `GetRolePermissions` returns the empty list and `HasPermission(role, p)` is false
for every permission `p`. (Both are total functions of the role string: they have no
error result and no statement that can panic.) -/
theorem GetRolePermissions_unknown_role (role : RoleType)
    (h1 : role ≠ ascii "administrator") (h2 : role ≠ ascii "manager")
    (h3 : role ≠ ascii "operator") (h4 : role ≠ ascii "user") :
    GetRolePermissions role = [] ∧ ∀ p : GoString, HasPermission role p = false := by
  have h : GetRolePermissions role = [] := by
    have h1' : role ≠ RoleAdministrator := h1
    have h2' : role ≠ RoleManager := h2
    have h3' : role ≠ RoleOperator := h3
    have h4' : role ≠ RoleUser := h4
    unfold GetRolePermissions
    rw [if_neg h1', if_neg h2', if_neg h3', if_neg h4']
  refine ⟨h, fun p => ?_⟩
  unfold HasPermission
  rw [h]
  rfl

/-- C12, at the role `invalid` of `TestGetRolePermissions_InvalidRole` and the permission
`user:view`. -/
theorem GetRolePermissions_unknown_role_witness :
    GetRolePermissions (ascii "invalid") = [] ∧
    HasPermission (ascii "invalid") (ascii "user:view") = false :=
  ⟨(GetRolePermissions_unknown_role (ascii "invalid") (by decide) (by decide) (by decide)
      (by decide)).1,
   (GetRolePermissions_unknown_role (ascii "invalid") (by decide) (by decide) (by decide)
      (by decide)).2 (ascii "user:view")⟩

/-- C13: `HasAllPermissions(role, ps...)` is true exactly when every element of `ps` is
among `GetRolePermissions(role)`. With no required permission it is true for every role
string; it is false for the manager with `(map:manage, user:manage)` and for the plain user
with `(user:view, user:manage)`. -/
theorem HasAllPermissions_spec :
    (∀ (role : RoleType) (ps : List GoString),
      HasAllPermissions role ps = true ↔ ∀ p ∈ ps, p ∈ GetRolePermissions role) ∧
    (∀ role : RoleType, HasAllPermissions role [] = true) ∧
    HasAllPermissions (ascii "manager") [ascii "map:manage", ascii "user:manage"] = false ∧
    HasAllPermissions (ascii "user") [ascii "user:view", ascii "user:manage"] = false := by
  refine ⟨HasAllPermissions_iff, fun _ => rfl, by decide, by decide⟩

/-! ### `crypto.go`: the failures of the codec -/

/-- C14: for every key whose length is not 8 bytes, `DESEncrypt` returns the empty string
and the error `DES key must be 8 bytes` for every plaintext, and `DESDecrypt` returns the
same for every ciphertext, well-formed or not. -/
theorem DES_invalid_key_length (key : GoString) (h : key.length ≠ 8) :
    (∀ plaintext : GoString,
      DESEncrypt plaintext key = .ret [] (some (errors.New "DES key must be 8 bytes"))) ∧
    (∀ ciphertext : GoString,
      DESDecrypt ciphertext key = .ret [] (some (errors.New "DES key must be 8 bytes"))) := by
  constructor
  · intro plaintext
    unfold DESEncrypt
    simp only [h, ne_eq, not_false_eq_true, if_true]
  · intro ciphertext
    unfold DESDecrypt
    simp only [h, ne_eq, not_false_eq_true, if_true]

/-- C14, at the keys of the tests: the empty key, the 5-byte key `short` and the 13-byte
key `toolongkey123`, with the plaintext `test`, the malformed ciphertext `someciphertext`
and a well-formed ciphertext. -/
theorem DES_invalid_key_length_witness :
    DESEncrypt (ascii "test") [] = .ret [] (some (errors.New "DES key must be 8 bytes")) ∧
    DESEncrypt (ascii "test") (ascii "short") =
      .ret [] (some (errors.New "DES key must be 8 bytes")) ∧
    DESEncrypt (ascii "test") (ascii "toolongkey123") =
      .ret [] (some (errors.New "DES key must be 8 bytes")) ∧
    DESDecrypt (ascii "someciphertext") (ascii "short") =
      .ret [] (some (errors.New "DES key must be 8 bytes")) ∧
    DESDecrypt (ascii "i+HcQZu6RPo=") (ascii "toolongkey123") =
      .ret [] (some (errors.New "DES key must be 8 bytes")) :=
  ⟨(DES_invalid_key_length [] (by decide)).1 _,
   (DES_invalid_key_length (ascii "short") (by decide)).1 _,
   (DES_invalid_key_length (ascii "toolongkey123") (by decide)).1 _,
   (DES_invalid_key_length (ascii "short") (by decide)).2 _,
   (DES_invalid_key_length (ascii "toolongkey123") (by decide)).2 _⟩

namespace base64

/-- The decoder fails only with `CorruptInputError`; it has no panic. -/
theorem decodeLoop_error (enc : Encoding) (src : List Byte) (dbuf : List Nat)
    (out : List Byte) (f : Failure) (h : enc.decodeLoop src dbuf out = .error f) :
    f = .error corruptInputError := by
  induction src generalizing dbuf out with
  | nil =>
    unfold Encoding.decodeLoop at h
    split_ifs at h
    · injection h with h
      exact h.symm
  | cons c rest ih =>
    unfold Encoding.decodeLoop at h
    split at h
    · split_ifs at h
      · exact ih _ _ h
      · exact ih _ _ h
    · split_ifs at h
      · exact ih _ _ h
      · injection h with h
        exact h.symm
      · injection h with h
        exact h.symm

theorem DecodeString_error (enc : Encoding) (s : List Byte) (f : Failure)
    (h : enc.DecodeString s = .error f) : f = .error corruptInputError :=
  decodeLoop_error enc s [] [] f h

end base64

/-- C18: for every 8-byte key and every ciphertext string that `base64.StdEncoding` does
not decode, `DESDecrypt` returns the empty string and an error (the `CorruptInputError`
of the decoder). -/
theorem DESDecrypt_invalid_base64 (ciphertext key : GoString) (hkey : key.length = 8)
    (hb : ¬ ∃ bytes, base64.StdEncoding.DecodeString ciphertext = .ok bytes) :
    ∃ err, DESDecrypt ciphertext key = .ret [] (some err) := by
  cases hd : base64.StdEncoding.DecodeString ciphertext with
  | ok bytes => exact absurd ⟨bytes, hd⟩ hb
  | error f =>
    have hf := base64.DecodeString_error _ _ f hd
    subst hf
    refine ⟨base64.corruptInputError, ?_⟩
    unfold DESDecrypt
    simp only [hkey, ne_eq, not_true_eq_false, if_false, hd]
    rfl

/-- C18, at the key `12345678` and the ciphertext `not-valid-base64!` of
`TestDESDecrypt_InvalidBase64`. -/
theorem DESDecrypt_invalid_base64_witness :
    ∃ err, DESDecrypt (ascii "not-valid-base64!") (ascii "12345678") = .ret [] (some err) :=
  DESDecrypt_invalid_base64 (ascii "not-valid-base64!") (ascii "12345678") (by decide)
    (by
      rintro ⟨bytes, h⟩
      have e : base64.StdEncoding.DecodeString (ascii "not-valid-base64!") =
          .error (.error base64.corruptInputError) := by rfl
      rw [e] at h
      cases h)

/-- C19 (amended): for every 8-byte key and every ciphertext that `base64.StdEncoding`
decodes and the CBC decrypter takes (whole blocks), when the decrypted buffer ends in a
byte whose value exceeds the length of the buffer, `DESDecrypt` returns the whole
decrypted buffer, unchanged, and a nil error. -/
theorem DESDecrypt_padding_exceeds_length (ciphertext key : GoString)
    (ciphertextBytes : List Byte) (block : des.Cipher) (mode : cipher.cbc)
    (plaintext : List Byte) (hkey : key.length = 8)
    (hb : base64.StdEncoding.DecodeString ciphertext = .ok ciphertextBytes)
    (hc : des.NewCipher key = .ok block)
    (hm : cipher.NewCBCDecrypter block key = .ok mode)
    (hd : mode.DecryptBlocks ciphertextBytes = .ok plaintext)
    (hlast : (plaintext.getD (plaintext.length - 1) 0).val > plaintext.length) :
    DESDecrypt ciphertext key = .ret plaintext none := by
  have hu : pkcs5UnPadding plaintext = plaintext := by
    unfold pkcs5UnPadding
    simp only [hlast, if_true, ite_self]
  unfold DESDecrypt
  simp only [hkey, ne_eq, not_true_eq_false, if_false, hb, hc, hm, hd, hu]

/-- C19 (amended), at the key `12345678` and the ciphertext `i+HcQZu6RPo=`, one block that
decrypts to the bytes 1, 2, 3, 4, 5, 6, 7, 200. -/
theorem DESDecrypt_padding_exceeds_length_witness :
    DESDecrypt (ascii "i+HcQZu6RPo=") (ascii "12345678") =
      .ret [1, 2, 3, 4, 5, 6, 7, 200] none :=
  DESDecrypt_padding_exceeds_length (ascii "i+HcQZu6RPo=") (ascii "12345678")
    [139, 225, 220, 65, 155, 186, 68, 250]
    { subkeys := des.generateSubkeys (des.bytesBits (ascii "12345678")) }
    { b := { subkeys := des.generateSubkeys (des.bytesBits (ascii "12345678")) },
      blockSize := 8, iv := ascii "12345678" }
    [1, 2, 3, 4, 5, 6, 7, 200] (by decide) (by rfl) (by rfl) (by rfl) (by rfl) (by decide)

/-- C19 as stated fails: with the key `12345678`, the ciphertext `i+HcQZu6RPo=` is valid
base64 of one block, its decrypted buffer has 8 bytes and ends in the byte 200, which
exceeds 8, and `DESDecrypt` returns that buffer with a nil error, not a decryption
error. -/
theorem DESDecrypt_padding_exceeds_length_counterexample :
    (ascii "12345678").length = 8 ∧
    base64.StdEncoding.DecodeString (ascii "i+HcQZu6RPo=") =
      .ok [139, 225, 220, 65, 155, 186, 68, 250] ∧
    DESDecrypt (ascii "i+HcQZu6RPo=") (ascii "12345678") =
      .ret [1, 2, 3, 4, 5, 6, 7, 200] none ∧
    ([1, 2, 3, 4, 5, 6, 7, 200] : List Byte).length < (200 : Byte).val := by
  refine ⟨by decide, by rfl, by decide, by decide⟩
/-! ### `service/user.go`: pagination and login -/

theorem wrapInt_id (x : Int) (h1 : -9223372036854775808 ≤ x) (h2 : x < 9223372036854775808) :
    wrapInt x = x := by
  unfold wrapInt time.wrapInt64
  have e1 : (2 : Int) ^ 63 = 9223372036854775808 := by norm_num
  have e2 : (2 : Int) ^ 64 = 18446744073709551616 := by norm_num
  rw [e1, e2]
  omega

theorem wrapInt_sub_one (x : Int) : wrapInt (wrapInt x - 1) = wrapInt (x - 1) := by
  unfold wrapInt time.wrapInt64
  have e1 : (2 : Int) ^ 63 = 9223372036854775808 := by norm_num
  have e2 : (2 : Int) ^ 64 = 18446744073709551616 := by norm_num
  rw [e1, e2]
  omega

namespace service

/-- The page request after the two defaults of `ListUsers`. -/
theorem ListUsers_eq (s : UserService) (req : dto.PageRequest) (page pageSize : Int)
    (hp : page = if req.Page ≤ 0 then 1 else req.Page)
    (hs : pageSize = if req.PageSize ≤ 0 then 10 else req.PageSize) :
    s.ListUsers req =
      match s.userDAO.FindPage (wrapInt (wrapInt (page - 1) * pageSize)) pageSize with
      | (_, _, some err) =>
        ([Call.FindPage (wrapInt (wrapInt (page - 1) * pageSize)) pageSize],
          .ret none (some err))
      | (users, total, none) =>
        match pagesOf total pageSize with
        | .error f =>
          ([Call.FindPage (wrapInt (wrapInt (page - 1) * pageSize)) pageSize], failWith none f)
        | .ok pages =>
          ([Call.FindPage (wrapInt (wrapInt (page - 1) * pageSize)) pageSize],
            .ret (some (dto.NewUserListResponseFromEntities users
              { Total := total, Page := page, PageSize := pageSize, Pages := pages })) none) := by
  subst hp
  subst hs
  unfold UserService.ListUsers
  by_cases h1 : req.Page ≤ 0 <;> by_cases h2 : req.PageSize ≤ 0 <;>
    simp only [h1, h2, if_true, if_false]

theorem ListUsers_calls (s : UserService) (req : dto.PageRequest) (page pageSize : Int)
    (hp : page = if req.Page ≤ 0 then 1 else req.Page)
    (hs : pageSize = if req.PageSize ≤ 0 then 10 else req.PageSize) :
    (s.ListUsers req).1 = [Call.FindPage (wrapInt (wrapInt (page - 1) * pageSize)) pageSize] := by
  rw [ListUsers_eq s req page pageSize hp hs]
  split
  · rfl
  · split <;> rfl

/-- The division of `ListUsers` has a positive divisor, and in the range of `int64` its
quotient is the ceiling. -/
theorem pagesOf_pos (total pageSize : Int) (hs : 0 < pageSize) :
    pagesOf total pageSize =
      .ok (wrapInt (Int.tdiv (wrapInt (wrapInt (total + pageSize) - 1)) pageSize)) := by
  have h : ¬ pageSize = 0 := by omega
  simp only [pagesOf, gt_iff_lt, hs, if_true, divInt64, h, if_false]

theorem pagesOf_ceil (total pageSize : Int) (hs : 0 < pageSize) (ht : 0 ≤ total)
    (hfit : total + pageSize - 1 < 9223372036854775808) :
    pagesOf total pageSize = .ok ((total + pageSize - 1) / pageSize) := by
  rw [pagesOf_pos total pageSize hs]
  have h1 : wrapInt (wrapInt (total + pageSize) - 1) = wrapInt (total + pageSize - 1) :=
    wrapInt_sub_one _
  have h2 : wrapInt (total + pageSize - 1) = total + pageSize - 1 :=
    wrapInt_id _ (by omega) (by omega)
  have h3 : Int.tdiv (total + pageSize - 1) pageSize = (total + pageSize - 1) / pageSize :=
    Int.tdiv_eq_ediv (by omega) (by omega)
  have h4 : 0 ≤ (total + pageSize - 1) / pageSize := Int.ediv_nonneg (by omega) (by omega)
  have h5 : (total + pageSize - 1) / pageSize ≤ total + pageSize - 1 :=
    Int.ediv_le_self _ (by omega)
  rw [h1, h2, h3, wrapInt_id _ (by omega) (by omega)]

end service
namespace service

/-- C15 (amended): for every page request, with `page` its page number if positive and 1
otherwise, and `pageSize` its page size if positive and 10 otherwise, such that
`(page - 1) * pageSize` fits in a signed 64-bit integer: `ListUsers` makes one call,
`FindPage` with offset `(page - 1) * pageSize` and limit `pageSize`; when the repository
answers without an error, `ListUsers` returns a response that reports `page`, `pageSize`
and the total and the users of the repository; when it answers with an error,
`ListUsers` returns that error. -/
theorem ListUsers_pagination (s : UserService) (req : dto.PageRequest) (page pageSize : Int)
    (hp : page = if req.Page > 0 then req.Page else 1)
    (hs : pageSize = if req.PageSize > 0 then req.PageSize else 10)
    (hfit : (page - 1) * pageSize < 2 ^ 63) :
    (s.ListUsers req).1 = [Call.FindPage ((page - 1) * pageSize) pageSize] ∧
    (∀ users total,
      s.userDAO.FindPage ((page - 1) * pageSize) pageSize = (users, total, none) →
      ∃ resp, (s.ListUsers req).2 = .ret (some resp) none ∧
        resp.PageResponse.Page = page ∧ resp.PageResponse.PageSize = pageSize ∧
        resp.PageResponse.Total = total ∧
        resp.List = users.map dto.NewUserResponseFromEntity) ∧
    (∀ users total err,
      s.userDAO.FindPage ((page - 1) * pageSize) pageSize = (users, total, some err) →
      (s.ListUsers req).2 = .ret none (some err)) := by
  have hp' : page = if req.Page ≤ 0 then 1 else req.Page := by
    rw [hp]
    by_cases h : req.Page ≤ 0
    · rw [if_pos h, if_neg (by omega)]
    · rw [if_neg h, if_pos (by omega)]
  have hs' : pageSize = if req.PageSize ≤ 0 then 10 else req.PageSize := by
    rw [hs]
    by_cases h : req.PageSize ≤ 0
    · rw [if_pos h, if_neg (by omega)]
    · rw [if_neg h, if_pos (by omega)]
  have hp1 : 1 ≤ page := by
    rw [hp]
    split_ifs <;> omega
  have hs1 : 1 ≤ pageSize := by
    rw [hs]
    split_ifs <;> omega
  have e63 : (2 : Int) ^ 63 = 9223372036854775808 := by norm_num
  rw [e63] at hfit
  have hm : page - 1 ≤ (page - 1) * pageSize := by nlinarith
  have hm0 : 0 ≤ (page - 1) * pageSize := by nlinarith
  have hoff : wrapInt (wrapInt (page - 1) * pageSize) = (page - 1) * pageSize := by
    rw [wrapInt_id (page - 1) (by omega) (by omega)]
    exact wrapInt_id _ (by omega) hfit
  rw [ListUsers_eq s req page pageSize hp' hs', hoff]
  refine ⟨?_, ?_, ?_⟩
  · split
    · rfl
    · split <;> rfl
  · intro users total hf
    rw [hf]
    simp only [pagesOf_pos total pageSize (by omega)]
    exact ⟨_, rfl, rfl, rfl, rfl, rfl⟩
  · intro users total err hf
    rw [hf]

/-- C15 (amended), at the two requests of the specification, on a repository of five
users: page 0 and page size 0 give offset 0 and limit 10, page 2 and page size 3 give
offset 3 and limit 3. -/
theorem ListUsers_pagination_witness :
    (UserService.ListUsers ⟨sample.fiveUsers⟩ { Page := 0, PageSize := 0 }).1 =
      [Call.FindPage 0 10] ∧
    (UserService.ListUsers ⟨sample.fiveUsers⟩ { Page := 2, PageSize := 3 }).1 =
      [Call.FindPage 3 3] :=
  ⟨(ListUsers_pagination ⟨sample.fiveUsers⟩ { Page := 0, PageSize := 0 } 1 10 (by decide)
      (by decide) (by decide)).1,
   (ListUsers_pagination ⟨sample.fiveUsers⟩ { Page := 2, PageSize := 3 } 2 3 (by decide)
      (by decide) (by decide)).1⟩

/-- C15 as stated fails where the product leaves the range of `int`: at page
4611686018427387905 and page size 4 the offset `(page - 1) * pageSize` is `2 ^ 64`, and
`ListUsers` calls `FindPage` with offset 0. -/
theorem ListUsers_pagination_counterexample :
    (4611686018427387905 : Int) < 2 ^ 63 ∧
    (UserService.ListUsers ⟨sample.fiveUsers⟩
      { Page := 4611686018427387905, PageSize := 4 }).1 = [Call.FindPage 0 4] ∧
    (UserService.ListUsers ⟨sample.fiveUsers⟩
      { Page := 4611686018427387905, PageSize := 4 }).1 ≠
        [Call.FindPage ((4611686018427387905 - 1) * 4) 4] := by
  decide

/-- C16: the division of `ListUsers` never has a zero divisor (no request and no answer of
the repository makes it panic); and for every page request, with `pageSize` its page size
if positive and 10 otherwise, and every answer of the repository to the call made that has
no error and a total `total >= 0` such that `total + pageSize - 1` fits in a signed 64-bit
integer, the response has `Total = total`, `PageSize = pageSize` and
`Pages = ceil(Total / PageSize)`: `Pages` is the least `n >= 0` with
`n * PageSize >= Total`. -/
theorem ListUsers_pages (s : UserService) (req : dto.PageRequest) :
    (∀ msg, (s.ListUsers req).2 ≠ .panic msg) ∧
    ∀ (pageSize offset limit : Int) (users : List (Option entity.UserInfo)) (total : Int),
      pageSize = (if req.PageSize > 0 then req.PageSize else 10) →
      (s.ListUsers req).1 = [Call.FindPage offset limit] →
      s.userDAO.FindPage offset limit = (users, total, none) →
      0 ≤ total → total + pageSize - 1 < 2 ^ 63 →
      ∃ resp, (s.ListUsers req).2 = .ret (some resp) none ∧
        resp.PageResponse.Total = total ∧ resp.PageResponse.PageSize = pageSize ∧
        0 ≤ resp.PageResponse.Pages ∧
        resp.PageResponse.Total ≤ resp.PageResponse.Pages * resp.PageResponse.PageSize ∧
        ∀ n : Int, 0 ≤ n → resp.PageResponse.Total ≤ n * resp.PageResponse.PageSize →
          resp.PageResponse.Pages ≤ n := by
  have hs1 : 1 ≤ (if req.PageSize ≤ 0 then 10 else req.PageSize) := by
    split_ifs <;> omega
  constructor
  · intro msg
    rw [ListUsers_eq s req _ _ rfl rfl]
    split
    · simp
    · rw [pagesOf_pos _ _ (by omega)]
      simp
  · intro pageSize offset limit users total hs hcall hfind ht hfit
    have hs' : pageSize = if req.PageSize ≤ 0 then 10 else req.PageSize := by
      rw [hs]
      by_cases h : req.PageSize ≤ 0
      · rw [if_pos h, if_neg (by omega)]
      · rw [if_neg h, if_pos (by omega)]
    have hpos : 0 < pageSize := by rw [hs']; omega
    have e63 : (2 : Int) ^ 63 = 9223372036854775808 := by norm_num
    rw [e63] at hfit
    rw [ListUsers_calls s req _ pageSize rfl hs'] at hcall
    simp only [List.cons.injEq, Call.FindPage.injEq, and_true] at hcall
    obtain ⟨ho, hl⟩ := hcall
    subst ho
    subst hl
    rw [ListUsers_eq s req _ pageSize rfl hs', hfind]
    simp only [pagesOf_ceil total pageSize hpos ht hfit]
    refine ⟨_, rfl, rfl, rfl, ?_, ?_, ?_⟩
    · exact Int.ediv_nonneg (by omega) (by omega)
    · show total ≤ (total + pageSize - 1) / pageSize * pageSize
      have h := Int.lt_ediv_add_one_mul_self (total + pageSize - 1) hpos
      have e : ((total + pageSize - 1) / pageSize + 1) * pageSize =
          (total + pageSize - 1) / pageSize * pageSize + pageSize := by ring
      rw [e] at h
      omega
    · intro n hn hle
      show (total + pageSize - 1) / pageSize ≤ n
      have hle' : total ≤ n * pageSize := hle
      by_contra hlt
      have h1 : (n + 1) * pageSize ≤ (total + pageSize - 1) / pageSize * pageSize :=
        Int.mul_le_mul_of_nonneg_right (by omega) (by omega)
      have h2 := Int.ediv_mul_le (total + pageSize - 1) (ne_of_gt hpos)
      have e : (n + 1) * pageSize = n * pageSize + pageSize := by ring
      rw [e] at h1
      omega

/-- C16, at a repository of five users and page size 3: two pages. -/
theorem ListUsers_pages_witness :
    ∃ resp, (UserService.ListUsers ⟨sample.fiveUsers⟩ { Page := 1, PageSize := 3 }).2 =
        .ret (some resp) none ∧
      resp.PageResponse.Total = 5 ∧ resp.PageResponse.PageSize = 3 ∧
      resp.PageResponse.Pages = 2 := by
  obtain ⟨resp, h1, hT, hS, h0, h2, h3⟩ :=
    (ListUsers_pages ⟨sample.fiveUsers⟩ { Page := 1, PageSize := 3 }).2 3 0 3 _ 5
      (by decide) (by rfl) (by rfl) (by decide) (by decide)
  refine ⟨resp, h1, hT, hS, ?_⟩
  have h4 := h3 2 (by decide)
  rw [hT, hS] at h2 h4
  have h5 := h4 (by decide)
  omega

/-- C17: for every username, submitted password, DES key, JWT secret and expiry, when the
repository returns, without an error, a user for that username whose `IsLocked` is 1,
`Login` returns no response (no token) and the error `用户已被锁定`; the only call it has
made is the lookup in the repository, so neither `DESDecrypt` nor `GenerateToken` is
reached. -/
theorem Login_locked (s : UserService) (nowExp nowIat nowNbf : Time)
    (username password desKey jwtSecret : GoString) (jwtExpireHours : Int)
    (user : entity.UserInfo)
    (hfind : s.userDAO.FindByUserName username = (some user, none))
    (hlocked : user.IsLocked = 1) :
    s.Login nowExp nowIat nowNbf username password desKey jwtSecret jwtExpireHours =
      ([Call.FindByUserName username], .ret none (some (errors.New "用户已被锁定"))) := by
  unfold UserService.Login
  simp only [hfind, hlocked, if_true]

/-- C17, at a repository whose user `alice` is locked, for a password, a DES key of the
wrong length and a stored password that does not decode. -/
theorem Login_locked_witness :
    UserService.Login ⟨sample.lockedUsers⟩ sample.t0 sample.t0 sample.t0 (ascii "alice")
      (ascii "password") (ascii "short") sample.secret 24 =
      ([Call.FindByUserName (ascii "alice")],
        .ret none (some (errors.New "用户已被锁定"))) :=
  Login_locked ⟨sample.lockedUsers⟩ sample.t0 sample.t0 sample.t0 (ascii "alice")
    (ascii "password") (ascii "short") sample.secret 24
    { ID := 7, UserName := ascii "alice", Password := ascii "not-valid-base64!",
      Role := RoleOperator, IsLocked := 1 } (by rfl) (by rfl)

end service

/-- C20: for every secret, `ValidateToken` returns an error and no claims for every string
that is not a well-formed three-segment signed token: a string that does not consist of
three segments separated by dots, or of which the first segment is not base64url, or does
not decode to a JSON object, or decodes to an object without a string `alg` or with an
`alg` that names no signing method, or of which the second segment is not base64url or
does not decode to JSON of the claims, or the third is not base64url. -/
theorem ValidateToken_malformed (fp : strconv.Float64) (now : Time)
    (tokenString secret : GoString)
    (h : (strings.Split 46 tokenString).length ≠ 3 ∨
      (∃ f, jwt.DecodeSegment ((strings.Split 46 tokenString).getD 0 []) = .error f) ∨
      (∃ headerBytes, jwt.DecodeSegment ((strings.Split 46 tokenString).getD 0 []) =
          .ok headerBytes ∧ json.unmarshalMap fp headerBytes = none) ∨
      (∃ headerBytes header, jwt.DecodeSegment ((strings.Split 46 tokenString).getD 0 []) =
          .ok headerBytes ∧ json.unmarshalMap fp headerBytes = some header ∧
          ∀ alg, json.lookupLast (ascii "alg") header = some (.string alg) →
            jwt.GetSigningMethod alg = none) ∨
      (∃ f, jwt.DecodeSegment ((strings.Split 46 tokenString).getD 1 []) = .error f) ∨
      (∃ claimBytes, jwt.DecodeSegment ((strings.Split 46 tokenString).getD 1 []) =
          .ok claimBytes ∧ unmarshalClaims fp claimBytes = none) ∨
      (∃ f, jwt.DecodeSegment ((strings.Split 46 tokenString).getD 2 []) = .error f)) :
    ∃ err, ValidateToken fp now tokenString secret = .ret none (some err) := by
  rcases ValidateToken_cases fp now tokenString secret with ⟨claims, hc⟩ | herr
  · exfalso
    obtain ⟨result, hr⟩ := ValidateToken_ok fp now tokenString secret claims none hc
    obtain ⟨token, parts, sig, key, hp, hsig, _, _, _, _⟩ :=
      jwt.ParseWithClaims_ok fp now _ _ tokenString _ result hr
    obtain ⟨hparts, hlen, hb, header, cb, alg, h1, h2, h3, h4, h5, h6⟩ :=
      jwt.ParseUnverified_ok fp _ tokenString token parts hp
    subst hparts
    rcases h with h | ⟨f, h⟩ | ⟨hb2, h, hn⟩ | ⟨hb2, header2, h, hj, hn⟩ | ⟨f, h⟩ |
      ⟨cb2, h, hn⟩ | ⟨f, h⟩
    · exact h hlen
    · rw [h] at h1; cases h1
    · rw [h] at h1
      injection h1 with h1
      subst h1
      rw [hn] at h2
      cases h2
    · rw [h] at h1
      injection h1 with h1
      subst h1
      rw [hj] at h2
      injection h2 with h2
      subst h2
      rw [hn alg h5] at h6
      cases h6
    · rw [h] at h3; cases h3
    · rw [h] at h3
      injection h3 with h3
      subst h3
      rw [hn] at h4
      cases h4
    · rw [h] at hsig; cases hsig
  · exact herr

/-- C20, at the empty string (one segment) and at `invalid.token.string`, whose first
segment decodes to bytes that are not JSON. -/
theorem ValidateToken_malformed_witness :
    (∃ err, ValidateToken sample.noFloat sample.t0 [] sample.secret = .ret none (some err)) ∧
    (∃ err, ValidateToken sample.noFloat sample.t0 (ascii "invalid.token.string")
      sample.secret = .ret none (some err)) :=
  ⟨ValidateToken_malformed sample.noFloat sample.t0 [] sample.secret (Or.inl (by decide)),
   ValidateToken_malformed sample.noFloat sample.t0 (ascii "invalid.token.string")
    sample.secret (Or.inr (Or.inr (Or.inl ⟨[138, 123, 218, 150, 39], by rfl, by rfl⟩)))⟩

/-! ### `pkcs5UnPadding`, and the ciphertexts that `DESDecrypt` does not survive -/

theorem getD_last (d : List Byte) (b : Byte) (h : d.getLast? = some b) :
    d.getD (d.length - 1) 0 = b := by
  cases d with
  | nil => simp at h
  | cons x xs =>
    rw [List.getLast?_eq_getElem?] at h
    rw [List.getD_eq_getElem?_getD, h]
    rfl

/-- C26: for every byte sequence `d`, `pkcs5UnPadding(d)` is `d` when `d` is empty, and,
with `b` the last byte of `d`, it is `d` when the value of `b` exceeds `len(d)` and
otherwise the first `len(d) - b` bytes of `d`, that is `d` without its last `b` bytes. -/
theorem pkcs5UnPadding_spec (d : List Byte) :
    (d = [] → pkcs5UnPadding d = d) ∧
    ∀ b : Byte, d.getLast? = some b →
      (d.length < b.val → pkcs5UnPadding d = d) ∧
      (b.val ≤ d.length →
        pkcs5UnPadding d = d.take (d.length - b.val) ∧
        ∃ removed : List Byte, removed.length = b.val ∧ pkcs5UnPadding d ++ removed = d) := by
  constructor
  · intro h
    subst h
    rfl
  · intro b hb
    have hne : d.length ≠ 0 := by
      intro h0
      rw [List.length_eq_zero] at h0
      subst h0
      simp at hb
    have hlast := getD_last d b hb
    constructor
    · intro hlt
      unfold pkcs5UnPadding
      simp only [hne, if_false, hlast, gt_iff_lt, hlt, if_true]
    · intro hle
      have hnot : ¬ b.val > d.length := by omega
      have hu : pkcs5UnPadding d = d.take (d.length - b.val) := by
        unfold pkcs5UnPadding
        simp only [hne, if_false, hlast, hnot]
      refine ⟨hu, d.drop (d.length - b.val), ?_, ?_⟩
      · rw [List.length_drop]
        omega
      · rw [hu]
        exact List.take_append_drop _ _

/-- C26, at the byte sequences of `TestPkcs5UnPadding`, and at a sequence whose last byte
exceeds its length. -/
theorem pkcs5UnPadding_spec_witness :
    pkcs5UnPadding [] = [] ∧
    pkcs5UnPadding [1, 2, 3, 4, 5, 5, 5, 5, 5] = [1, 2, 3, 4] ∧
    pkcs5UnPadding [1, 2, 3, 1] = [1, 2, 3] ∧
    pkcs5UnPadding [1, 2, 3, 9] = [1, 2, 3, 9] :=
  ⟨(pkcs5UnPadding_spec []).1 rfl,
   (((pkcs5UnPadding_spec [1, 2, 3, 4, 5, 5, 5, 5, 5]).2 5 rfl).2 (by decide)).1,
   (((pkcs5UnPadding_spec [1, 2, 3, 1]).2 1 rfl).2 (by decide)).1,
   ((pkcs5UnPadding_spec [1, 2, 3, 9]).2 9 rfl).1 (by decide)⟩

/-- The claim C27 fails on the code: for every 8-byte key and every ciphertext that
`base64.StdEncoding` decodes to a number of bytes that is not a multiple of 8,
`DESDecrypt` does not return: `CryptBlocks` panics with
`crypto/cipher: input not full blocks`. -/
theorem DESDecrypt_panics (ciphertext key : GoString) (ciphertextBytes : List Byte)
    (hkey : key.length = 8)
    (hb : base64.StdEncoding.DecodeString ciphertext = .ok ciphertextBytes)
    (hlen : ciphertextBytes.length % 8 ≠ 0) :
    DESDecrypt ciphertext key = .panic "crypto/cipher: input not full blocks" := by
  unfold DESDecrypt
  simp only [hkey, ne_eq, not_true_eq_false, if_false, hb, des.NewCipher,
    cipher.NewCBCDecrypter, des.Cipher.BlockSize, cipher.cbc.DecryptBlocks,
    OfNat.ofNat_ne_zero, hlen, not_false_eq_true, if_true]
  rfl

/-- C27 fails at the key `12345678` and the ciphertext `AAAA`, valid base64 of three
bytes. -/
theorem DESDecrypt_panics_witness :
    DESDecrypt (ascii "AAAA") (ascii "12345678") =
      .panic "crypto/cipher: input not full blocks" :=
  DESDecrypt_panics (ascii "AAAA") (ascii "12345678") [0, 0, 0] (by decide) (by rfl)
    (by decide)

/-! ### The role table as a chain -/

/-- C29: the permissions of `user` are among those of `operator`, those of `operator`
among those of `manager`, and those of `manager` among those of `administrator`; so for
every list of required permissions, `HasAnyPermission` and `HasAllPermissions` that hold
for a role hold for the next role along user, operator, manager, administrator. -/
theorem GetRolePermissions_chain :
    GetRolePermissions RoleUser ⊆ GetRolePermissions RoleOperator ∧
    GetRolePermissions RoleOperator ⊆ GetRolePermissions RoleManager ∧
    GetRolePermissions RoleManager ⊆ GetRolePermissions RoleAdministrator ∧
    (∀ ps : List GoString,
      (HasAnyPermission RoleUser ps = true → HasAnyPermission RoleOperator ps = true) ∧
      (HasAnyPermission RoleOperator ps = true → HasAnyPermission RoleManager ps = true) ∧
      (HasAnyPermission RoleManager ps = true →
        HasAnyPermission RoleAdministrator ps = true) ∧
      (HasAllPermissions RoleUser ps = true → HasAllPermissions RoleOperator ps = true) ∧
      (HasAllPermissions RoleOperator ps = true → HasAllPermissions RoleManager ps = true) ∧
      (HasAllPermissions RoleManager ps = true →
        HasAllPermissions RoleAdministrator ps = true)) := by
  have h1 : GetRolePermissions RoleUser ⊆ GetRolePermissions RoleOperator := by decide
  have h2 : GetRolePermissions RoleOperator ⊆ GetRolePermissions RoleManager := by decide
  have h3 : GetRolePermissions RoleManager ⊆ GetRolePermissions RoleAdministrator := by decide
  have any : ∀ (r1 r2 : RoleType) (ps : List GoString),
      GetRolePermissions r1 ⊆ GetRolePermissions r2 →
      HasAnyPermission r1 ps = true → HasAnyPermission r2 ps = true := by
    intro r1 r2 ps hsub h
    rw [HasAnyPermission_iff] at h ⊢
    rcases h with h | ⟨p, hp, hm⟩
    · exact Or.inl h
    · exact Or.inr ⟨p, hp, hsub hm⟩
  have all : ∀ (r1 r2 : RoleType) (ps : List GoString),
      GetRolePermissions r1 ⊆ GetRolePermissions r2 →
      HasAllPermissions r1 ps = true → HasAllPermissions r2 ps = true := by
    intro r1 r2 ps hsub h
    rw [HasAllPermissions_iff] at h ⊢
    exact fun p hp => hsub (h p hp)
  exact ⟨h1, h2, h3, fun ps => ⟨any _ _ ps h1, any _ _ ps h2, any _ _ ps h3, all _ _ ps h1,
    all _ _ ps h2, all _ _ ps h3⟩⟩
/-! ### The routes without a permission of their own, and the routes without `JWTAuth` -/

namespace sample

theorem userToken_valid :
    ∃ claims, ValidateToken noFloat t0 userToken secret = .ret (some claims) none ∧
      claims.Role = RoleUser := by
  obtain ⟨tokenString, claims, hg, _, _, hr, hexp, hnbf, hv⟩ :=
    ValidateToken_GenerateToken noFloat t0 t0 t0 t0 3 (ascii "user1") RoleUser secret secret 24
      (by decide) (by decide) (by decide) (by decide) (by decide) (by decide) (by decide)
      (by decide) (by decide) (fun _ => rfl)
  have hvc : jwt.validateClaims t0 claims.RegisteredClaims = [] := by
    simp only [jwt.validateClaims, hexp, hnbf]
    decide
  rw [hvc] at hv
  refine ⟨claims, ?_, hr⟩
  unfold userToken
  rw [hg]
  exact hv

end sample

namespace router

/-- The table of `SetupRouter` on the engine of `NewServer`: the two routes under
`/api/v1/operations` are GET routes behind the one gate `operation:view`. -/
theorem table_operations (secret : GoString) :
    ∀ r ∈ serverEngine.GET (ascii "/swagger/*any") [.endpoint "ginSwagger.WrapHandler"] ::
        serverEngine.GET (ascii "/health") [.endpoint "health"] ::
        apiRoutes (serverEngine.Group (ascii "/api/v1")) secret,
      (ascii "/api/v1/operations").isPrefixOf r.path = true →
        r.method = ascii "GET" ∧ gates r.handlers = [[ascii "operation:view"]] ∧
        (r.path = ascii "/api/v1/operations" ∨ r.path = ascii "/api/v1/operations/:id") :=
  of_decide_eq_true (Eq.refl true)

theorem gate_admits (role : RoleType) (permissions : List GoString) (c : gin.Context)
    (h : HasAnyPermission role permissions = true) :
    middleware.RequirePermission permissions
        (c.Set middleware.UserRoleKey (.roleType role)) =
      .next (c.Set middleware.UserRoleKey (.roleType role)) := by
  unfold middleware.RequirePermission
  rw [gin.Get_Set_same]
  simp [h]

/-- The claim C21 fails on the code in its last part: the two routes under
`/api/v1/operations` are GET routes behind the one gate `operation:view`, and that gate
hands over on a context to which `JWTAuth` has bound the role `operator`, `manager` or
`administrator`, and also on one to which it has bound the role `user`; a GET request to
`/api/v1/operations` with a valid token of a user with the role `user` reaches
`operationHandler.ListOperations`. -/
theorem operations_gate_admits_user :
    (∃ routes, SetupRouter serverEngine sample.cfg = .ok routes ∧
      (∀ r ∈ routes, (ascii "/api/v1/operations").isPrefixOf r.path = true →
        r.method = ascii "GET" ∧ gates r.handlers = [[ascii "operation:view"]] ∧
        (r.path = ascii "/api/v1/operations" ∨ r.path = ascii "/api/v1/operations/:id")) ∧
      ∃ r ∈ routes, r.method = ascii "GET" ∧ r.path = ascii "/api/v1/operations" ∧
        ∃ c1, serve sample.noFloat sample.t0 r.handlers sample.userRequest =
          .reached "operationHandler.ListOperations" c1) ∧
    (∀ c : gin.Context,
      middleware.RequirePermission [ascii "operation:view"]
          (c.Set middleware.UserRoleKey (.roleType (ascii "operator"))) =
        .next (c.Set middleware.UserRoleKey (.roleType (ascii "operator"))) ∧
      middleware.RequirePermission [ascii "operation:view"]
          (c.Set middleware.UserRoleKey (.roleType (ascii "manager"))) =
        .next (c.Set middleware.UserRoleKey (.roleType (ascii "manager"))) ∧
      middleware.RequirePermission [ascii "operation:view"]
          (c.Set middleware.UserRoleKey (.roleType (ascii "administrator"))) =
        .next (c.Set middleware.UserRoleKey (.roleType (ascii "administrator"))) ∧
      middleware.RequirePermission [ascii "operation:view"]
          (c.Set middleware.UserRoleKey (.roleType (ascii "user"))) =
        .next (c.Set middleware.UserRoleKey (.roleType (ascii "user")))) := by
  refine ⟨⟨_, rfl, table_operations sample.secret, ?_⟩, fun c => ⟨?_, ?_, ?_, ?_⟩⟩
  · obtain ⟨claims, hv, hr⟩ := sample.userToken_valid
    obtain ⟨c1, _, hs⟩ := serve_gated sample.noFloat sample.t0 sample.secret
      [PermissionOperationView] "operationHandler.ListOperations" sample.userRequest
      sample.userToken claims (by decide) rfl hv
    have hp : HasAnyPermission claims.Role [PermissionOperationView] = true := by
      rw [hr]
      decide
    simp only [hp, if_true] at hs
    refine ⟨
      { method := ascii "GET", path := ascii "/api/v1/operations",
        handlers := [.Recovery, .Logger, .CORS, .JWTAuth sample.secret,
          .RequirePermission [PermissionOperationView],
          .endpoint "operationHandler.ListOperations"] }, ?_, rfl, rfl, c1, hs⟩
    decide
  · exact gate_admits _ _ c (by decide)
  · exact gate_admits _ _ c (by decide)
  · exact gate_admits _ _ c (by decide)
  · exact gate_admits _ _ c (by decide)

end router
namespace router

/-- The table of `SetupRouter` on the engine of `NewServer`: a chain is either the three
engine middlewares and a final handler, or it has `JWTAuth` of the configured secret
right after the engine middlewares. -/
theorem table_auth (secret : GoString) :
    ∀ r ∈ serverEngine.GET (ascii "/swagger/*any") [.endpoint "ginSwagger.WrapHandler"] ::
        serverEngine.GET (ascii "/health") [.endpoint "health"] ::
        apiRoutes (serverEngine.Group (ascii "/api/v1")) secret,
      (∃ name, r.handlers = [.Recovery, .Logger, .CORS, .endpoint name]) ∨
      (∃ g rest, r.handlers = .Recovery :: .Logger :: .CORS :: .JWTAuth secret :: g :: rest) := by
  simp only [apiRoutes, List.forall_mem_cons, List.not_mem_nil, false_implies, implies_true,
    and_true]
  refine ⟨?_, ?_, ?_, ?_, ?_, ?_, ?_, ?_, ?_, ?_, ?_, ?_, ?_, ?_, ?_, ?_, ?_, ?_, ?_, ?_, ?_,
    ?_, ?_, ?_, ?_, ?_, ?_, ?_, ?_, ?_, ?_, ?_⟩
  all_goals first
    | exact Or.inl ⟨_, rfl⟩
    | exact Or.inr ⟨_, _, rfl⟩

/-- The table of `SetupRouter` on the engine of `NewServer`: the chains of four handlers
are those of `GET /swagger/*any`, `GET /health` and `POST /api/v1/auth/login`, and each
of the three is registered. -/
theorem table_public (secret : GoString) :
    (∀ r ∈ serverEngine.GET (ascii "/swagger/*any") [.endpoint "ginSwagger.WrapHandler"] ::
        serverEngine.GET (ascii "/health") [.endpoint "health"] ::
        apiRoutes (serverEngine.Group (ascii "/api/v1")) secret,
      (r.handlers.length = 4 ↔
        (r.method, r.path) ∈ [(ascii "GET", ascii "/swagger/*any"),
          (ascii "GET", ascii "/health"), (ascii "POST", ascii "/api/v1/auth/login")])) ∧
    ∀ p ∈ [(ascii "GET", ascii "/swagger/*any"), (ascii "GET", ascii "/health"),
        (ascii "POST", ascii "/api/v1/auth/login")],
      p ∈ (serverEngine.GET (ascii "/swagger/*any") [.endpoint "ginSwagger.WrapHandler"] ::
        serverEngine.GET (ascii "/health") [.endpoint "health"] ::
        apiRoutes (serverEngine.Group (ascii "/api/v1")) secret).map
          (fun r => (r.method, r.path)) :=
  of_decide_eq_true (Eq.refl true)

/-- A chain that has `JWTAuth` right after the engine middlewares reaches a final handler
only for a request with a bearer token that validates. -/
theorem serve_authenticated (fp : strconv.Float64) (now : Time) (secret : GoString)
    (rest : List Handler) (c c1 : gin.Context) (name : String)
    (h : serve fp now (.Recovery :: .Logger :: .CORS :: .JWTAuth secret :: rest) c =
      .reached name c1) :
    ∃ t claims, c.GetHeader (ascii "Authorization") = ascii "Bearer" ++ [32] ++ t ∧
      ValidateToken fp now t secret = .ret (some claims) none := by
  simp only [serve, Handler.run, middleware.CORS] at h
  by_cases hm : c.Method = ascii "OPTIONS"
  · simp [hm] at h
  · simp only [hm, if_false] at h
    rcases middleware.JWTAuth_cases fp now secret c with ⟨c2, hj⟩ | hj
    · obtain ⟨t, claims, h1, h2, _⟩ := (middleware.JWTAuth_next_iff fp now secret c c2).mp hj
      exact ⟨t, claims, h1, h2⟩
    · rw [hj] at h
      simp at h

/-- C22 (amended): among the routes registered by `SetupRouter` on the engine of
`NewServer`, three have a handler chain without `JWTAuth`: `GET /swagger/*any`,
`GET /health` and `POST /api/v1/auth/login`, each of them registered. Every other
registered route has `JWTAuth` of the configured secret in its chain, and its final
handler is reached only for a request whose Authorization header is `Bearer`, a space
and a token that `ValidateToken` accepts under that secret. -/
theorem SetupRouter_auth_exempt (fp : strconv.Float64) (now : Time) (cfg : Config)
    (routes : List Route) (auth : AuthConfig) (hauth : cfg.Auth = some auth)
    (h : SetupRouter serverEngine cfg = .ok routes) :
    (∀ r ∈ routes,
      ((r.method, r.path) ∈ [(ascii "GET", ascii "/swagger/*any"),
          (ascii "GET", ascii "/health"), (ascii "POST", ascii "/api/v1/auth/login")] ∧
        ∀ s, Handler.JWTAuth s ∉ r.handlers) ∨
      ((r.method, r.path) ∉ [(ascii "GET", ascii "/swagger/*any"),
          (ascii "GET", ascii "/health"), (ascii "POST", ascii "/api/v1/auth/login")] ∧
        Handler.JWTAuth auth.JWTSecret ∈ r.handlers ∧
        ∀ (c c1 : gin.Context) (name : String),
          serve fp now r.handlers c = .reached name c1 →
          ∃ t claims, c.GetHeader (ascii "Authorization") = ascii "Bearer" ++ [32] ++ t ∧
            ValidateToken fp now t auth.JWTSecret = .ret (some claims) none)) ∧
    ∀ p ∈ [(ascii "GET", ascii "/swagger/*any"), (ascii "GET", ascii "/health"),
        (ascii "POST", ascii "/api/v1/auth/login")],
      p ∈ routes.map (fun r => (r.method, r.path)) := by
  obtain ⟨auth1, ha, _, hr⟩ := SetupRouter_ok serverEngine cfg routes h
  rw [hauth] at ha
  cases ha
  subst hr
  refine ⟨fun r hmem => ?_, (table_public auth.JWTSecret).2⟩
  have hlen := (table_public auth.JWTSecret).1 r hmem
  rcases table_auth auth.JWTSecret r hmem with ⟨name, hh⟩ | ⟨g, rest, hh⟩
  · refine Or.inl ⟨hlen.mp (by rw [hh]; rfl), fun s hs => ?_⟩
    rw [hh] at hs
    simp at hs
  · refine Or.inr ⟨fun hp => ?_, ?_, ?_⟩
    · have := hlen.mpr hp
      rw [hh] at this
      simp at this
    · rw [hh]
      simp
    · intro c c1 name hs
      rw [hh] at hs
      exact serve_authenticated fp now auth.JWTSecret _ c c1 name hs

/-- C22 (amended), for the configuration `sample.cfg`: the three routes without `JWTAuth`
are registered, and `POST /api/v1/auth/logout` is reached only with a valid token. -/
theorem SetupRouter_auth_exempt_witness :
    ∃ routes, SetupRouter serverEngine sample.cfg = .ok routes ∧
      (∀ p ∈ [(ascii "GET", ascii "/swagger/*any"), (ascii "GET", ascii "/health"),
          (ascii "POST", ascii "/api/v1/auth/login")],
        p ∈ routes.map (fun r => (r.method, r.path))) ∧
      ∀ r ∈ routes,
        ((r.method, r.path) ∈ [(ascii "GET", ascii "/swagger/*any"),
            (ascii "GET", ascii "/health"), (ascii "POST", ascii "/api/v1/auth/login")] ∧
          ∀ s, Handler.JWTAuth s ∉ r.handlers) ∨
        ((r.method, r.path) ∉ [(ascii "GET", ascii "/swagger/*any"),
            (ascii "GET", ascii "/health"), (ascii "POST", ascii "/api/v1/auth/login")] ∧
          Handler.JWTAuth sample.secret ∈ r.handlers ∧
          ∀ (c c1 : gin.Context) (name : String),
            serve sample.noFloat sample.t0 r.handlers c = .reached name c1 →
            ∃ t claims, c.GetHeader (ascii "Authorization") = ascii "Bearer" ++ [32] ++ t ∧
              ValidateToken sample.noFloat sample.t0 t sample.secret =
                .ret (some claims) none) :=
  ⟨_, rfl,
    (SetupRouter_auth_exempt sample.noFloat sample.t0 sample.cfg _ _ rfl rfl).2,
    (SetupRouter_auth_exempt sample.noFloat sample.t0 sample.cfg _ _ rfl rfl).1⟩

/-- C22 as stated fails: `SetupRouter` registers `GET /health`, which is not the login
route, with a chain that has no `JWTAuth`, and a request without an Authorization header
reaches its final handler. (`GET /swagger/*any` is registered the same way.) -/
theorem SetupRouter_auth_exempt_counterexample :
    ∃ routes, SetupRouter serverEngine sample.cfg = .ok routes ∧
      ∃ r ∈ routes, r.method = ascii "GET" ∧ r.path = ascii "/health" ∧
        (r.method, r.path) ≠ (ascii "POST", ascii "/api/v1/auth/login") ∧
        (∀ s, Handler.JWTAuth s ∉ r.handlers) ∧
        sample.anonymousRequest.GetHeader (ascii "Authorization") = [] ∧
        serve sample.noFloat sample.t0 r.handlers sample.anonymousRequest =
          .reached "health" sample.anonymousRequest := by
  refine ⟨_, rfl,
    { method := ascii "GET", path := ascii "/health",
      handlers := [.Recovery, .Logger, .CORS, .endpoint "health"] },
    by decide, rfl, rfl, by decide, fun s hs => ?_, rfl, rfl⟩
  simp at hs

end router
namespace service

/-- C28 (amended): for every page request, with `page` its page number if positive and 1
otherwise and `pageSize` its page size if positive and 10 otherwise, such that
`(page - 1) * pageSize` fits in a signed 64-bit integer, the offset that `ListUsers`
passes to `FindPage` is that product, without wrap-around, and is not negative. -/
theorem ListUsers_offset (s : UserService) (req : dto.PageRequest)
    (page pageSize offset limit : Int)
    (hp : page = if req.Page > 0 then req.Page else 1)
    (hs : pageSize = if req.PageSize > 0 then req.PageSize else 10)
    (hcall : (s.ListUsers req).1 = [Call.FindPage offset limit])
    (hfit : (page - 1) * pageSize < 2 ^ 63) :
    0 ≤ offset ∧ offset = (page - 1) * pageSize ∧ limit = pageSize := by
  have hp' : page = if req.Page ≤ 0 then 1 else req.Page := by
    rw [hp]
    by_cases h : req.Page ≤ 0
    · rw [if_pos h, if_neg (by omega)]
    · rw [if_neg h, if_pos (by omega)]
  have hs' : pageSize = if req.PageSize ≤ 0 then 10 else req.PageSize := by
    rw [hs]
    by_cases h : req.PageSize ≤ 0
    · rw [if_pos h, if_neg (by omega)]
    · rw [if_neg h, if_pos (by omega)]
  have hp1 : 1 ≤ page := by
    rw [hp]
    split_ifs <;> omega
  have hs1 : 1 ≤ pageSize := by
    rw [hs]
    split_ifs <;> omega
  have e63 : (2 : Int) ^ 63 = 9223372036854775808 := by norm_num
  rw [e63] at hfit
  have hm : page - 1 ≤ (page - 1) * pageSize := by nlinarith
  have hm0 : 0 ≤ (page - 1) * pageSize := by nlinarith
  have hoff : wrapInt (wrapInt (page - 1) * pageSize) = (page - 1) * pageSize := by
    rw [wrapInt_id (page - 1) (by omega) (by omega)]
    exact wrapInt_id _ (by omega) hfit
  rw [ListUsers_calls s req page pageSize hp' hs', hoff] at hcall
  simp only [List.cons.injEq, Call.FindPage.injEq, and_true] at hcall
  obtain ⟨ho, hl⟩ := hcall
  exact ⟨by rw [← ho]; exact hm0, ho.symm, hl.symm⟩

/-- C28 (amended), at page 3 and page size 20 on a repository of five users: offset 40. -/
theorem ListUsers_offset_witness :
    (UserService.ListUsers ⟨sample.fiveUsers⟩ { Page := 3, PageSize := 20 }).1 =
      [Call.FindPage 40 20] ∧
    (0 : Int) ≤ 40 ∧ (40 : Int) = (3 - 1) * 20 ∧ (20 : Int) = 20 :=
  ⟨by decide,
    ListUsers_offset ⟨sample.fiveUsers⟩ { Page := 3, PageSize := 20 } 3 20 40 20 (by decide)
      (by decide) (by decide) (by decide)⟩

/-- C28 as stated fails: page 4611686018427387905 and page size 2 are values of `int`,
the product `(page - 1) * pageSize` is `2 ^ 63`, and the offset that `ListUsers` passes to
`FindPage` is `-2 ^ 63`, negative and not the product. -/
theorem ListUsers_offset_counterexample :
    (4611686018427387905 : Int) < 2 ^ 63 ∧
    (UserService.ListUsers ⟨sample.fiveUsers⟩
      { Page := 4611686018427387905, PageSize := 2 }).1 =
        [Call.FindPage (-9223372036854775808) 2] ∧
    ((4611686018427387905 : Int) - 1) * 2 = 2 ^ 63 ∧
    (-9223372036854775808 : Int) < 0 := by
  decide

/-! ### `Login`: the failures for bad credentials -/

theorem lor_eq_zero (m n : Nat) : m ||| n = 0 ↔ m = 0 ∧ n = 0 := by
  constructor
  · intro h
    have hb : ∀ i, (m.testBit i || n.testBit i) = false := by
      intro i
      rw [← Nat.testBit_or, h, Nat.zero_testBit]
    constructor
    · apply Nat.eq_of_testBit_eq
      intro i
      have := hb i
      rw [Bool.or_eq_false_iff] at this
      rw [this.1, Nat.zero_testBit]
    · apply Nat.eq_of_testBit_eq
      intro i
      have := hb i
      rw [Bool.or_eq_false_iff] at this
      rw [this.2, Nat.zero_testBit]
  · rintro ⟨rfl, rfl⟩
    rfl

theorem constantTimeCompare_loop (a b : List Byte) (result : Nat) (h : a.length = b.length) :
    constantTimeCompare.loop a b result = 0 ↔ result = 0 ∧ a = b := by
  induction a generalizing b result with
  | nil =>
    cases b with
    | nil => simp [constantTimeCompare.loop]
    | cons y ys => simp at h
  | cons x xs ih =>
    cases b with
    | nil => simp at h
    | cons y ys =>
      have hl : xs.length = ys.length := by simpa using h
      rw [constantTimeCompare.loop, ih ys _ hl, lor_eq_zero, Nat.xor_eq_zero]
      constructor
      · rintro ⟨⟨h1, h2⟩, h3⟩
        exact ⟨h1, by rw [Fin.ext h2, h3]⟩
      · rintro ⟨h1, h2⟩
        injection h2 with h2 h3
        exact ⟨⟨h1, by rw [h2]⟩, h3⟩

theorem constantTimeCompare_iff (a b : GoString) : constantTimeCompare a b = true ↔ a = b := by
  unfold constantTimeCompare
  by_cases h : a.length = b.length
  · simp only [h, ne_eq, not_true_eq_false, if_false, decide_eq_true_eq]
    rw [constantTimeCompare_loop a b 0 h]
    simp
  · simp only [ne_eq, h, not_false_eq_true, if_true, Bool.false_eq_true, false_iff]
    intro e
    exact h (by rw [e])

/-- C30: for every username and password, the result of `Login` when the repository finds
no user, and its result when the repository finds an unlocked user whose stored password
decrypts, without an error, to a value different from the submitted password, are the
same: no response (no token) and the error `用户名或密码错误`. -/
theorem Login_bad_credentials (absent present : UserService) (nowExp nowIat nowNbf : Time)
    (username password desKey jwtSecret : GoString) (jwtExpireHours : Int)
    (user : entity.UserInfo) (stored : GoString)
    (h1 : absent.userDAO.FindByUserName username = (none, none))
    (h2 : present.userDAO.FindByUserName username = (some user, none))
    (h3 : user.IsLocked ≠ 1)
    (h4 : DESDecrypt user.Password desKey = .ret stored none)
    (h5 : stored ≠ password) :
    (absent.Login nowExp nowIat nowNbf username password desKey jwtSecret jwtExpireHours).2 =
      .ret none (some (errors.New "用户名或密码错误")) ∧
    (present.Login nowExp nowIat nowNbf username password desKey jwtSecret jwtExpireHours).2 =
      (absent.Login nowExp nowIat nowNbf username password desKey jwtSecret
        jwtExpireHours).2 := by
  have hc : constantTimeCompare password stored = false := by
    rw [Bool.eq_false_iff]
    intro h
    exact h5 ((constantTimeCompare_iff _ _).mp h).symm
  have ha : (absent.Login nowExp nowIat nowNbf username password desKey jwtSecret
      jwtExpireHours).2 = .ret none (some (errors.New "用户名或密码错误")) := by
    unfold UserService.Login
    simp only [h1]
  refine ⟨ha, ?_⟩
  rw [ha]
  unfold UserService.Login
  simp only [h2, h3, if_false, h4, hc, Bool.not_false, if_true]

/-- C30, at the username `alice` and the password `654321`: on a repository without
users, and on one whose user `alice` has the stored password `123456`. -/
theorem Login_bad_credentials_witness :
    (UserService.Login ⟨sample.emptyUsers⟩ sample.t0 sample.t0 sample.t0 (ascii "alice")
      (ascii "654321") (ascii "12345678") sample.secret 24).2 =
      .ret none (some (errors.New "用户名或密码错误")) ∧
    (UserService.Login ⟨sample.aliceUsers⟩ sample.t0 sample.t0 sample.t0 (ascii "alice")
      (ascii "654321") (ascii "12345678") sample.secret 24).2 =
      (UserService.Login ⟨sample.emptyUsers⟩ sample.t0 sample.t0 sample.t0 (ascii "alice")
        (ascii "654321") (ascii "12345678") sample.secret 24).2 :=
  Login_bad_credentials ⟨sample.emptyUsers⟩ ⟨sample.aliceUsers⟩ sample.t0 sample.t0 sample.t0
    (ascii "alice") (ascii "654321") (ascii "12345678") sample.secret 24
    { ID := 7, UserName := ascii "alice", Password := ascii "HUX+7VtHgb0=",
      Role := RoleOperator, IsLocked := 0 }
    (ascii "123456") (by rfl) (by rfl) (by decide) (by decide) (by decide)

end service
/-! ### `FindPage` on an empty table -/

/-- C25: for every offset and limit, when the count of the database is 0 (no error),
`FindPage` sends the count query alone and returns an empty slice that is not nil, total
0 and a nil error; and `ListUsers` on a repository whose `FindPage` is this one returns,
for every page request, a response with an empty list, total 0 and pages 0. -/
theorem FindPage_empty (d : impl.UserDAOImpl) (hcount : d.db.Count = (0, none)) :
    (∀ offset limit : Int, d.FindPage offset limit = ([impl.Query.Count], (some [], 0, none))) ∧
    ∀ (s : service.UserService) (req : dto.PageRequest),
      req.PageSize < 2 ^ 63 →
      (∀ offset limit : Int, s.userDAO.FindPage offset limit =
        (impl.elements (d.FindPage offset limit).2.1, (d.FindPage offset limit).2.2.1,
          (d.FindPage offset limit).2.2.2)) →
      ∃ resp, (s.ListUsers req).2 = .ret (some resp) none ∧ resp.List = [] ∧
        resp.PageResponse.Total = 0 ∧ resp.PageResponse.Pages = 0 := by
  have hf : ∀ offset limit : Int,
      d.FindPage offset limit = ([impl.Query.Count], (some [], 0, none)) := by
    intro offset limit
    unfold impl.UserDAOImpl.FindPage
    simp only [hcount, if_true]
  refine ⟨hf, ?_⟩
  intro s req hr hdao
  have e63 : (2 : Int) ^ 63 = 9223372036854775808 := by norm_num
  rw [e63] at hr
  have hs1 : 1 ≤ (if req.PageSize ≤ 0 then 10 else req.PageSize) := by
    split_ifs <;> omega
  have hs2 : (if req.PageSize ≤ 0 then 10 else req.PageSize) < 9223372036854775808 := by
    split_ifs <;> omega
  rw [service.ListUsers_eq s req _ _ rfl rfl, hdao, hf]
  simp only [impl.elements]
  rw [service.pagesOf_ceil 0 _ (by omega) (by decide) (by omega)]
  refine ⟨_, rfl, rfl, rfl, ?_⟩
  show (0 + (if req.PageSize ≤ 0 then 10 else req.PageSize) - 1) /
    (if req.PageSize ≤ 0 then 10 else req.PageSize) = 0
  exact Int.ediv_eq_zero_of_lt (by omega) (by omega)

/-- C25, at the database `sample.emptyDB` and the page request of page 2 and page size
3. -/
theorem FindPage_empty_witness :
    impl.UserDAOImpl.FindPage ⟨sample.emptyDB⟩ 3 3 = ([impl.Query.Count], (some [], 0, none)) ∧
    ∃ resp, (service.UserService.ListUsers ⟨sample.emptyUsers⟩ { Page := 2, PageSize := 3 }).2 =
        .ret (some resp) none ∧ resp.List = [] ∧
      resp.PageResponse.Total = 0 ∧ resp.PageResponse.Pages = 0 :=
  ⟨(FindPage_empty ⟨sample.emptyDB⟩ rfl).1 3 3,
   (FindPage_empty ⟨sample.emptyDB⟩ rfl).2 ⟨sample.emptyUsers⟩ { Page := 2, PageSize := 3 }
     (by decide) (fun _ _ => rfl)⟩
/-! ### The handlers of update and delete -/

namespace handler

/-- The claim C23 fails on the code: for a well-formed id, a bound request and a
configured DES key, when `UserService.UpdateUser` finds no user with that id, or returns
any other error (that of the repository's `Update` among them), the handler `UpdateUser`
writes the envelope with code 500, and when the repository's `Delete` reports an error the
handler `DeleteUser` writes the envelope with code 500; neither handler ever writes an
envelope with code 404. -/
theorem UpdateUser_DeleteUser_not_found (h : UserHandler) (idStr : GoString) (id : Nat)
    (req : dto.UserUpdateRequest) (auth : router.AuthConfig)
    (hid : strconv.ParseUint32 idStr = some id) (hcfg : h.config.Auth = some auth)
    (hkey : auth.DESKey ≠ []) :
    (h.userService.userDAO.FindByID id = (none, none) →
      h.UpdateUser idStr (.ok req) =
        .json 200 { Code := 500, Message := "更新用户失败: user not found", Data := .null }) ∧
    (∀ err, h.userService.UpdateUser id req auth.DESKey = .ret () (some err) →
      h.UpdateUser idStr (.ok req) =
        .json 200 { Code := 500, Message := "更新用户失败: " ++ err.Error, Data := .null }) ∧
    (∀ err, h.userService.userDAO.Delete id = some err →
      h.DeleteUser idStr =
        .json 200 { Code := 500, Message := "删除用户失败: " ++ err.Error, Data := .null }) ∧
    (∀ bind, (h.UpdateUser idStr bind).code ≠ some 404) ∧
    (h.DeleteUser idStr).code ≠ some 404 := by
  have hu : ∀ err, h.userService.UpdateUser id req auth.DESKey = .ret () (some err) →
      h.UpdateUser idStr (.ok req) =
        .json 200 { Code := 500, Message := "更新用户失败: " ++ err.Error, Data := .null } := by
    intro err he
    unfold UserHandler.UpdateUser
    simp only [hid, hcfg, hkey, if_false, he]
    rfl
  refine ⟨?_, hu, ?_, ?_, ?_⟩
  · intro hf
    have := hu (errors.New "user not found") (by
      unfold service.UserService.UpdateUser
      simp only [hf])
    exact this
  · intro err he
    unfold UserHandler.DeleteUser service.UserService.DeleteUser
    simp only [hid, he]
    rfl
  · intro bind
    unfold UserHandler.UpdateUser
    simp only [hid, hcfg, hkey, if_false]
    cases bind with
    | error e => simp [BadRequest, Error, Written.code]
    | ok r =>
      simp only
      cases h.userService.UpdateUser id r auth.DESKey with
      | panic msg => simp [Written.code]
      | ret v e =>
        cases e with
        | none => simp [Success, Written.code]
        | some e => simp [InternalServerError, Error, Written.code]
  · unfold UserHandler.DeleteUser service.UserService.DeleteUser
    simp only [hid]
    cases h.userService.userDAO.Delete id with
    | none => simp [Success, Written.code]
    | some e => simp [InternalServerError, Error, Written.code]

/-- C23 fails at the id 999 on a repository whose users have the ids 1 to 5: both handlers
answer with code 500. -/
theorem UpdateUser_DeleteUser_not_found_witness :
    UserHandler.UpdateUser ⟨⟨sample.fiveUsers⟩, sample.cfg⟩ (ascii "999")
        (.ok { IsLocked := some 1 }) =
      .json 200 { Code := 500, Message := "更新用户失败: user not found", Data := .null } ∧
    UserHandler.DeleteUser ⟨⟨sample.fiveUsers⟩, sample.cfg⟩ (ascii "999") =
      .json 200 { Code := 500, Message := "删除用户失败: user not found", Data := .null } :=
  ⟨(UpdateUser_DeleteUser_not_found ⟨⟨sample.fiveUsers⟩, sample.cfg⟩ (ascii "999") 999
      { IsLocked := some 1 } _ (by decide) rfl (by decide)).1 (by rfl),
   (UpdateUser_DeleteUser_not_found ⟨⟨sample.fiveUsers⟩, sample.cfg⟩ (ascii "999") 999
      { IsLocked := some 1 } _ (by decide) rfl (by decide)).2.2.1
      (errors.New "user not found") (by rfl)⟩

end handler
namespace service

/-! ### The six list operations -/

theorem ListDevices_spec {E R : Type} (repo : dao.Pager E) (conv : Option E → Option R)
    (req : dto.PageRequest) (page pageSize : Int)
    (hp : page = if req.Page ≤ 0 then 1 else req.Page)
    (hs : pageSize = if req.PageSize ≤ 0 then 10 else req.PageSize) :
    (ListDevices repo conv req).1 =
      [Call.FindPage (wrapInt (wrapInt (page - 1) * pageSize)) pageSize] ∧
    ∀ rows total,
      repo.FindPage (wrapInt (wrapInt (page - 1) * pageSize)) pageSize = (rows, total, none) →
      ∃ pages, pagesOf total pageSize = .ok pages ∧
        (ListDevices repo conv req).2 =
          .ret (some (dto.NewListResponseFromEntities conv rows
            { Total := total, Page := page, PageSize := pageSize, Pages := pages })) none := by
  have hs1 : 0 < pageSize := by
    rw [hs]
    split_ifs <;> omega
  have hne : ¬ pageSize = 0 := by omega
  subst hp
  have hq : (if req.PageSize ≤ 0 then 10 else req.PageSize) = pageSize := hs.symm
  constructor
  · unfold ListDevices
    by_cases h1 : req.Page ≤ 0 <;> by_cases h2 : req.PageSize ≤ 0 <;>
      simp only [h1, h2, if_true, if_false] at hq ⊢ <;> subst hq <;>
      (split <;> [rfl; (split <;> rfl)])
  · intro rows total hf
    refine ⟨_, pagesOf_pos total pageSize hs1, ?_⟩
    unfold ListDevices
    by_cases h1 : req.Page ≤ 0 <;> by_cases h2 : req.PageSize ≤ 0 <;>
      simp only [h1, h2, if_true, if_false] at hq hf ⊢ <;> subst hq <;>
      simp only [hf, gt_iff_lt, hs1, if_true, divInt64, hne, if_false]

theorem ListTasks_spec {E R : Type} (repo : dao.Pager E) (conv : Option E → Option R)
    (req : dto.PageRequest) (page pageSize : Int)
    (hp : page = if req.Page ≤ 0 then 1 else req.Page)
    (hs : pageSize = if req.PageSize ≤ 0 then 10 else req.PageSize) :
    (ListTasks repo conv req).1 =
      [Call.FindPage (wrapInt (wrapInt (page - 1) * pageSize)) pageSize] ∧
    ∀ rows total,
      repo.FindPage (wrapInt (wrapInt (page - 1) * pageSize)) pageSize = (rows, total, none) →
      ∃ pages, pagesOf total pageSize = .ok pages ∧
        (ListTasks repo conv req).2 =
          .ret (some (dto.NewListResponseFromEntities conv rows
            { Total := total, Page := page, PageSize := pageSize, Pages := pages })) none := by
  have hs1 : 0 < pageSize := by
    rw [hs]
    split_ifs <;> omega
  have hne : ¬ pageSize = 0 := by omega
  subst hp
  have hq : (if req.PageSize ≤ 0 then 10 else req.PageSize) = pageSize := hs.symm
  constructor
  · unfold ListTasks
    by_cases h1 : req.Page ≤ 0 <;> by_cases h2 : req.PageSize ≤ 0 <;>
      simp only [h1, h2, if_true, if_false] at hq ⊢ <;> subst hq <;>
      (split <;> [rfl; (split <;> rfl)])
  · intro rows total hf
    refine ⟨_, pagesOf_pos total pageSize hs1, ?_⟩
    unfold ListTasks
    by_cases h1 : req.Page ≤ 0 <;> by_cases h2 : req.PageSize ≤ 0 <;>
      simp only [h1, h2, if_true, if_false] at hq hf ⊢ <;> subst hq <;>
      simp only [hf, gt_iff_lt, hs1, if_true, divInt64, hne, if_false]

theorem ListPCDFiles_spec {E R : Type} (repo : dao.Pager E) (conv : Option E → Option R)
    (req : dto.PageRequest) (page pageSize : Int)
    (hp : page = if req.Page ≤ 0 then 1 else req.Page)
    (hs : pageSize = if req.PageSize ≤ 0 then 10 else req.PageSize) :
    (ListPCDFiles repo conv req).1 =
      [Call.FindPage (wrapInt (wrapInt (page - 1) * pageSize)) pageSize] ∧
    ∀ rows total,
      repo.FindPage (wrapInt (wrapInt (page - 1) * pageSize)) pageSize = (rows, total, none) →
      ∃ pages, pagesOf total pageSize = .ok pages ∧
        (ListPCDFiles repo conv req).2 =
          .ret (some (dto.NewListResponseFromEntities conv rows
            { Total := total, Page := page, PageSize := pageSize, Pages := pages })) none := by
  have hs1 : 0 < pageSize := by
    rw [hs]
    split_ifs <;> omega
  have hne : ¬ pageSize = 0 := by omega
  subst hp
  have hq : (if req.PageSize ≤ 0 then 10 else req.PageSize) = pageSize := hs.symm
  constructor
  · unfold ListPCDFiles
    by_cases h1 : req.Page ≤ 0 <;> by_cases h2 : req.PageSize ≤ 0 <;>
      simp only [h1, h2, if_true, if_false] at hq ⊢ <;> subst hq <;>
      (split <;> [rfl; (split <;> rfl)])
  · intro rows total hf
    refine ⟨_, pagesOf_pos total pageSize hs1, ?_⟩
    unfold ListPCDFiles
    by_cases h1 : req.Page ≤ 0 <;> by_cases h2 : req.PageSize ≤ 0 <;>
      simp only [h1, h2, if_true, if_false] at hq hf ⊢ <;> subst hq <;>
      simp only [hf, gt_iff_lt, hs1, if_true, divInt64, hne, if_false]

theorem ListSemanticMaps_spec {E R : Type} (repo : dao.Pager E) (conv : Option E → Option R)
    (req : dto.PageRequest) (page pageSize : Int)
    (hp : page = if req.Page ≤ 0 then 1 else req.Page)
    (hs : pageSize = if req.PageSize ≤ 0 then 10 else req.PageSize) :
    (ListSemanticMaps repo conv req).1 =
      [Call.FindPage (wrapInt (wrapInt (page - 1) * pageSize)) pageSize] ∧
    ∀ rows total,
      repo.FindPage (wrapInt (wrapInt (page - 1) * pageSize)) pageSize = (rows, total, none) →
      ∃ pages, pagesOf total pageSize = .ok pages ∧
        (ListSemanticMaps repo conv req).2 =
          .ret (some (dto.NewListResponseFromEntities conv rows
            { Total := total, Page := page, PageSize := pageSize, Pages := pages })) none := by
  have hs1 : 0 < pageSize := by
    rw [hs]
    split_ifs <;> omega
  have hne : ¬ pageSize = 0 := by omega
  subst hp
  have hq : (if req.PageSize ≤ 0 then 10 else req.PageSize) = pageSize := hs.symm
  constructor
  · unfold ListSemanticMaps
    by_cases h1 : req.Page ≤ 0 <;> by_cases h2 : req.PageSize ≤ 0 <;>
      simp only [h1, h2, if_true, if_false] at hq ⊢ <;> subst hq <;>
      (split <;> [rfl; (split <;> rfl)])
  · intro rows total hf
    refine ⟨_, pagesOf_pos total pageSize hs1, ?_⟩
    unfold ListSemanticMaps
    by_cases h1 : req.Page ≤ 0 <;> by_cases h2 : req.PageSize ≤ 0 <;>
      simp only [h1, h2, if_true, if_false] at hq hf ⊢ <;> subst hq <;>
      simp only [hf, gt_iff_lt, hs1, if_true, divInt64, hne, if_false]

theorem ListOperations_spec {E R : Type} (repo : dao.Pager E) (conv : Option E → Option R)
    (req : dto.PageRequest) (page pageSize : Int)
    (hp : page = if req.Page ≤ 0 then 1 else req.Page)
    (hs : pageSize = if req.PageSize ≤ 0 then 10 else req.PageSize) :
    (ListOperations repo conv req).1 =
      [Call.FindPage (wrapInt (wrapInt (page - 1) * pageSize)) pageSize] ∧
    ∀ rows total,
      repo.FindPage (wrapInt (wrapInt (page - 1) * pageSize)) pageSize = (rows, total, none) →
      ∃ pages, pagesOf total pageSize = .ok pages ∧
        (ListOperations repo conv req).2 =
          .ret (some (dto.NewListResponseFromEntities conv rows
            { Total := total, Page := page, PageSize := pageSize, Pages := pages })) none := by
  have hs1 : 0 < pageSize := by
    rw [hs]
    split_ifs <;> omega
  have hne : ¬ pageSize = 0 := by omega
  subst hp
  have hq : (if req.PageSize ≤ 0 then 10 else req.PageSize) = pageSize := hs.symm
  constructor
  · unfold ListOperations
    by_cases h1 : req.Page ≤ 0 <;> by_cases h2 : req.PageSize ≤ 0 <;>
      simp only [h1, h2, if_true, if_false] at hq ⊢ <;> subst hq <;>
      (split <;> [rfl; (split <;> rfl)])
  · intro rows total hf
    refine ⟨_, pagesOf_pos total pageSize hs1, ?_⟩
    unfold ListOperations
    by_cases h1 : req.Page ≤ 0 <;> by_cases h2 : req.PageSize ≤ 0 <;>
      simp only [h1, h2, if_true, if_false] at hq hf ⊢ <;> subst hq <;>
      simp only [hf, gt_iff_lt, hs1, if_true, divInt64, hne, if_false]

end service
namespace service

theorem ListUsers_spec (s : UserService) (req : dto.PageRequest) (page pageSize : Int)
    (hp : page = if req.Page ≤ 0 then 1 else req.Page)
    (hs : pageSize = if req.PageSize ≤ 0 then 10 else req.PageSize) :
    (s.ListUsers req).1 =
      [Call.FindPage (wrapInt (wrapInt (page - 1) * pageSize)) pageSize] ∧
    ∀ rows total,
      s.userDAO.FindPage (wrapInt (wrapInt (page - 1) * pageSize)) pageSize =
        (rows, total, none) →
      ∃ pages, pagesOf total pageSize = .ok pages ∧
        (s.ListUsers req).2 =
          .ret (some (dto.NewUserListResponseFromEntities rows
            { Total := total, Page := page, PageSize := pageSize, Pages := pages })) none := by
  have hs1 : 0 < pageSize := by
    rw [hs]
    split_ifs <;> omega
  refine ⟨ListUsers_calls s req page pageSize hp hs, ?_⟩
  intro rows total hf
  refine ⟨_, pagesOf_pos total pageSize hs1, ?_⟩
  rw [ListUsers_eq s req page pageSize hp hs, hf]
  simp only [pagesOf_pos total pageSize hs1]

theorem pagesOf_unique (total pageSize p q : Int) (hp : pagesOf total pageSize = .ok p)
    (hq : pagesOf total pageSize = .ok q) : p = q := by
  rw [hp] at hq
  injection hq

theorem findPage_rows {E : Type} (r : List (Option E) × Int × Option GoError) (total : Int)
    (h : r.2 = (total, none)) : r = (r.1, total, none) := by
  obtain ⟨a, b⟩ := r
  simp only at h
  rw [h]

/-- C24: the six list operations make the same call: for every page request each passes
to `FindPage` of its repository the offset and the limit that `ListUsers` passes; and
whenever the six repositories answer that call without an error and with the same total,
the six operations return responses with one and the same `PageResponse` (total, pages,
page, page size). -/
theorem list_operations_agree {E1 R1 E2 R2 E3 R3 E4 R4 E5 R5 : Type}
    (userDAO : dao.UserDAO)
    (deviceDAO : dao.Pager E1) (deviceResponse : Option E1 → Option R1)
    (taskDAO : dao.Pager E2) (taskResponse : Option E2 → Option R2)
    (pcdDAO : dao.Pager E3) (pcdResponse : Option E3 → Option R3)
    (semanticDAO : dao.Pager E4) (semanticResponse : Option E4 → Option R4)
    (operationDAO : dao.Pager E5) (operationResponse : Option E5 → Option R5)
    (req : dto.PageRequest) :
    (ListDevices deviceDAO deviceResponse req).1 = (UserService.ListUsers ⟨userDAO⟩ req).1 ∧
    (ListTasks taskDAO taskResponse req).1 = (UserService.ListUsers ⟨userDAO⟩ req).1 ∧
    (ListPCDFiles pcdDAO pcdResponse req).1 = (UserService.ListUsers ⟨userDAO⟩ req).1 ∧
    (ListSemanticMaps semanticDAO semanticResponse req).1 =
      (UserService.ListUsers ⟨userDAO⟩ req).1 ∧
    (ListOperations operationDAO operationResponse req).1 =
      (UserService.ListUsers ⟨userDAO⟩ req).1 ∧
    ∀ offset limit total : Int,
      (UserService.ListUsers ⟨userDAO⟩ req).1 = [Call.FindPage offset limit] →
      (userDAO.FindPage offset limit).2 = (total, none) →
      (deviceDAO.FindPage offset limit).2 = (total, none) →
      (taskDAO.FindPage offset limit).2 = (total, none) →
      (pcdDAO.FindPage offset limit).2 = (total, none) →
      (semanticDAO.FindPage offset limit).2 = (total, none) →
      (operationDAO.FindPage offset limit).2 = (total, none) →
      ∃ page : dto.PageResponse,
        (∃ r, (UserService.ListUsers ⟨userDAO⟩ req).2 = .ret (some r) none ∧
          r.PageResponse = page) ∧
        (∃ r, (ListDevices deviceDAO deviceResponse req).2 = .ret (some r) none ∧
          r.PageResponse = page) ∧
        (∃ r, (ListTasks taskDAO taskResponse req).2 = .ret (some r) none ∧
          r.PageResponse = page) ∧
        (∃ r, (ListPCDFiles pcdDAO pcdResponse req).2 = .ret (some r) none ∧
          r.PageResponse = page) ∧
        (∃ r, (ListSemanticMaps semanticDAO semanticResponse req).2 = .ret (some r) none ∧
          r.PageResponse = page) ∧
        (∃ r, (ListOperations operationDAO operationResponse req).2 = .ret (some r) none ∧
          r.PageResponse = page) := by
  obtain ⟨hu1, hu2⟩ := ListUsers_spec ⟨userDAO⟩ req _ _ rfl rfl
  obtain ⟨hd1, hd2⟩ := ListDevices_spec deviceDAO deviceResponse req _ _ rfl rfl
  obtain ⟨ht1, ht2⟩ := ListTasks_spec taskDAO taskResponse req _ _ rfl rfl
  obtain ⟨hf1, hf2⟩ := ListPCDFiles_spec pcdDAO pcdResponse req _ _ rfl rfl
  obtain ⟨hm1, hm2⟩ := ListSemanticMaps_spec semanticDAO semanticResponse req _ _ rfl rfl
  obtain ⟨ho1, ho2⟩ := ListOperations_spec operationDAO operationResponse req _ _ rfl rfl
  refine ⟨hd1.trans hu1.symm, ht1.trans hu1.symm, hf1.trans hu1.symm, hm1.trans hu1.symm,
    ho1.trans hu1.symm, ?_⟩
  intro offset limit total hcall au ad at1 af am ao
  rw [hu1] at hcall
  simp only [List.cons.injEq, Call.FindPage.injEq, and_true] at hcall
  obtain ⟨eo, el⟩ := hcall
  rw [← eo, ← el] at au ad at1 af am ao
  obtain ⟨pu, hpu, ru⟩ := hu2 _ total (findPage_rows _ total au)
  obtain ⟨pd, hpd, rd⟩ := hd2 _ total (findPage_rows _ total ad)
  obtain ⟨pt, hpt, rt⟩ := ht2 _ total (findPage_rows _ total at1)
  obtain ⟨pf, hpf, rf⟩ := hf2 _ total (findPage_rows _ total af)
  obtain ⟨pm, hpm, rm⟩ := hm2 _ total (findPage_rows _ total am)
  obtain ⟨po, hpo, ro⟩ := ho2 _ total (findPage_rows _ total ao)
  have e1 := pagesOf_unique _ _ _ _ hpd hpu
  have e2 := pagesOf_unique _ _ _ _ hpt hpu
  have e3 := pagesOf_unique _ _ _ _ hpf hpu
  have e4 := pagesOf_unique _ _ _ _ hpm hpu
  have e5 := pagesOf_unique _ _ _ _ hpo hpu
  subst e1 e2 e3 e4 e5
  exact ⟨_, ⟨_, ru, rfl⟩, ⟨_, rd, rfl⟩, ⟨_, rt, rfl⟩, ⟨_, rf, rfl⟩, ⟨_, rm, rfl⟩,
    ⟨_, ro, rfl⟩⟩

/-- C24, at page 2 and page size 3 on repositories of five rows: the page response of
the six operations is total 5, pages 2, page 2, page size 3. -/
theorem list_operations_agree_witness :
    ∃ page : dto.PageResponse,
      (∃ r, (UserService.ListUsers ⟨sample.fiveUsers⟩ { Page := 2, PageSize := 3 }).2 =
        .ret (some r) none ∧ r.PageResponse = page) ∧
      (∃ r, (ListDevices sample.fiveRows (fun x => x) { Page := 2, PageSize := 3 }).2 =
        .ret (some r) none ∧ r.PageResponse = page) ∧
      (∃ r, (ListTasks sample.fiveRows (fun x => x) { Page := 2, PageSize := 3 }).2 =
        .ret (some r) none ∧ r.PageResponse = page) ∧
      (∃ r, (ListPCDFiles sample.fiveRows (fun x => x) { Page := 2, PageSize := 3 }).2 =
        .ret (some r) none ∧ r.PageResponse = page) ∧
      (∃ r, (ListSemanticMaps sample.fiveRows (fun x => x) { Page := 2, PageSize := 3 }).2 =
        .ret (some r) none ∧ r.PageResponse = page) ∧
      (∃ r, (ListOperations sample.fiveRows (fun x => x) { Page := 2, PageSize := 3 }).2 =
        .ret (some r) none ∧ r.PageResponse = page) :=
  (list_operations_agree sample.fiveUsers sample.fiveRows (fun x => x) sample.fiveRows
    (fun x => x) sample.fiveRows (fun x => x) sample.fiveRows (fun x => x) sample.fiveRows
    (fun x => x) { Page := 2, PageSize := 3 }).2.2.2.2.2 3 3 5 (by rfl) (by rfl) (by rfl)
    (by rfl) (by rfl) (by rfl) (by rfl)

end service

end RobotScheduler
